import Mathlib

/-!
# License record protocol of `rsa_license_main.c`

A shallow embedding of the plaintext license codec, of the validity window
normalizer and of the command line resolver of `src/rsa_license_main.c`,
followed by the properties proved about them.

Conventions of the embedding.

* A byte buffer (`char *buf` together with `size_t len`) is a `List Nat` of
  byte values; `len` is the length of the list.  A decode cursor
  (`*buf += n; *len -= n`) is the list of the bytes that remain.
* `u64` is a `Nat`, `time_t` is an `Int` (64 bit, two's complement); both are
  stored by `memcpy` in the byte order of the host, taken little endian here.
* A C string argument (`char *`) is the list of the bytes found at the
  pointer; the string ends at its first NUL byte, and a list without a NUL
  byte is followed by its terminator.
* `realloc` always succeeds.
* A C function with a status result and output parameters returns `none`
  (status `-1`, nothing written) or `some` of what it wrote; the two entry
  points whose partial writes are visible return the status and the
  written state.
* The C library pair `gmtime_r` and `mktime` is a parameter
  `mktime_gmtime : Int → Int` giving `mktime(gmtime_r(t))`.
* The command line reaches `parse_args` through `getopt_long`; the function
  is embedded over the list of the results of the successive calls, and
  `time(NULL)` is its parameter `now`.  What it prints is the list of its
  messages.  `strtol`, `strncmp` and `snprintf` follow the C standard.
* Arithmetic on `time_t` is that of the integers; the one product of two
  `int` wraps to 32 bits.
-/

namespace RsaLicense

/-! ## Constants and macros -/

/-- The macro `FILE_FORMAT_VERSION`. -/
def FILE_FORMAT_VERSION : Nat := 1

/-- The macro `VENDOR_NAME_MAX_LENGTH`. -/
def VENDOR_NAME_MAX_LENGTH : Nat := 64

/-- The macro `SECONDS_IN_HOUR`. -/
def SECONDS_IN_HOUR : Int := 60 * 60

/-- The macro `SECONDS_IN_DAY`. -/
def SECONDS_IN_DAY : Int := SECONDS_IN_HOUR * 24

/-- The macro `ROUND_UP(val, round)`: `(((val) + (round) - 1) / (round)) * (round)`,
with the division of C, which truncates toward zero. -/
def ROUND_UP (val round : Int) : Int :=
  Int.tdiv (val + round - 1) round * round

/-- The struct `rsa_license_data`. -/
structure rsa_license_data where
  version : Nat
  vendor_name : List Nat
  time_limit : Int
deriving DecidableEq

/-! ## Machine integers and C strings -/

/-- The first `n` bytes of the little endian representation of `v`. -/
def le_bytes : Nat → Nat → List Nat
  | 0, _ => []
  | n + 1, v => v % 256 :: le_bytes n (v / 256)

/-- The number whose little endian representation is the byte list. -/
def le_value : List Nat → Nat
  | [] => 0
  | b :: bs => b + 256 * le_value bs

/-- The object representation of a `u64` (`sizeof(u64)` is 8). -/
def u64_bytes (version : Nat) : List Nat :=
  le_bytes 8 version

/-- The object representation of a `time_t` (`sizeof(time_t)` is 8). -/
def time_t_bytes (time_limit : Int) : List Nat :=
  le_bytes 8 (time_limit % 2 ^ 64).toNat

/-- The `time_t` whose object representation is the byte list. -/
def time_t_value (bs : List Nat) : Int :=
  if le_value bs < 2 ^ 63 then (le_value bs : Int) else (le_value bs : Int) - 2 ^ 64

/-- The conversion `(int)x` of a `time_t` to a 32 bit `int`: the value is
reduced modulo `2 ^ 32` into the range of `int`, as gcc, clang and MSVC
define it. -/
def int_cast (x : Int) : Int :=
  (x + 2 ^ 31) % 2 ^ 32 - 2 ^ 31

/-- The C library function `strlen`. -/
def strlen : List Nat → Nat
  | [] => 0
  | b :: s => if b = 0 then 0 else strlen s + 1

/-- The bytes of a C string, up to and without its terminator: what `%s`
prints and what a reader of a NUL terminated string sees. -/
def c_string : List Nat → List Nat
  | [] => []
  | b :: s => if b = 0 then [] else b :: c_string s

/-! ## Encoder -/

/-- The function `rsa_encrypt_format_version`. -/
def rsa_encrypt_format_version (buf : List Nat) (version : Nat) : Option (List Nat) :=
  some (buf ++ u64_bytes version)

/-- The first `i` rounds of the loop of `rsa_encrypt_vendor_name`:
`(*buf)[*len + i] = vendor_name[i % (name_len + 1)]`. -/
def vendor_name_fill (vendor_name : List Nat) (name_len len : Nat) : Nat → List Nat → List Nat
  | 0, buf => buf
  | i + 1, buf =>
    (vendor_name_fill vendor_name name_len len i buf).set (len + i)
      (vendor_name.getD (i % (name_len + 1)) 0)

/-- The function `rsa_encrypt_vendor_name`.  The bytes added by `realloc` are
indeterminate in C and are zero here; the loop overwrites every one of them. -/
def rsa_encrypt_vendor_name (buf : List Nat) (vendor_name : List Nat) : Option (List Nat) :=
  let name_len := strlen vendor_name
  if VENDOR_NAME_MAX_LENGTH ≤ name_len then none
  else
    some (vendor_name_fill vendor_name name_len buf.length VENDOR_NAME_MAX_LENGTH
      (buf ++ List.replicate VENDOR_NAME_MAX_LENGTH 0))

/-- The function `rsa_encrypt_time_limit`. -/
def rsa_encrypt_time_limit (buf : List Nat) (time_limit : Int) : Option (List Nat) :=
  some (buf ++ time_t_bytes time_limit)

/-- The function `rsa_license_create_rivermax`: the plaintext of the record, or
`none` when it returns `-1` (the diagnostics it prints then are left out). -/
def rsa_license_create_rivermax (data : rsa_license_data) : Option (List Nat) :=
  match rsa_encrypt_format_version [] data.version with
  | none => none
  | some buf1 =>
    match rsa_encrypt_vendor_name buf1 data.vendor_name with
    | none => none
    | some buf2 => rsa_encrypt_time_limit buf2 data.time_limit

/-! ## Normalizer -/

/-- The function `round_up_end_of_day_localtime`; `(time_t)-1` is its error
value.  Arithmetic on `time_t` is that of the integers (signed overflow is
undefined in C). -/
def round_up_end_of_day_localtime (mktime_gmtime : Int → Int) (time_limit : Int) : Int :=
  if time_limit = 0 then 0
  else
    let gmt_ts := mktime_gmtime time_limit
    if int_cast gmt_ts = -1 then -1
    else
      let gmt_offset := time_limit - gmt_ts
      ROUND_UP (time_limit + gmt_offset) SECONDS_IN_DAY - gmt_offset - 1

/-- The calendar conversion `mktime(gmtime_r(t))` of a host whose local time
is `off` seconds east of UTC all year round: the broken down UTC time of `t`,
read as local time, is the instant `t - off`. -/
def mktime_gmtime_fixed (off : Int) (t : Int) : Int :=
  t - off

/-! ## Decoder -/

/-- The function `rsa_decrypt_version`: the version read and the cursor after it. -/
def rsa_decrypt_version (buf : List Nat) : Option (Nat × List Nat) :=
  if buf.length < 8 then none
  else some (le_value (buf.take 8), buf.drop 8)

/-- The function `rsa_decrypt_vendor_name`: the 64 bytes copied and the cursor
after them. -/
def rsa_decrypt_vendor_name (buf : List Nat) : Option (List Nat × List Nat) :=
  if buf.length < VENDOR_NAME_MAX_LENGTH then none
  else some (buf.take VENDOR_NAME_MAX_LENGTH, buf.drop VENDOR_NAME_MAX_LENGTH)

/-- The function `rsa_decrypt_time_limit`: the normalized time limit and the
cursor after the field. -/
def rsa_decrypt_time_limit (mktime_gmtime : Int → Int) (buf : List Nat) :
    Option (Int × List Nat) :=
  if buf.length < 8 then none
  else
    let abs_ts := time_t_value (buf.take 8)
    let eod_ts := round_up_end_of_day_localtime mktime_gmtime abs_ts
    if int_cast eod_ts = -1 then none
    else some (eod_ts, buf.drop 8)

/-- The function `rsa_extract_version`. -/
def rsa_extract_version (buf : List Nat) (data : rsa_license_data) :
    Option (rsa_license_data × List Nat) :=
  match rsa_decrypt_version buf with
  | none => none
  | some (version, rest) => some ({ data with version := version }, rest)

/-- The function `rsa_extract_vendor_name`. -/
def rsa_extract_vendor_name (buf : List Nat) (data : rsa_license_data) :
    Option (rsa_license_data × List Nat) :=
  match rsa_decrypt_vendor_name buf with
  | none => none
  | some (vendor_name, rest) => some ({ data with vendor_name := vendor_name }, rest)

/-- The function `rsa_extract_time_limit`. -/
def rsa_extract_time_limit (mktime_gmtime : Int → Int) (buf : List Nat)
    (data : rsa_license_data) : Option (rsa_license_data × List Nat) :=
  match rsa_decrypt_time_limit mktime_gmtime buf with
  | none => none
  | some (time_limit, rest) => some ({ data with time_limit := time_limit }, rest)

/-- The function `rsa_license_extract_rivermax`: its status and the record of
the caller after the call. -/
def rsa_license_extract_rivermax (mktime_gmtime : Int → Int) (buf : List Nat)
    (data : rsa_license_data) : Int × rsa_license_data :=
  match rsa_extract_version buf data with
  | none => (-1, data)
  | some (data1, buf1) =>
    match rsa_extract_vendor_name buf1 data1 with
    | none => (-1, data1)
    | some (data2, buf2) =>
      match rsa_extract_time_limit mktime_gmtime buf2 data2 with
      | none => (-1, data2)
      | some (data3, _) => (0, data3)

/-- A line printed by the inspect path. -/
inductive Line where
  /-- The line `License format version: %llu`. -/
  | license_format_version (version : Nat)
  /-- The line `Could not extract license format version`. -/
  | could_not_extract_version
  /-- The line `Vendor name: %s`. -/
  | vendor_name (name : List Nat)
  /-- The line `Could not extract vendor name`. -/
  | could_not_extract_vendor_name
  /-- The line `Valid through: %s` for the string of a time limit. -/
  | valid_through (time_limit : Int)
  /-- The line `Could not extract time limit`. -/
  | could_not_extract_time_limit
  /-- The line `Error: No such license version`. -/
  | no_such_license_version
  /-- The line `Error: license tool supports license format versions up to %d`. -/
  | supports_versions_up_to (version : Nat)
  /-- The line `Error: unknown license version error`. -/
  | unknown_license_version_error
deriving DecidableEq

/-- The function `rsa_info_version`: what it read, and what it printed. -/
def rsa_info_version (buf : List Nat) : Option (Nat × List Nat) × List Line :=
  match rsa_decrypt_version buf with
  | none => (none, [])
  | some (version_enc, rest) =>
    (some (version_enc, rest), [Line.license_format_version version_enc])

/-- The function `rsa_info_vendor_name`: the cursor after the field, and what
it printed. -/
def rsa_info_vendor_name (buf : List Nat) : Option (List Nat) × List Line :=
  match rsa_decrypt_vendor_name buf with
  | none => (none, [])
  | some (vendor_name, rest) => (some rest, [Line.vendor_name (c_string vendor_name)])

/-- The function `rsa_info_time_limit`: the cursor after the field, and what
it printed. -/
def rsa_info_time_limit (mktime_gmtime : Int → Int) (buf : List Nat) :
    Option (List Nat) × List Line :=
  match rsa_decrypt_time_limit mktime_gmtime buf with
  | none => (none, [])
  | some (time_limit, rest) => (some rest, [Line.valid_through time_limit])

/-- The function `rsa_license_info_parse_v1`: its status and what it printed. -/
def rsa_license_info_parse_v1 (mktime_gmtime : Int → Int) (buf : List Nat) :
    Int × List Line :=
  match rsa_info_vendor_name buf with
  | (none, out1) => (-1, out1 ++ [Line.could_not_extract_vendor_name])
  | (some buf1, out1) =>
    match rsa_info_time_limit mktime_gmtime buf1 with
    | (none, out2) => (-1, out1 ++ out2 ++ [Line.could_not_extract_time_limit])
    | (some _, out2) => (0, out1 ++ out2)

/-- The function `rsa_license_info_rivermax`: its status and what it printed.
In the `default` branch the test of `FILE_FORMAT_VERSION < version` is a
statement of its own and not the `else` of the test of `!version`. -/
def rsa_license_info_rivermax (mktime_gmtime : Int → Int) (buf : List Nat) :
    Int × List Line :=
  match rsa_info_version buf with
  | (none, out) => (-1, out ++ [Line.could_not_extract_version])
  | (some (version, buf1), out) =>
    if version = 1 then
      let r := rsa_license_info_parse_v1 mktime_gmtime buf1
      (r.1, out ++ r.2)
    else
      let out1 := if version = 0 then out ++ [Line.no_such_license_version] else out
      let out2 :=
        if FILE_FORMAT_VERSION < version then
          out1 ++ [Line.supports_versions_up_to FILE_FORMAT_VERSION]
        else out1 ++ [Line.unknown_license_version_error]
      (-1, out2)

/-! ## Command line -/

/-- The macro `FILE_NAME_MAX_LENGTH`. -/
def FILE_NAME_MAX_LENGTH : Nat := 256

/-- The macro `SECONDS_IN_WEEK`. -/
def SECONDS_IN_WEEK : Int := SECONDS_IN_DAY * 7

/-- The macro `SECONDS_IN_MONTH`. -/
def SECONDS_IN_MONTH : Int := SECONDS_IN_DAY * 30

/-- The macro `SECONDS_IN_YEAR`. -/
def SECONDS_IN_YEAR : Int := SECONDS_IN_DAY * 365

/-- The enumerator `RSA_OPT_LIC_HELP` of `rsa_opt_t`. -/
def RSA_OPT_LIC_HELP : Nat := 0

/-- The enumerator `RSA_OPT_LIC_CREATE` of `rsa_opt_t`. -/
def RSA_OPT_LIC_CREATE : Nat := 1

/-- The enumerator `RSA_OPT_LIC_INFO` of `rsa_opt_t`. -/
def RSA_OPT_LIC_INFO : Nat := 2

/-- The enumerator `RSA_OPT_LIC_TEST` of `rsa_opt_t`. -/
def RSA_OPT_LIC_TEST : Nat := 3

/-- The enumerator `RSA_OPT_LIC_VENDOR` of `rsa_opt_t`. -/
def RSA_OPT_LIC_VENDOR : Nat := 4

/-- The enumerator `RSA_OPT_LIC_TIME_UNIT` of `rsa_opt_t`. -/
def RSA_OPT_LIC_TIME_UNIT : Nat := 5

/-- The enumerator `RSA_OPT_LIC_TIME_LIMIT` of `rsa_opt_t`. -/
def RSA_OPT_LIC_TIME_LIMIT : Nat := 6

/-- The enumerator `RSA_OPT_LIC_KEY` of `rsa_opt_t`. -/
def RSA_OPT_LIC_KEY : Nat := 7

/-- The macro `OPT_FLAG(OPT)`: `((unsigned int)(1 << (OPT)))`. -/
def OPT_FLAG (opt : Nat) : Nat :=
  1 <<< opt

/-- The complement `~x` of an `unsigned int`, as it enters an `unsigned long`
expression. -/
def unsigned_int_not (x : Nat) : Nat :=
  2 ^ 32 - 1 - x % 2 ^ 32

/-- The macro `OPT_FLAG_LIC_DATA(flags)`. -/
def OPT_FLAG_LIC_DATA (flags : Nat) : Nat :=
  flags &&& (OPT_FLAG RSA_OPT_LIC_VENDOR ||| OPT_FLAG RSA_OPT_LIC_TIME_LIMIT |||
    OPT_FLAG RSA_OPT_LIC_TIME_UNIT)

/-- The macro `TU_VAL_DAY`, the string `day`. -/
def TU_VAL_DAY : List Nat := [100, 97, 121]

/-- The macro `TU_VAL_WEEK`, the string `week`. -/
def TU_VAL_WEEK : List Nat := [119, 101, 101, 107]

/-- The macro `TU_VAL_MONTH`, the string `month`. -/
def TU_VAL_MONTH : List Nat := [109, 111, 110, 116, 104]

/-- The macro `TU_VAL_YEAR`, the string `year`. -/
def TU_VAL_YEAR : List Nat := [121, 101, 97, 114]

/-- The C library function `strncmp`: the difference of the first bytes that
differ among the first `n`, where the comparison stops after a NUL. -/
def strncmp : List Nat → List Nat → Nat → Int
  | _, _, 0 => 0
  | s1, s2, n + 1 =>
    if s1.headD 0 ≠ s2.headD 0 then (s1.headD 0 : Int) - (s2.headD 0 : Int)
    else if s1.headD 0 = 0 then 0
    else strncmp s1.tail s2.tail n

/-- The function `is_str_prefix`: `!strncmp(s1, s2, strlen(s1))`. -/
def is_str_prefix (s1 s2 : List Nat) : Bool :=
  strncmp s1 s2 (strlen s1) = 0

/-- The C library function `isspace` in the C locale. -/
def isspace (c : Nat) : Bool :=
  c = 32 ∨ (9 ≤ c ∧ c ≤ 13)

/-- The C library function `isdigit`. -/
def isdigit (c : Nat) : Bool :=
  48 ≤ c ∧ c ≤ 57

/-- The white space that `strtol` skips. -/
def strtol_skip_space : List Nat → List Nat
  | [] => []
  | c :: s => if isspace c then strtol_skip_space s else c :: s

/-- The decimal digits that `strtol` reads: their value on top of `acc`, and
the rest of the string. -/
def strtol_digits : List Nat → Nat → Nat × List Nat
  | [], acc => (acc, [])
  | c :: s, acc => if isdigit c then strtol_digits s (acc * 10 + (c - 48)) else (acc, c :: s)

/-- The C library function `strtol(nptr, &endptr, 10)` with a 64 bit `long`:
the value and the string at `endptr`.  Without a digit the value is 0 and
`endptr` is `nptr`; a value out of range is `LONG_MIN` or `LONG_MAX`. -/
def strtol (nptr : List Nat) : Int × List Nat :=
  let s := strtol_skip_space nptr
  let digits := if s.headD 0 = 45 ∨ s.headD 0 = 43 then s.tail else s
  if isdigit (digits.headD 0) then
    let r := strtol_digits digits 0
    let v : Int := if s.headD 0 = 45 then -(r.1 : Int) else (r.1 : Int)
    (max (-2 ^ 63) (min (2 ^ 63 - 1) v), r.2)
  else (0, nptr)

/-- The C library function `snprintf(buf, size, "%s", s)`: the string left in
`buf`. -/
def snprintf_s (size : Nat) (s : List Nat) : List Nat :=
  (c_string s).take (size - 1)

/-- A message of `parse_args`: a call of `rsa_error_message` with the given
error, the usage summary, or the warning about an ignored unit. -/
inductive Msg where
  /-- The call `rsa_error_message(RSA_ERR_ARGREP)`. -/
  | RSA_ERR_ARGREP
  /-- The call `rsa_error_message(RSA_ERR_ARGCONFLICT)`. -/
  | RSA_ERR_ARGCONFLICT
  /-- The call `rsa_error_message(RSA_ERR_TIMUNIT, optarg)`. -/
  | RSA_ERR_TIMUNIT (optarg : List Nat)
  /-- The call `rsa_error_message(RSA_ERR_ARGNAN, optarg)`. -/
  | RSA_ERR_ARGNAN (optarg : List Nat)
  /-- The call `usage(app)`. -/
  | usage
  /-- The warning that no time limit is set, so that the unit option is ignored. -/
  | warning_unit_ignored
deriving DecidableEq

/-- What a call of `getopt_long` returns to `parse_args`: the character of a
recognised option with its `optarg`, or a character outside the `switch`. -/
inductive Opt where
  /-- The option `-h`, `--help`. -/
  | h
  /-- The option `-c`, `--create`. -/
  | c (optarg : List Nat)
  /-- The option `-i`, `--info`. -/
  | i (optarg : List Nat)
  /-- The option `-x`, `--test`. -/
  | x
  /-- The option `-k`, `--key`. -/
  | k (optarg : List Nat)
  /-- The option `-v`, `--vendor`. -/
  | v (optarg : List Nat)
  /-- The option `-u`, `--unit`. -/
  | u (optarg : List Nat)
  /-- The option `-t`, `--time-limit`. -/
  | t (optarg : List Nat)
  /-- An unrecognised option: the `default` label. -/
  | unrecognised
deriving DecidableEq

/-- The enumerator of `rsa_opt_t` that `parse_args` passes to `OPT_ADD` or
`OPT_ADD_ACTION` for an option. -/
def Opt.opt : Opt → Option Nat
  | Opt.h => some RSA_OPT_LIC_HELP
  | Opt.c _ => some RSA_OPT_LIC_CREATE
  | Opt.i _ => some RSA_OPT_LIC_INFO
  | Opt.x => some RSA_OPT_LIC_TEST
  | Opt.k _ => some RSA_OPT_LIC_KEY
  | Opt.v _ => some RSA_OPT_LIC_VENDOR
  | Opt.u _ => some RSA_OPT_LIC_TIME_UNIT
  | Opt.t _ => some RSA_OPT_LIC_TIME_LIMIT
  | Opt.unrecognised => none

/-- The variables of `parse_args`: its locals `flags`, `time_limit_unit` and
`time_limit_multiple`, its output parameters, and the messages printed so
far. -/
structure parse_args_state where
  flags : Nat
  action : Nat
  key : List Nat
  license : List Nat
  vendor_name : List Nat
  time_limit : Int
  time_limit_unit : Int
  time_limit_multiple : Int
  out : List Msg
deriving DecidableEq

/-- The macro `OPT_ADD(flags, OPT)`; `Except.error` is its `return -1`. -/
def OPT_ADD (s : parse_args_state) (opt : Nat) : Except parse_args_state parse_args_state :=
  if s.flags &&& OPT_FLAG opt ≠ 0 then
    Except.error { s with out := s.out ++ [Msg.RSA_ERR_ARGREP] }
  else Except.ok { s with flags := s.flags ||| OPT_FLAG opt }

/-- The macro `OPT_ADD_ACTION(flags, OPT, action)`; `Except.error` is its
`return -1`. -/
def OPT_ADD_ACTION (s : parse_args_state) (opt : Nat) :
    Except parse_args_state parse_args_state :=
  match OPT_ADD s opt with
  | Except.error e => Except.error e
  | Except.ok s1 =>
    if s1.action ≠ 0 then Except.error { s1 with out := s1.out ++ [Msg.RSA_ERR_ARGCONFLICT] }
    else Except.ok { s1 with action := OPT_FLAG opt }

/-- One round of the `switch` of `parse_args` on what `getopt_long` returned;
`Except.error` is a `return -1` out of the loop. -/
def parse_args_case (s : parse_args_state) : Opt → Except parse_args_state parse_args_state
  | Opt.h => OPT_ADD_ACTION s RSA_OPT_LIC_HELP
  | Opt.c optarg =>
    match OPT_ADD_ACTION s RSA_OPT_LIC_CREATE with
    | Except.error e => Except.error e
    | Except.ok s1 =>
      Except.ok { s1 with
        license := (c_string optarg ++ [46, 108, 105, 99]).take (FILE_NAME_MAX_LENGTH - 1) }
  | Opt.i optarg =>
    match OPT_ADD_ACTION s RSA_OPT_LIC_INFO with
    | Except.error e => Except.error e
    | Except.ok s1 => Except.ok { s1 with license := snprintf_s FILE_NAME_MAX_LENGTH optarg }
  | Opt.x => OPT_ADD_ACTION s RSA_OPT_LIC_TEST
  | Opt.k optarg =>
    match OPT_ADD s RSA_OPT_LIC_KEY with
    | Except.error e => Except.error e
    | Except.ok s1 => Except.ok { s1 with key := snprintf_s FILE_NAME_MAX_LENGTH optarg }
  | Opt.v optarg =>
    match OPT_ADD s RSA_OPT_LIC_VENDOR with
    | Except.error e => Except.error e
    | Except.ok s1 =>
      Except.ok { s1 with vendor_name := snprintf_s VENDOR_NAME_MAX_LENGTH optarg }
  | Opt.u optarg =>
    match OPT_ADD s RSA_OPT_LIC_TIME_UNIT with
    | Except.error e => Except.error e
    | Except.ok s1 =>
      if is_str_prefix optarg TU_VAL_DAY then
        Except.ok { s1 with time_limit_unit := SECONDS_IN_DAY }
      else if is_str_prefix optarg TU_VAL_WEEK then
        Except.ok { s1 with time_limit_unit := SECONDS_IN_WEEK }
      else if is_str_prefix optarg TU_VAL_MONTH then
        Except.ok { s1 with time_limit_unit := SECONDS_IN_MONTH }
      else if is_str_prefix optarg TU_VAL_YEAR then
        Except.ok { s1 with time_limit_unit := SECONDS_IN_YEAR }
      else Except.error { s1 with out := s1.out ++ [Msg.RSA_ERR_TIMUNIT optarg] }
  | Opt.t optarg =>
    match OPT_ADD s RSA_OPT_LIC_TIME_LIMIT with
    | Except.error e => Except.error e
    | Except.ok s1 =>
      let s2 := { s1 with time_limit_multiple := int_cast (strtol optarg).1 }
      if (strtol optarg).2.headD 0 ≠ 0 then
        Except.error { s2 with out := s2.out ++ [Msg.RSA_ERR_ARGNAN optarg] }
      else Except.ok s2
  | Opt.unrecognised => Except.ok { s with out := s.out ++ [Msg.usage] }

/-- The `while` loop of `parse_args` over the successive results of
`getopt_long`. -/
def parse_args_loop : List Opt → parse_args_state → Except parse_args_state parse_args_state
  | [], s => Except.ok s
  | o :: opts, s =>
    match parse_args_case s o with
    | Except.error e => Except.error e
    | Except.ok s1 => parse_args_loop opts s1

/-- The variables of `parse_args` when the loop starts; `key` is what the
caller left in the buffer of that name. -/
def parse_args_init (key : List Nat) : parse_args_state :=
  { flags := 0, action := 0, key := key, license := [], vendor_name := [], time_limit := 0,
    time_limit_unit := SECONDS_IN_MONTH, time_limit_multiple := 0, out := [] }

/-- The part of `parse_args` that follows the loop: its status and its
variables at the return.  The product `time_limit_multiple * time_limit_unit`
is a product of two `int`; its overflow, undefined in C, wraps here as on two's
complement hardware. -/
def parse_args_finish (now : Int) (s : parse_args_state) : Int × parse_args_state :=
  if s.action = 0 then (-1, { s with out := s.out ++ [Msg.usage] })
  else if s.flags &&& OPT_FLAG RSA_OPT_LIC_HELP ≠ 0 ∧
      s.flags &&& unsigned_int_not (OPT_FLAG RSA_OPT_LIC_HELP) ≠ 0 then
    (-1, { s with out := s.out ++ [Msg.RSA_ERR_ARGCONFLICT, Msg.usage] })
  else if OPT_FLAG_LIC_DATA s.flags ≠ 0 ∧ s.action &&& OPT_FLAG RSA_OPT_LIC_CREATE = 0 then
    (-1, { s with out := s.out ++ [Msg.RSA_ERR_ARGCONFLICT, Msg.usage] })
  else
    let s1 :=
      if s.flags &&& OPT_FLAG RSA_OPT_LIC_TIME_UNIT ≠ 0 ∧
          s.flags &&& OPT_FLAG RSA_OPT_LIC_TIME_LIMIT = 0 then
        { s with out := s.out ++ [Msg.warning_unit_ignored] }
      else s
    let s2 :=
      if s1.time_limit_multiple ≠ 0 then
        { s1 with time_limit :=
            now + SECONDS_IN_DAY + int_cast (s1.time_limit_multiple * s1.time_limit_unit) }
      else s1
    (0, s2)

/-- The function `parse_args` on the options that `getopt_long` finds in
`argv`, with `now` the value of `time(NULL)`: its status and its variables at
the return. -/
def parse_args (now : Int) (key : List Nat) (opts : List Opt) : Int × parse_args_state :=
  match parse_args_loop opts (parse_args_init key) with
  | Except.error e => (-1, e)
  | Except.ok s => parse_args_finish now s

/-- The test that a round of the loop of `parse_args` applies to the argument
of the option itself: the argument of `-u` has to pass one of the four calls of
`is_str_prefix`, and `strtol` has to leave `endptr` at the end of the argument
of `-t`. -/
def Opt.optarg_ok : Opt → Bool
  | Opt.u optarg =>
    is_str_prefix optarg TU_VAL_DAY || is_str_prefix optarg TU_VAL_WEEK ||
      is_str_prefix optarg TU_VAL_MONTH || is_str_prefix optarg TU_VAL_YEAR
  | Opt.t optarg => (strtol optarg).2.headD 0 = 0
  | _ => true

/-- The macro `VENDOR_NAME_DEFAULT`, the string `Ilan Smith`. -/
def VENDOR_NAME_DEFAULT : List Nat := [73, 108, 97, 110, 32, 83, 109, 105, 116, 104]

/-- The record `license_data` that `license_create` fills in before it calls
`rsa_license_create`: the version is `FILE_FORMAT_VERSION`, the vendor name is
what `snprintf` copies from `vendor_name`, or from `VENDOR_NAME_DEFAULT` when
`vendor_name[0]` is 0, and the time limit is the one passed in. -/
def license_create_license_data (vendor_name : List Nat) (time_limit : Int) :
    rsa_license_data :=
  { version := FILE_FORMAT_VERSION,
    vendor_name := snprintf_s VENDOR_NAME_MAX_LENGTH
      (if vendor_name.headD 0 ≠ 0 then vendor_name else VENDOR_NAME_DEFAULT),
    time_limit := time_limit }

/-! ## Machine integers -/

theorem length_le_bytes (n v : Nat) : (le_bytes n v).length = n := by
  induction n generalizing v with
  | zero => rfl
  | succ n ih => simp [le_bytes, ih]

theorem le_value_le_bytes (n v : Nat) : le_value (le_bytes n v) = v % 256 ^ n := by
  induction n generalizing v with
  | zero => simp [le_bytes, le_value, Nat.mod_one]
  | succ n ih =>
    simp only [le_bytes, le_value, ih]
    rw [pow_succ, mul_comm (256 ^ n) 256, Nat.mod_mul]

theorem le_value_u64_bytes (version : Nat) (h : version < 2 ^ 64) :
    le_value (u64_bytes version) = version := by
  rw [u64_bytes, le_value_le_bytes]
  exact Nat.mod_eq_of_lt (by norm_num at h ⊢; exact h)

theorem time_t_value_time_t_bytes (t : Int) (hlo : -2 ^ 63 ≤ t) (hhi : t < 2 ^ 63) :
    time_t_value (time_t_bytes t) = t := by
  have hv : le_value (time_t_bytes t) = (t % 2 ^ 64).toNat := by
    rw [time_t_bytes, le_value_le_bytes]
    apply Nat.mod_eq_of_lt
    have := Int.emod_lt_of_pos t (show (0 : Int) < 2 ^ 64 by norm_num)
    have := Int.emod_nonneg t (show (2 ^ 64 : Int) ≠ 0 by norm_num)
    omega
  unfold time_t_value
  rw [hv]
  have h0 := Int.emod_nonneg t (show (2 ^ 64 : Int) ≠ 0 by norm_num)
  split_ifs with h <;> omega

/-! ## C strings -/

theorem strlen_eq_length_c_string (s : List Nat) : strlen s = (c_string s).length := by
  induction s with
  | nil => rfl
  | cons b s ih =>
    by_cases hb : b = 0 <;> simp [strlen, c_string, hb, ih]

theorem c_string_of_nul_free (s : List Nat) (h : ∀ b ∈ s, b ≠ 0) : c_string s = s := by
  induction s with
  | nil => rfl
  | cons b s ih =>
    have hb : b ≠ 0 := h b (by simp)
    simp [c_string, hb, ih (fun x hx => h x (by simp [hx]))]

theorem strlen_of_nul_free (s : List Nat) (h : ∀ b ∈ s, b ≠ 0) : strlen s = s.length := by
  rw [strlen_eq_length_c_string, c_string_of_nul_free s h]

theorem c_string_nul_free (s : List Nat) : ∀ b ∈ c_string s, b ≠ 0 := by
  induction s with
  | nil => simp [c_string]
  | cons a s ih =>
    by_cases ha : a = 0
    · simp [c_string, ha]
    · intro b hb
      simp only [c_string, ha, if_false, List.mem_cons] at hb
      rcases hb with rfl | hb
      · exact ha
      · exact ih b hb

theorem c_string_append_nul (p rest : List Nat) (h : ∀ b ∈ p, b ≠ 0) :
    c_string (p ++ 0 :: rest) = p := by
  induction p with
  | nil => simp [c_string]
  | cons b p ih =>
    have hb : b ≠ 0 := h b (by simp)
    simp [c_string, hb, ih (fun x hx => h x (by simp [hx]))]

/-- Reading a C string through its terminator: the bytes at the indices
`0 .. strlen s` are the string followed by NUL. -/
theorem map_getD_range_strlen (s : List Nat) :
    (List.range (strlen s + 1)).map (fun i => s.getD i 0) = c_string s ++ [0] := by
  induction s with
  | nil => simp [strlen, c_string]
  | cons b s ih =>
    by_cases hb : b = 0
    · subst hb
      simp [strlen, c_string, List.range_succ]
    · simp only [strlen, c_string, hb, if_false]
      rw [List.range_succ_eq_map, List.map_cons, List.map_map]
      simp only [List.getD_cons_zero, List.cons_append, List.cons.injEq, true_and]
      rw [← ih]
      apply List.map_congr_left
      intro i _
      simp

/-! ## The cyclic fill of the vendor field -/

theorem length_vendor_name_fill (vendor_name : List Nat) (name_len len i : Nat) (buf : List Nat) :
    (vendor_name_fill vendor_name name_len len i buf).length = buf.length := by
  induction i with
  | zero => rfl
  | succ i ih => simp [vendor_name_fill, ih]

theorem getElem?_vendor_name_fill (vendor_name : List Nat) (name_len len i : Nat)
    (buf : List Nat) (j : Nat) :
    (vendor_name_fill vendor_name name_len len i buf)[j]? =
      if len ≤ j ∧ j < len + i ∧ j < buf.length then
        some (vendor_name.getD ((j - len) % (name_len + 1)) 0)
      else buf[j]? := by
  induction i with
  | zero =>
    have : ¬ (len ≤ j ∧ j < len + 0 ∧ j < buf.length) := by omega
    rw [if_neg this]
    rfl
  | succ i ih =>
    simp only [vendor_name_fill, List.getElem?_set, length_vendor_name_fill, ih]
    by_cases hj : len + i = j
    · subst hj
      by_cases hl : len + i < buf.length
      · have h1 : len ≤ len + i ∧ len + i < len + (i + 1) ∧ len + i < buf.length := by omega
        simp [hl, h1]
      · have h1 : ¬ (len ≤ len + i ∧ len + i < len + (i + 1) ∧ len + i < buf.length) := by
          omega
        have h2 : buf[len + i]? = none := List.getElem?_eq_none (by omega)
        simp [hl, h1, h2]
    · simp only [hj, if_false]
      by_cases h1 : len ≤ j ∧ j < len + i ∧ j < buf.length
      · have h2 : len ≤ j ∧ j < len + (i + 1) ∧ j < buf.length := by omega
        simp [h1, h2]
      · have h2 : ¬ (len ≤ j ∧ j < len + (i + 1) ∧ j < buf.length) := by omega
        simp [h1, h2]

/-- The loop of `rsa_encrypt_vendor_name`, run over a buffer that `realloc`
has extended by `n` bytes, leaves the old bytes and writes the `n` new ones. -/
theorem vendor_name_fill_append (vendor_name : List Nat) (name_len n : Nat)
    (buf tail : List Nat) (htail : tail.length = n) :
    vendor_name_fill vendor_name name_len buf.length n (buf ++ tail) =
      buf ++ (List.range n).map (fun i => vendor_name.getD (i % (name_len + 1)) 0) := by
  apply List.ext_getElem?
  intro j
  rw [getElem?_vendor_name_fill]
  by_cases hj : j < buf.length
  · have h1 : ¬ (buf.length ≤ j ∧ j < buf.length + n ∧ j < (buf ++ tail).length) := by omega
    rw [if_neg h1, List.getElem?_append_left hj, List.getElem?_append_left hj]
  · by_cases hn : j < buf.length + n
    · have h1 : buf.length ≤ j ∧ j < buf.length + n ∧ j < (buf ++ tail).length := by
        simp only [List.length_append]; omega
      have h2 : j - buf.length < n := by omega
      rw [if_pos h1, List.getElem?_append_right (by omega)]
      simp [List.getElem?_map, List.getElem?_range h2]
    · have h1 : ¬ (buf.length ≤ j ∧ j < buf.length + n ∧ j < (buf ++ tail).length) := by omega
      rw [if_neg h1, List.getElem?_eq_none, List.getElem?_eq_none]
      · simp; omega
      · simp; omega

theorem rsa_encrypt_vendor_name_eq (buf vendor_name : List Nat)
    (h : strlen vendor_name < 64) :
    rsa_encrypt_vendor_name buf vendor_name =
      some (buf ++ (List.range 64).map
        (fun i => vendor_name.getD (i % (strlen vendor_name + 1)) 0)) := by
  have hlt : ¬ VENDOR_NAME_MAX_LENGTH ≤ strlen vendor_name := by
    simp only [VENDOR_NAME_MAX_LENGTH]; omega
  simp only [rsa_encrypt_vendor_name, if_neg hlt]
  rw [vendor_name_fill_append _ _ _ _ _ (List.length_replicate _ _)]
  rfl

/-- The vendor field, read as a NUL terminated string, is the string that was
written into it. -/
theorem c_string_vendor_field (vendor_name : List Nat) (h : strlen vendor_name < 64) :
    c_string ((List.range 64).map
        (fun i => vendor_name.getD (i % (strlen vendor_name + 1)) 0)) =
      c_string vendor_name := by
  have h64 : 64 = (strlen vendor_name + 1) + (63 - strlen vendor_name) := by omega
  have hfirst : (List.range (strlen vendor_name + 1)).map
      (fun i => vendor_name.getD (i % (strlen vendor_name + 1)) 0) =
      c_string vendor_name ++ [0] := by
    rw [← map_getD_range_strlen]
    apply List.map_congr_left
    intro i hi
    rw [Nat.mod_eq_of_lt (List.mem_range.mp hi)]
  conv_lhs => rw [h64]
  rw [List.range_add, List.map_append, hfirst, List.append_assoc, List.singleton_append]
  exact c_string_append_nul _ _ (c_string_nul_free vendor_name)

theorem rsa_license_create_rivermax_eq (data : rsa_license_data)
    (h : strlen data.vendor_name < 64) :
    rsa_license_create_rivermax data =
      some (u64_bytes data.version ++
        (List.range 64).map
          (fun i => data.vendor_name.getD (i % (strlen data.vendor_name + 1)) 0) ++
        time_t_bytes data.time_limit) := by
  simp only [rsa_license_create_rivermax, rsa_encrypt_format_version, List.nil_append,
    rsa_encrypt_vendor_name_eq _ _ h, rsa_encrypt_time_limit]

theorem length_u64_bytes (version : Nat) : (u64_bytes version).length = 8 :=
  length_le_bytes 8 version

theorem length_time_t_bytes (t : Int) : (time_t_bytes t).length = 8 :=
  length_le_bytes 8 _

/-- Decoding a plaintext made of an 8 byte version field, a 64 byte vendor
field and an 8 byte time field. -/
theorem rsa_license_extract_rivermax_layout (mktime_gmtime : Int → Int)
    (vbytes field tbytes : List Nat) (data : rsa_license_data)
    (hv : vbytes.length = 8) (hf : field.length = 64) (ht : tbytes.length = 8) :
    rsa_license_extract_rivermax mktime_gmtime (vbytes ++ field ++ tbytes) data =
      if int_cast (round_up_end_of_day_localtime mktime_gmtime (time_t_value tbytes)) = -1 then
        (-1, { data with version := le_value vbytes, vendor_name := field })
      else
        (0, { version := le_value vbytes, vendor_name := field,
              time_limit := round_up_end_of_day_localtime mktime_gmtime (time_t_value tbytes) }) := by
  have h1 : ¬ (vbytes ++ field ++ tbytes).length < 8 := by simp; omega
  have t1 : (vbytes ++ field ++ tbytes).take 8 = vbytes := by
    rw [List.append_assoc, ← hv, List.take_left]
  have d1 : (vbytes ++ field ++ tbytes).drop 8 = field ++ tbytes := by
    rw [List.append_assoc, ← hv, List.drop_left]
  have h2 : ¬ (field ++ tbytes).length < VENDOR_NAME_MAX_LENGTH := by
    simp [VENDOR_NAME_MAX_LENGTH]; omega
  have t2 : (field ++ tbytes).take VENDOR_NAME_MAX_LENGTH = field := by
    rw [VENDOR_NAME_MAX_LENGTH, ← hf, List.take_left]
  have d2 : (field ++ tbytes).drop VENDOR_NAME_MAX_LENGTH = tbytes := by
    rw [VENDOR_NAME_MAX_LENGTH, ← hf, List.drop_left]
  have h3 : ¬ tbytes.length < 8 := by omega
  have t3 : tbytes.take 8 = tbytes := List.take_of_length_le (by omega)
  simp only [rsa_license_extract_rivermax, rsa_extract_version, rsa_decrypt_version, if_neg h1,
    t1, d1, rsa_extract_vendor_name, rsa_decrypt_vendor_name, if_neg h2, t2, d2,
    rsa_extract_time_limit, rsa_decrypt_time_limit, if_neg h3, t3]
  split_ifs <;> rfl

theorem getElem?_append_nul (name : List Nat) (k : Nat) (hk : k ≤ name.length) :
    (name ++ [0])[k]? = some (name.getD k 0) := by
  rcases Nat.lt_or_eq_of_le hk with h | h
  · rw [List.getElem?_append_left h, List.getD_eq_getElem?_getD, List.getElem?_eq_getElem h]
    rfl
  · subst h
    rw [List.getElem?_append_right (le_refl _), List.getD_eq_getElem?_getD,
      List.getElem?_eq_none (le_refl _)]
    simp

theorem take_append_of_length (a b : List Nat) (n : Nat) (h : a.length = n) :
    (a ++ b).take n = a := by
  subst h
  exact List.take_left a b

theorem rsa_encrypt_vendor_name_eq_none_iff (buf vendor_name : List Nat) :
    rsa_encrypt_vendor_name buf vendor_name = none ↔ 64 ≤ strlen vendor_name := by
  unfold rsa_encrypt_vendor_name VENDOR_NAME_MAX_LENGTH
  by_cases h : 64 ≤ strlen vendor_name <;> simp [h]

theorem rsa_license_info_rivermax_of_version_ne_one (mktime_gmtime : Int → Int)
    (buf : List Nat) (h8 : 8 ≤ buf.length) (hv : le_value (buf.take 8) ≠ 1) :
    rsa_license_info_rivermax mktime_gmtime buf =
      (-1, [Line.license_format_version (le_value (buf.take 8))] ++
        (if le_value (buf.take 8) = 0 then [Line.no_such_license_version] else []) ++
        [if 1 < le_value (buf.take 8) then Line.supports_versions_up_to 1
          else Line.unknown_license_version_error]) := by
  have h1 : ¬ buf.length < 8 := by omega
  simp only [rsa_license_info_rivermax, rsa_info_version, rsa_decrypt_version, if_neg h1,
    if_neg hv, FILE_FORMAT_VERSION]
  by_cases h0 : le_value (buf.take 8) = 0
  · simp [h0]
  · have : 1 < le_value (buf.take 8) := by omega
    simp [h0, this]

theorem rsa_license_extract_rivermax_of_length_ge (mktime_gmtime : Int → Int)
    (buf : List Nat) (data : rsa_license_data) (h : 80 ≤ buf.length) :
    rsa_license_extract_rivermax mktime_gmtime buf data =
      if int_cast (round_up_end_of_day_localtime mktime_gmtime
          (time_t_value ((buf.drop 72).take 8))) = -1 then
        (-1, { data with version := le_value (buf.take 8),
                         vendor_name := (buf.drop 8).take 64 })
      else
        (0, { version := le_value (buf.take 8), vendor_name := (buf.drop 8).take 64,
              time_limit := round_up_end_of_day_localtime mktime_gmtime
                (time_t_value ((buf.drop 72).take 8)) }) := by
  have h1 : ¬ buf.length < 8 := by omega
  have h2 : ¬ buf.length - 8 < 64 := by omega
  have h3 : ¬ buf.length - 72 < 8 := by omega
  simp only [rsa_license_extract_rivermax, rsa_extract_version, rsa_decrypt_version,
    rsa_extract_vendor_name, rsa_decrypt_vendor_name, rsa_extract_time_limit,
    rsa_decrypt_time_limit, VENDOR_NAME_MAX_LENGTH, if_neg h1, List.length_drop, if_neg h2,
    List.drop_drop, if_neg h3]
  split_ifs <;> rfl

/-! ## The normalizer on a host with a fixed offset -/

theorem ROUND_UP_day_of_nonneg (val : Int) (h : 0 ≤ val + 86399) :
    ROUND_UP val SECONDS_IN_DAY = (val + 86399) / 86400 * 86400 := by
  have hd : SECONDS_IN_DAY = 86400 := by decide
  rw [ROUND_UP, hd, show val + 86400 - 1 = val + 86399 by ring,
    Int.tdiv_eq_ediv h (by norm_num)]

theorem round_up_end_of_day_localtime_fixed (off t : Int) (ht : t ≠ 0)
    (hconv : int_cast (t - off) ≠ -1) (hlocal : 0 ≤ t + off + 86399) :
    round_up_end_of_day_localtime (mktime_gmtime_fixed off) t =
      (t + off + 86399) / 86400 * 86400 - off - 1 := by
  simp only [round_up_end_of_day_localtime, mktime_gmtime_fixed, if_neg ht, if_neg hconv]
  rw [show t - (t - off) = off by ring, ROUND_UP_day_of_nonneg _ hlocal]

/-- Where the normalizer is idempotent on a host with a fixed offset: for every
timestamp whose local time is later than one day before the epoch, provided the
calendar conversions of the timestamp and of its end of day do not narrow to
the `int` `-1`. -/
theorem round_up_end_of_day_localtime_idempotent_of_local_nonneg (off t : Int)
    (hlocal : -86400 < t + off)
    (hconv : int_cast (t - off) ≠ -1)
    (hconv2 : int_cast (round_up_end_of_day_localtime (mktime_gmtime_fixed off) t - off) ≠ -1) :
    round_up_end_of_day_localtime (mktime_gmtime_fixed off)
        (round_up_end_of_day_localtime (mktime_gmtime_fixed off) t) =
      round_up_end_of_day_localtime (mktime_gmtime_fixed off) t := by
  by_cases ht : t = 0
  · subst ht
    rfl
  · have h1 := round_up_end_of_day_localtime_fixed off t ht hconv (by omega)
    by_cases he : round_up_end_of_day_localtime (mktime_gmtime_fixed off) t = 0
    · rw [he]
      rfl
    · rw [round_up_end_of_day_localtime_fixed off _ he hconv2 (by rw [h1]; omega)]
      rw [h1]
      omega

/-! ## The claims -/

/-- C1. Vendor round trip: for every record whose vendor name is a NUL free
byte string of fewer than 64 bytes, `rsa_license_create_rivermax` produces a
plaintext, and after `rsa_license_extract_rivermax` has decoded that plaintext
the vendor field of the record is 64 bytes long and, read as a NUL terminated
string, is the original vendor name. -/
theorem vendor_name_round_trip (mktime_gmtime : Int → Int) (version : Nat) (name : List Nat)
    (time_limit : Int) (data0 : rsa_license_data)
    (hnul : ∀ b ∈ name, b ≠ 0) (hlen : name.length < 64) :
    ∃ buf, rsa_license_create_rivermax
        { version := version, vendor_name := name, time_limit := time_limit } = some buf ∧
      (rsa_license_extract_rivermax mktime_gmtime buf data0).2.vendor_name.length = 64 ∧
      c_string (rsa_license_extract_rivermax mktime_gmtime buf data0).2.vendor_name = name := by
  have hs : strlen name < 64 := by rw [strlen_of_nul_free name hnul]; exact hlen
  refine ⟨_, rsa_license_create_rivermax_eq ⟨version, name, time_limit⟩ hs, ?_⟩
  rw [rsa_license_extract_rivermax_layout mktime_gmtime _ _ _ data0 (length_u64_bytes _)
    (by simp) (length_time_t_bytes _)]
  have hc := c_string_vendor_field name hs
  rw [c_string_of_nul_free name hnul] at hc
  split_ifs
  · exact ⟨by simp, hc⟩
  · exact ⟨by simp, hc⟩

/-- The vendor round trip at the record of vendor `Acme`, on a host two hours east of UTC. -/
theorem vendor_name_round_trip_witness :
    ∃ buf, rsa_license_create_rivermax
        { version := 1, vendor_name := [65, 99, 109, 101], time_limit := 1800000000 } =
          some buf ∧
      (rsa_license_extract_rivermax (mktime_gmtime_fixed 7200) buf
        { version := 0, vendor_name := [], time_limit := 0 }).2.vendor_name.length = 64 ∧
      c_string (rsa_license_extract_rivermax (mktime_gmtime_fixed 7200) buf
        { version := 0, vendor_name := [], time_limit := 0 }).2.vendor_name =
          [65, 99, 109, 101] :=
  vendor_name_round_trip (mktime_gmtime_fixed 7200) 1 [65, 99, 109, 101] 1800000000
    { version := 0, vendor_name := [], time_limit := 0 } (by decide) (by decide)

/-- C2, the code at the failing input, on a host whose local time is UTC.  The
record of vendor `Acme` with the version 1 and the expiry `2899102924790` is
encoded, with the expiry unrounded in the last 8 bytes.  The normalizer maps
that expiry to `2899102924799`: the conversion has succeeded and the result is
not the error value `-1`, so no overflow is signalled.  But
`rsa_license_extract_rivermax` on the plaintext returns `-1`, because the test
`(int)eod_ts == -1` of `rsa_decrypt_time_limit` looks at 32 bits only; the
expiry of the record of the caller is not written. -/
theorem version_expiry_round_trip_fails :
    ∃ buf, rsa_license_create_rivermax
        { version := 1, vendor_name := [65, 99, 109, 101], time_limit := 2899102924790 } =
          some buf ∧
      time_t_value (buf.drop 72) = 2899102924790 ∧
      mktime_gmtime_fixed 0 2899102924790 = 2899102924790 ∧
      int_cast (mktime_gmtime_fixed 0 2899102924790) ≠ -1 ∧
      round_up_end_of_day_localtime (mktime_gmtime_fixed 0) 2899102924790 = 2899102924799 ∧
      round_up_end_of_day_localtime (mktime_gmtime_fixed 0) 2899102924790 ≠ -1 ∧
      (rsa_license_extract_rivermax (mktime_gmtime_fixed 0) buf
        { version := 0, vendor_name := [], time_limit := 0 }).1 = -1 ∧
      (rsa_license_extract_rivermax (mktime_gmtime_fixed 0) buf
        { version := 0, vendor_name := [], time_limit := 0 }).2.time_limit = 0 := by
  refine ⟨_, rfl, ?_, ?_, ?_, ?_, ?_, ?_, ?_⟩ <;> decide

/-- C4. Cyclic fill: for every NUL free vendor name of length `n < 64`,
`rsa_encrypt_vendor_name` succeeds, appends exactly 64 bytes, leaves the bytes
that were in the buffer unchanged, and byte `i` of the field, for every `i` in
0..63, is byte `i mod (n + 1)` of the name followed by its NUL terminator. -/
theorem vendor_name_cyclic_fill (buf name : List Nat)
    (hnul : ∀ b ∈ name, b ≠ 0) (hlen : name.length < 64) :
    ∃ out, rsa_encrypt_vendor_name buf name = some out ∧
      out.length = buf.length + 64 ∧
      out.take buf.length = buf ∧
      ∀ i, i < 64 → out[buf.length + i]? = (name ++ [0])[i % (name.length + 1)]? := by
  have hs : strlen name = name.length := strlen_of_nul_free name hnul
  refine ⟨_, rsa_encrypt_vendor_name_eq buf name (by omega), by simp, List.take_left _ _, ?_⟩
  intro i hi
  rw [List.getElem?_append_right (by omega), hs,
    getElem?_append_nul name _ (Nat.lt_succ_iff.mp (Nat.mod_lt _ (Nat.succ_pos _)))]
  simp [List.getElem?_map, List.getElem?_range hi]

/-- The cyclic fill of the name `Acme` behind an 8 byte version field. -/
theorem vendor_name_cyclic_fill_witness :
    ∃ out, rsa_encrypt_vendor_name [1, 0, 0, 0, 0, 0, 0, 0] [65, 99, 109, 101] = some out ∧
      out.length = [1, 0, 0, 0, 0, 0, 0, 0].length + 64 ∧
      out.take [1, 0, 0, 0, 0, 0, 0, 0].length = [1, 0, 0, 0, 0, 0, 0, 0] ∧
      ∀ i, i < 64 → out[[1, 0, 0, 0, 0, 0, 0, 0].length + i]? =
        ([65, 99, 109, 101] ++ [0])[i % ([65, 99, 109, 101].length + 1)]? :=
  vendor_name_cyclic_fill [1, 0, 0, 0, 0, 0, 0, 0] [65, 99, 109, 101] (by decide) (by decide)

/-- C5. Encoding the vendor name fails if and only if the name is too long:
for every NUL free name, `rsa_encrypt_vendor_name` returns its error exactly
when the name has 64 or more bytes, and it succeeds for every name of 0..63
bytes, 63 included. -/
theorem vendor_name_too_long_iff (buf name : List Nat) (hnul : ∀ b ∈ name, b ≠ 0) :
    (rsa_encrypt_vendor_name buf name = none ↔ 64 ≤ name.length) ∧
    (name.length ≤ 63 → ∃ out, rsa_encrypt_vendor_name buf name = some out) := by
  have hs : strlen name = name.length := strlen_of_nul_free name hnul
  refine ⟨by rw [rsa_encrypt_vendor_name_eq_none_iff, hs], ?_⟩
  intro h
  exact ⟨_, rsa_encrypt_vendor_name_eq buf name (by omega)⟩

/-- The length guard at a name of 63 bytes and at a name of 64 bytes. -/
theorem vendor_name_too_long_iff_witness :
    ((rsa_encrypt_vendor_name [] (List.replicate 63 65) = none ↔
        64 ≤ (List.replicate 63 65).length) ∧
      ((List.replicate 63 65).length ≤ 63 →
        ∃ out, rsa_encrypt_vendor_name [] (List.replicate 63 65) = some out)) ∧
    ((rsa_encrypt_vendor_name [] (List.replicate 64 65) = none ↔
        64 ≤ (List.replicate 64 65).length) ∧
      ((List.replicate 64 65).length ≤ 63 →
        ∃ out, rsa_encrypt_vendor_name [] (List.replicate 64 65) = some out)) :=
  ⟨vendor_name_too_long_iff [] (List.replicate 63 65) (by decide),
   vendor_name_too_long_iff [] (List.replicate 64 65) (by decide)⟩

/-- C6. Truncation: for every plaintext buffer of fewer than 80 bytes, whatever
its content, both decoders fail: `rsa_license_extract_rivermax` returns `-1`
and `rsa_license_info_rivermax` returns `-1`. -/
theorem truncated_buffers_fail (mktime_gmtime : Int → Int) (buf : List Nat)
    (data : rsa_license_data) (h : buf.length < 80) :
    (rsa_license_extract_rivermax mktime_gmtime buf data).1 = -1 ∧
    (rsa_license_info_rivermax mktime_gmtime buf).1 = -1 := by
  constructor
  · simp only [rsa_license_extract_rivermax, rsa_extract_version, rsa_decrypt_version,
      rsa_extract_vendor_name, rsa_decrypt_vendor_name, rsa_extract_time_limit,
      rsa_decrypt_time_limit, VENDOR_NAME_MAX_LENGTH]
    by_cases h1 : buf.length < 8
    · simp [h1]
    · by_cases h2 : buf.length - 8 < 64
      · simp [h1, h2]
      · have h3 : buf.length - 72 < 8 := by omega
        simp [h1, h2, h3]
  · simp only [rsa_license_info_rivermax, rsa_info_version, rsa_decrypt_version,
      rsa_license_info_parse_v1, rsa_info_vendor_name, rsa_decrypt_vendor_name,
      rsa_info_time_limit, rsa_decrypt_time_limit, VENDOR_NAME_MAX_LENGTH]
    by_cases h1 : buf.length < 8
    · simp [h1]
    · by_cases hv : le_value (buf.take 8) = 1
      · by_cases h2 : buf.length - 8 < 64
        · simp [h1, hv, h2]
        · have h3 : buf.length - 72 < 8 := by omega
          simp [h1, hv, h2, h3]
      · simp [h1, hv]

/-- Both decoders on a version 1 plaintext of 79 bytes. -/
theorem truncated_buffers_fail_witness :
    (rsa_license_extract_rivermax (mktime_gmtime_fixed 0) (1 :: List.replicate 78 0)
      { version := 0, vendor_name := [], time_limit := 0 }).1 = -1 ∧
    (rsa_license_info_rivermax (mktime_gmtime_fixed 0) (1 :: List.replicate 78 0)).1 = -1 :=
  truncated_buffers_fail (mktime_gmtime_fixed 0) (1 :: List.replicate 78 0)
    { version := 0, vendor_name := [], time_limit := 0 } (by decide)

/-- C7, the code at the failing inputs: `rsa_license_extract_rivermax` never
looks at the version it has read.  An 80 byte plaintext whose version field is
0, and one whose version field is 2, are both decoded with status 0 into a
record that carries that version. -/
theorem extract_accepts_unknown_versions (mktime_gmtime : Int → Int) :
    rsa_license_extract_rivermax mktime_gmtime (List.replicate 80 0)
        { version := 7, vendor_name := [], time_limit := 5 } =
      (0, { version := 0, vendor_name := List.replicate 64 0, time_limit := 0 }) ∧
    rsa_license_extract_rivermax mktime_gmtime (2 :: List.replicate 79 0)
        { version := 7, vendor_name := [], time_limit := 5 } =
      (0, { version := 2, vendor_name := List.replicate 64 0, time_limit := 0 }) := by
  constructor <;> rfl

/-- C8. Inspect decode rejects unknown versions: for every plaintext buffer of
at least 8 bytes whose version field is not 1, `rsa_license_info_rivermax`
returns `-1` and prints neither a vendor name line nor a valid through line;
for version 0 it prints the line `No such license version`, and for every
version above 1 the line `supports license format versions up to 1`. -/
theorem info_rejects_unknown_versions (mktime_gmtime : Int → Int) (buf : List Nat)
    (h8 : 8 ≤ buf.length) (hv : le_value (buf.take 8) ≠ 1) :
    (rsa_license_info_rivermax mktime_gmtime buf).1 = -1 ∧
    (∀ name, Line.vendor_name name ∉ (rsa_license_info_rivermax mktime_gmtime buf).2) ∧
    (∀ t, Line.valid_through t ∉ (rsa_license_info_rivermax mktime_gmtime buf).2) ∧
    (le_value (buf.take 8) = 0 →
      Line.no_such_license_version ∈ (rsa_license_info_rivermax mktime_gmtime buf).2) ∧
    (1 < le_value (buf.take 8) →
      Line.supports_versions_up_to 1 ∈ (rsa_license_info_rivermax mktime_gmtime buf).2) := by
  rw [rsa_license_info_rivermax_of_version_ne_one mktime_gmtime buf h8 hv]
  refine ⟨rfl, ?_, ?_, ?_, ?_⟩
  · intro name
    by_cases h0 : le_value (buf.take 8) = 0 <;> by_cases h1 : 1 < le_value (buf.take 8) <;>
      simp [h0, h1]
  · intro t
    by_cases h0 : le_value (buf.take 8) = 0 <;> by_cases h1 : 1 < le_value (buf.take 8) <;>
      simp [h0, h1]
  · intro h0
    simp [h0]
  · intro h1
    simp [h1]

/-- The inspect decoder on 80 zero bytes, a plaintext of version 0. -/
theorem info_rejects_unknown_versions_witness :
    ((rsa_license_info_rivermax (mktime_gmtime_fixed 0) (List.replicate 80 0)).1 = -1 ∧
      (∀ name, Line.vendor_name name ∉
        (rsa_license_info_rivermax (mktime_gmtime_fixed 0) (List.replicate 80 0)).2) ∧
      (∀ t, Line.valid_through t ∉
        (rsa_license_info_rivermax (mktime_gmtime_fixed 0) (List.replicate 80 0)).2) ∧
      (le_value ((List.replicate 80 0).take 8) = 0 →
        Line.no_such_license_version ∈
          (rsa_license_info_rivermax (mktime_gmtime_fixed 0) (List.replicate 80 0)).2) ∧
      (1 < le_value ((List.replicate 80 0).take 8) →
        Line.supports_versions_up_to 1 ∈
          (rsa_license_info_rivermax (mktime_gmtime_fixed 0) (List.replicate 80 0)).2)) ∧
    le_value ((List.replicate 80 0).take 8) = 0 :=
  ⟨info_rejects_unknown_versions (mktime_gmtime_fixed 0) (List.replicate 80 0)
    (by decide) (by decide), by decide⟩

/-- C9, the code at the failing inputs, on a host whose local time is UTC.
The timestamp `-172799` (00:00:01 on 30 December 1969) is normalized to
`-86401`, the end of that day, and `-86401` is normalized to `-1`: the
truncating division of `ROUND_UP` rounds a negative end of day to the next
day, so normalizing twice differs from normalizing once.  The timestamp
`2899102924790` is normalized to `2899102924799`, whose own calendar
conversion narrows to the `int` `-1`, so that normalizing it again returns the
error value. -/
theorem round_up_end_of_day_localtime_not_idempotent :
    round_up_end_of_day_localtime (mktime_gmtime_fixed 0) (-172799) = -86401 ∧
    round_up_end_of_day_localtime (mktime_gmtime_fixed 0) (-86401) = -1 ∧
    round_up_end_of_day_localtime (mktime_gmtime_fixed 0)
        (round_up_end_of_day_localtime (mktime_gmtime_fixed 0) (-172799)) ≠
      round_up_end_of_day_localtime (mktime_gmtime_fixed 0) (-172799) ∧
    round_up_end_of_day_localtime (mktime_gmtime_fixed 0) 2899102924790 = 2899102924799 ∧
    round_up_end_of_day_localtime (mktime_gmtime_fixed 0) 2899102924799 = -1 ∧
    round_up_end_of_day_localtime (mktime_gmtime_fixed 0)
        (round_up_end_of_day_localtime (mktime_gmtime_fixed 0) 2899102924790) ≠
      round_up_end_of_day_localtime (mktime_gmtime_fixed 0) 2899102924790 := by
  refine ⟨by decide, by decide, by decide, by decide, by decide, by decide⟩

/-- C10. Unlimited stays unlimited: `round_up_end_of_day_localtime(0)` is 0
whatever the calendar conversion of the host, hence for every local offset,
and decoding a version 1 buffer of at least 80 bytes whose expiry field is 0
returns 0 and a record of version 1 with expiry 0. -/
theorem unlimited_stays_unlimited :
    (∀ mktime_gmtime : Int → Int, round_up_end_of_day_localtime mktime_gmtime 0 = 0) ∧
    (∀ off : Int, round_up_end_of_day_localtime (mktime_gmtime_fixed off) 0 = 0) ∧
    ∀ (mktime_gmtime : Int → Int) (buf : List Nat) (data : rsa_license_data),
      80 ≤ buf.length → le_value (buf.take 8) = 1 →
      time_t_value ((buf.drop 72).take 8) = 0 →
      rsa_license_extract_rivermax mktime_gmtime buf data =
        (0, { version := 1, vendor_name := (buf.drop 8).take 64, time_limit := 0 }) := by
  refine ⟨fun _ => rfl, fun _ => rfl, ?_⟩
  intro mktime_gmtime buf data h hv ht
  rw [rsa_license_extract_rivermax_of_length_ge mktime_gmtime buf data h, hv, ht]
  rfl

/-- Decoding an 81 byte plaintext of version 1 whose expiry field is zero. -/
theorem unlimited_stays_unlimited_witness :
    rsa_license_extract_rivermax (mktime_gmtime_fixed 7200)
        (1 :: List.replicate 7 0 ++ [65, 0] ++ List.replicate 62 7 ++ List.replicate 8 0 ++ [9])
        { version := 0, vendor_name := [], time_limit := 5 } =
      (0, { version := 1,
            vendor_name := ((1 :: List.replicate 7 0 ++ [65, 0] ++ List.replicate 62 7 ++
              List.replicate 8 0 ++ [9]).drop 8).take 64,
            time_limit := 0 }) :=
  unlimited_stays_unlimited.2.2 (mktime_gmtime_fixed 7200)
    (1 :: List.replicate 7 0 ++ [65, 0] ++ List.replicate 62 7 ++ List.replicate 8 0 ++ [9])
    { version := 0, vendor_name := [], time_limit := 5 } (by decide) (by decide) (by decide)

/-! ## Further lemmas on the normalizer and the decoder -/

/-- The round trip of the version and the expiry when the decoder accepts the
result of the normalizer: for every record (a `u64` version, a vendor name
shorter than 64 bytes, a `time_t` expiry `t`) such that the narrowing to `int`
of the result of the normalizer on `t` is not `-1`,
`rsa_license_extract_rivermax` applied to the output of
`rsa_license_create_rivermax` returns 0, the version of the record and the
expiry `round_up_end_of_day_localtime(t)`; the plaintext itself holds `t`
unrounded. -/
theorem rsa_license_round_trip_of_int_cast_ne (mktime_gmtime : Int → Int)
    (data data0 : rsa_license_data)
    (hname : strlen data.vendor_name < 64) (hver : data.version < 2 ^ 64)
    (hlo : -2 ^ 63 ≤ data.time_limit) (hhi : data.time_limit < 2 ^ 63)
    (hok : int_cast (round_up_end_of_day_localtime mktime_gmtime data.time_limit) ≠ -1) :
    ∃ buf, rsa_license_create_rivermax data = some buf ∧
      time_t_value (buf.drop 72) = data.time_limit ∧
      (rsa_license_extract_rivermax mktime_gmtime buf data0).1 = 0 ∧
      (rsa_license_extract_rivermax mktime_gmtime buf data0).2.version = data.version ∧
      (rsa_license_extract_rivermax mktime_gmtime buf data0).2.time_limit =
        round_up_end_of_day_localtime mktime_gmtime data.time_limit := by
  refine ⟨_, rsa_license_create_rivermax_eq data hname, ?_, ?_⟩
  · have hl : (u64_bytes data.version ++ (List.range 64).map
        (fun i => data.vendor_name.getD (i % (strlen data.vendor_name + 1)) 0)).length = 72 := by
      simp [length_u64_bytes]
    rw [← hl, List.drop_left]
    exact time_t_value_time_t_bytes _ hlo hhi
  · rw [rsa_license_extract_rivermax_layout mktime_gmtime _ _ _ data0 (length_u64_bytes _)
      (by simp) (length_time_t_bytes _)]
    rw [time_t_value_time_t_bytes _ hlo hhi, if_neg hok]
    exact ⟨rfl, le_value_u64_bytes _ hver, rfl⟩

theorem ROUND_UP_day_emod (val : Int) : ROUND_UP val SECONDS_IN_DAY % 86400 = 0 := by
  have hd : SECONDS_IN_DAY = 86400 := by decide
  rw [ROUND_UP, hd]
  exact Int.mul_emod_left _ _

/-- On a host with a fixed offset, for a timestamp whose local time is later
than one day before the epoch and whose calendar conversion does not narrow to
the `int` `-1`: the result is one second before a local midnight, it is at
least `t - 1` and less than `t + 86399`, and it is at least `t` unless `t` is
itself a local midnight. -/
theorem round_up_end_of_day_localtime_bounds (off t : Int) (ht : t ≠ 0)
    (hconv : int_cast (t - off) ≠ -1) (hlocal : -86400 < t + off) :
    (round_up_end_of_day_localtime (mktime_gmtime_fixed off) t + off + 1) % 86400 = 0 ∧
    t - 1 ≤ round_up_end_of_day_localtime (mktime_gmtime_fixed off) t ∧
    round_up_end_of_day_localtime (mktime_gmtime_fixed off) t < t + 86399 ∧
    ((t + off) % 86400 ≠ 0 → t ≤ round_up_end_of_day_localtime (mktime_gmtime_fixed off) t) := by
  rw [round_up_end_of_day_localtime_fixed off t ht hconv (by omega)]
  refine ⟨by omega, by omega, by omega, ?_⟩
  intro h
  omega

theorem rsa_license_extract_rivermax_of_length_lt (mktime_gmtime : Int → Int)
    (buf : List Nat) (data : rsa_license_data) (h : buf.length < 80) :
    (rsa_license_extract_rivermax mktime_gmtime buf data).1 = -1 := by
  simp only [rsa_license_extract_rivermax, rsa_extract_version, rsa_decrypt_version,
    rsa_extract_vendor_name, rsa_decrypt_vendor_name, rsa_extract_time_limit,
    rsa_decrypt_time_limit, VENDOR_NAME_MAX_LENGTH]
  by_cases h1 : buf.length < 8
  · simp [h1]
  · by_cases h2 : buf.length - 8 < 64
    · simp [h1, h2]
    · have h3 : buf.length - 72 < 8 := by omega
      simp [h1, h2, h3]

/-- The expiry of a successful decode is 0 or one second before a multiple of a
day, once the offset the normalizer computed is added. -/
theorem rsa_license_extract_rivermax_time_limit (mktime_gmtime : Int → Int)
    (buf : List Nat) (data : rsa_license_data)
    (h : (rsa_license_extract_rivermax mktime_gmtime buf data).1 = 0) :
    (rsa_license_extract_rivermax mktime_gmtime buf data).2.time_limit = 0 ∨
    ((rsa_license_extract_rivermax mktime_gmtime buf data).2.time_limit +
      (time_t_value ((buf.drop 72).take 8) -
        mktime_gmtime (time_t_value ((buf.drop 72).take 8))) + 1) % 86400 = 0 := by
  have hlen : 80 ≤ buf.length := by
    by_contra hlt
    have := rsa_license_extract_rivermax_of_length_lt mktime_gmtime buf data (by omega)
    rw [this] at h
    exact absurd h (by decide)
  rw [rsa_license_extract_rivermax_of_length_ge mktime_gmtime buf data hlen] at h ⊢
  by_cases hc : int_cast (round_up_end_of_day_localtime mktime_gmtime
      (time_t_value ((buf.drop 72).take 8))) = -1
  · rw [if_pos hc] at h
    simp at h
  · rw [if_neg hc]
    simp only
    generalize time_t_value ((buf.drop 72).take 8) = t at hc ⊢
    unfold round_up_end_of_day_localtime at hc ⊢
    by_cases ht : t = 0
    · left
      simp [ht]
    · by_cases hg : int_cast (mktime_gmtime t) = -1
      · rw [if_neg ht, if_pos hg] at hc
        exact absurd rfl hc
      · right
        rw [if_neg ht, if_neg hg]
        have := ROUND_UP_day_emod (t + (t - mktime_gmtime t))
        simp only
        omega

/-! ## The option flags -/

theorem and_OPT_FLAG_ne_zero_iff (flags opt : Nat) :
    flags &&& OPT_FLAG opt ≠ 0 ↔ flags.testBit opt = true := by
  rw [OPT_FLAG, Nat.one_shiftLeft]
  constructor
  · intro h
    obtain ⟨i, hi⟩ := Nat.ne_zero_implies_bit_true h
    rw [Nat.testBit_and, Nat.testBit_two_pow] at hi
    simp only [Bool.and_eq_true, decide_eq_true_eq] at hi
    rw [hi.2]
    exact hi.1
  · intro ht h0
    have h1 : (flags &&& 2 ^ opt).testBit opt = true := by
      rw [Nat.testBit_and, ht, Nat.testBit_two_pow_self]
      rfl
    rw [h0] at h1
    simp at h1

theorem testBit_or_OPT_FLAG (flags opt j : Nat) :
    (flags ||| OPT_FLAG opt).testBit j = (flags.testBit j || decide (opt = j)) := by
  rw [OPT_FLAG, Nat.one_shiftLeft, Nat.testBit_or, Nat.testBit_two_pow]

theorem OPT_FLAG_ne_zero (opt : Nat) : OPT_FLAG opt ≠ 0 := by
  rw [OPT_FLAG, Nat.one_shiftLeft]
  exact Nat.pos_iff_ne_zero.mp (Nat.two_pow_pos opt)

theorem OPT_FLAG_injective (a b : Nat) (h : OPT_FLAG a = OPT_FLAG b) : a = b := by
  rw [OPT_FLAG, OPT_FLAG, Nat.one_shiftLeft, Nat.one_shiftLeft] at h
  exact Nat.pow_right_injective (le_refl 2) h

theorem OPT_ADD_of_testBit (s : parse_args_state) (opt : Nat)
    (h : s.flags.testBit opt = true) :
    OPT_ADD s opt = Except.error { s with out := s.out ++ [Msg.RSA_ERR_ARGREP] } := by
  rw [OPT_ADD, if_pos ((and_OPT_FLAG_ne_zero_iff _ _).mpr h)]

theorem OPT_ADD_of_not_testBit (s : parse_args_state) (opt : Nat)
    (h : s.flags.testBit opt = false) :
    OPT_ADD s opt = Except.ok { s with flags := s.flags ||| OPT_FLAG opt } := by
  have h1 : ¬ (s.flags &&& OPT_FLAG opt ≠ 0) := by
    rw [and_OPT_FLAG_ne_zero_iff, h]
    simp
  rw [OPT_ADD, if_neg h1]

theorem OPT_ADD_ACTION_of_testBit (s : parse_args_state) (opt : Nat)
    (h : s.flags.testBit opt = true) :
    OPT_ADD_ACTION s opt = Except.error { s with out := s.out ++ [Msg.RSA_ERR_ARGREP] } := by
  rw [OPT_ADD_ACTION, OPT_ADD_of_testBit s opt h]

theorem OPT_ADD_ACTION_of_action_ne_zero (s : parse_args_state) (opt : Nat)
    (h : s.flags.testBit opt = false) (ha : s.action ≠ 0) :
    OPT_ADD_ACTION s opt =
      Except.error { s with flags := s.flags ||| OPT_FLAG opt,
                            out := s.out ++ [Msg.RSA_ERR_ARGCONFLICT] } := by
  rw [OPT_ADD_ACTION, OPT_ADD_of_not_testBit s opt h]
  simp only [ha, ne_eq, not_false_eq_true, if_true]

theorem OPT_ADD_ACTION_of_action_eq_zero (s : parse_args_state) (opt : Nat)
    (h : s.flags.testBit opt = false) (ha : s.action = 0) :
    OPT_ADD_ACTION s opt =
      Except.ok { s with flags := s.flags ||| OPT_FLAG opt, action := OPT_FLAG opt } := by
  rw [OPT_ADD_ACTION, OPT_ADD_of_not_testBit s opt h]
  simp only [ha, ne_eq, not_true_eq_false, if_false]

/-! ## One round of the option loop -/

theorem parse_args_case_of_testBit (s : parse_args_state) (o : Opt) (k : Nat)
    (hk : o.opt = some k) (hb : s.flags.testBit k = true) :
    parse_args_case s o = Except.error { s with out := s.out ++ [Msg.RSA_ERR_ARGREP] } := by
  cases o <;> simp [Opt.opt] at hk <;> subst hk <;>
    simp only [parse_args_case, OPT_ADD_ACTION_of_testBit _ _ hb, OPT_ADD_of_testBit _ _ hb]

theorem parse_args_case_of_second_action (s : parse_args_state) (o : Opt) (k : Nat)
    (hk : o.opt = some k) (h4 : k < 4) (hb : s.flags.testBit k = false) (ha : s.action ≠ 0) :
    parse_args_case s o =
      Except.error { s with flags := s.flags ||| OPT_FLAG k,
                            out := s.out ++ [Msg.RSA_ERR_ARGCONFLICT] } := by
  cases o <;> simp [Opt.opt] at hk <;> subst hk <;>
    first
    | exact absurd h4 (by decide)
    | simp only [parse_args_case, OPT_ADD_ACTION_of_action_ne_zero _ _ hb ha]

/-- What a round that does not return has done to `flags` and `action`. -/
theorem parse_args_case_ok (s s1 : parse_args_state) (o : Opt)
    (h : parse_args_case s o = Except.ok s1) :
    (∀ k, o.opt = some k →
      s.flags.testBit k = false ∧ s1.flags = s.flags ||| OPT_FLAG k ∧
      (k < 4 → s.action = 0 ∧ s1.action = OPT_FLAG k) ∧
      (4 ≤ k → s1.action = s.action)) ∧
    (o.opt = none → s1.flags = s.flags ∧ s1.action = s.action) := by
  cases o with
  | unrecognised =>
    simp only [parse_args_case, Except.ok.injEq] at h
    subst h
    simp [Opt.opt]
  | h =>
    refine ⟨?_, by simp [Opt.opt]⟩
    intro k hk
    simp only [Opt.opt, Option.some.injEq] at hk
    subst hk
    simp only [parse_args_case] at h
    by_cases hb : s.flags.testBit RSA_OPT_LIC_HELP = true
    · rw [OPT_ADD_ACTION_of_testBit _ _ hb] at h
      exact absurd h (by simp)
    · simp only [Bool.not_eq_true] at hb
      by_cases ha : s.action = 0
      · rw [OPT_ADD_ACTION_of_action_eq_zero _ _ hb ha] at h
        simp only [Except.ok.injEq] at h
        subst h
        exact ⟨hb, rfl, fun _ => ⟨ha, rfl⟩, fun h4 => absurd h4 (by decide)⟩
      · rw [OPT_ADD_ACTION_of_action_ne_zero _ _ hb ha] at h
        exact absurd h (by simp)
  | x =>
    refine ⟨?_, by simp [Opt.opt]⟩
    intro k hk
    simp only [Opt.opt, Option.some.injEq] at hk
    subst hk
    simp only [parse_args_case] at h
    by_cases hb : s.flags.testBit RSA_OPT_LIC_TEST = true
    · rw [OPT_ADD_ACTION_of_testBit _ _ hb] at h
      exact absurd h (by simp)
    · simp only [Bool.not_eq_true] at hb
      by_cases ha : s.action = 0
      · rw [OPT_ADD_ACTION_of_action_eq_zero _ _ hb ha] at h
        simp only [Except.ok.injEq] at h
        subst h
        exact ⟨hb, rfl, fun _ => ⟨ha, rfl⟩, fun h4 => absurd h4 (by decide)⟩
      · rw [OPT_ADD_ACTION_of_action_ne_zero _ _ hb ha] at h
        exact absurd h (by simp)
  | c optarg =>
    refine ⟨?_, by simp [Opt.opt]⟩
    intro k hk
    simp only [Opt.opt, Option.some.injEq] at hk
    subst hk
    simp only [parse_args_case] at h
    by_cases hb : s.flags.testBit RSA_OPT_LIC_CREATE = true
    · rw [OPT_ADD_ACTION_of_testBit _ _ hb] at h
      exact absurd h (by simp)
    · simp only [Bool.not_eq_true] at hb
      by_cases ha : s.action = 0
      · rw [OPT_ADD_ACTION_of_action_eq_zero _ _ hb ha] at h
        simp only [Except.ok.injEq] at h
        subst h
        exact ⟨hb, rfl, fun _ => ⟨ha, rfl⟩, fun h4 => absurd h4 (by decide)⟩
      · rw [OPT_ADD_ACTION_of_action_ne_zero _ _ hb ha] at h
        exact absurd h (by simp)
  | i optarg =>
    refine ⟨?_, by simp [Opt.opt]⟩
    intro k hk
    simp only [Opt.opt, Option.some.injEq] at hk
    subst hk
    simp only [parse_args_case] at h
    by_cases hb : s.flags.testBit RSA_OPT_LIC_INFO = true
    · rw [OPT_ADD_ACTION_of_testBit _ _ hb] at h
      exact absurd h (by simp)
    · simp only [Bool.not_eq_true] at hb
      by_cases ha : s.action = 0
      · rw [OPT_ADD_ACTION_of_action_eq_zero _ _ hb ha] at h
        simp only [Except.ok.injEq] at h
        subst h
        exact ⟨hb, rfl, fun _ => ⟨ha, rfl⟩, fun h4 => absurd h4 (by decide)⟩
      · rw [OPT_ADD_ACTION_of_action_ne_zero _ _ hb ha] at h
        exact absurd h (by simp)
  | k optarg =>
    refine ⟨?_, by simp [Opt.opt]⟩
    intro k hk
    simp only [Opt.opt, Option.some.injEq] at hk
    subst hk
    simp only [parse_args_case] at h
    by_cases hb : s.flags.testBit RSA_OPT_LIC_KEY = true
    · rw [OPT_ADD_of_testBit _ _ hb] at h
      exact absurd h (by simp)
    · simp only [Bool.not_eq_true] at hb
      rw [OPT_ADD_of_not_testBit _ _ hb] at h
      simp only [Except.ok.injEq] at h
      subst h
      exact ⟨hb, rfl, fun h4 => absurd h4 (by decide), fun _ => rfl⟩
  | v optarg =>
    refine ⟨?_, by simp [Opt.opt]⟩
    intro k hk
    simp only [Opt.opt, Option.some.injEq] at hk
    subst hk
    simp only [parse_args_case] at h
    by_cases hb : s.flags.testBit RSA_OPT_LIC_VENDOR = true
    · rw [OPT_ADD_of_testBit _ _ hb] at h
      exact absurd h (by simp)
    · simp only [Bool.not_eq_true] at hb
      rw [OPT_ADD_of_not_testBit _ _ hb] at h
      simp only [Except.ok.injEq] at h
      subst h
      exact ⟨hb, rfl, fun h4 => absurd h4 (by decide), fun _ => rfl⟩
  | u optarg =>
    refine ⟨?_, by simp [Opt.opt]⟩
    intro k hk
    simp only [Opt.opt, Option.some.injEq] at hk
    subst hk
    simp only [parse_args_case] at h
    by_cases hb : s.flags.testBit RSA_OPT_LIC_TIME_UNIT = true
    · rw [OPT_ADD_of_testBit _ _ hb] at h
      exact absurd h (by simp)
    · simp only [Bool.not_eq_true] at hb
      rw [OPT_ADD_of_not_testBit _ _ hb] at h
      simp only at h
      split_ifs at h <;>
        (simp only [Except.ok.injEq] at h
         subst h
         exact ⟨hb, rfl, fun h4 => absurd h4 (by decide), fun _ => rfl⟩)
  | t optarg =>
    refine ⟨?_, by simp [Opt.opt]⟩
    intro k hk
    simp only [Opt.opt, Option.some.injEq] at hk
    subst hk
    simp only [parse_args_case] at h
    by_cases hb : s.flags.testBit RSA_OPT_LIC_TIME_LIMIT = true
    · rw [OPT_ADD_of_testBit _ _ hb] at h
      exact absurd h (by simp)
    · simp only [Bool.not_eq_true] at hb
      rw [OPT_ADD_of_not_testBit _ _ hb] at h
      simp only at h
      split_ifs at h
      simp only [Except.ok.injEq] at h
      subst h
      exact ⟨hb, rfl, fun h4 => absurd h4 (by decide), fun _ => rfl⟩

/-! ## The option loop -/

theorem parse_args_loop_append (a b : List Opt) (s : parse_args_state) :
    parse_args_loop (a ++ b) s =
      match parse_args_loop a s with
      | Except.error e => Except.error e
      | Except.ok s1 => parse_args_loop b s1 := by
  induction a generalizing s with
  | nil => rfl
  | cons o a ih =>
    simp only [List.cons_append, parse_args_loop]
    cases parse_args_case s o with
    | error e => rfl
    | ok s1 => exact ih s1

/-- The flags after a loop that did not return: those set before and those
of the options met. -/
theorem parse_args_loop_ok_flags (opts : List Opt) (s s1 : parse_args_state)
    (h : parse_args_loop opts s = Except.ok s1) (j : Nat) :
    s1.flags.testBit j = true ↔
      (s.flags.testBit j = true ∨ ∃ o ∈ opts, o.opt = some j) := by
  induction opts generalizing s with
  | nil =>
    simp only [parse_args_loop, Except.ok.injEq] at h
    subst h
    simp
  | cons o opts ih =>
    simp only [parse_args_loop] at h
    cases hc : parse_args_case s o with
    | error e => rw [hc] at h; exact absurd h (by simp)
    | ok s2 =>
      rw [hc] at h
      rw [ih s2 h]
      have hok := parse_args_case_ok s s2 o hc
      cases ho : o.opt with
      | none =>
        rw [(hok.2 ho).1]
        simp [ho]
      | some k =>
        rw [(hok.1 k ho).2.1, testBit_or_OPT_FLAG]
        simp only [Bool.or_eq_true, decide_eq_true_eq, List.mem_cons, exists_eq_or_imp, ho,
          Option.some.injEq]
        tauto

/-- While the loop runs, an action flag in `flags` is the value of `action`. -/
theorem parse_args_loop_ok_action (opts : List Opt) (s s1 : parse_args_state)
    (hinv : ∀ k, k < 4 → s.flags.testBit k = true → s.action = OPT_FLAG k)
    (h : parse_args_loop opts s = Except.ok s1) :
    ∀ k, k < 4 → s1.flags.testBit k = true → s1.action = OPT_FLAG k := by
  induction opts generalizing s with
  | nil =>
    simp only [parse_args_loop, Except.ok.injEq] at h
    subst h
    exact hinv
  | cons o opts ih =>
    simp only [parse_args_loop] at h
    cases hc : parse_args_case s o with
    | error e => rw [hc] at h; exact absurd h (by simp)
    | ok s2 =>
      rw [hc] at h
      apply ih s2 _ h
      have hok := parse_args_case_ok s s2 o hc
      intro k hk hb
      cases ho : o.opt with
      | none =>
        rw [(hok.2 ho).1] at hb
        rw [(hok.2 ho).2]
        exact hinv k hk hb
      | some j =>
        obtain ⟨hbj, hf, hact, hdata⟩ := hok.1 j ho
        rw [hf, testBit_or_OPT_FLAG] at hb
        simp only [Bool.or_eq_true, decide_eq_true_eq] at hb
        by_cases hj : j < 4
        · obtain ⟨ha0, ha1⟩ := hact hj
          rcases hb with hb | hb
          · have := hinv k hk hb
            rw [ha0] at this
            exact absurd this.symm (OPT_FLAG_ne_zero k)
          · rw [ha1, hb]
        · rcases hb with hb | hb
          · rw [hdata (by omega)]
            exact hinv k hk hb
          · omega

theorem parse_args_init_flags (key : List Nat) (k : Nat) :
    (parse_args_init key).flags.testBit k = false := by
  simp [parse_args_init]

theorem parse_args_of_loop_error (now : Int) (key : List Nat) (opts : List Opt)
    (e : parse_args_state) (h : parse_args_loop opts (parse_args_init key) = Except.error e) :
    parse_args now key opts = (-1, e) := by
  rw [parse_args, h]

theorem parse_args_of_loop_ok (now : Int) (key : List Nat) (opts : List Opt)
    (s : parse_args_state) (h : parse_args_loop opts (parse_args_init key) = Except.ok s) :
    parse_args now key opts = parse_args_finish now s := by
  rw [parse_args, h]

/-- A loop that has returned on a sequence of options returns in the same
state whatever follows the sequence. -/
theorem parse_args_loop_error_append (pre post : List Opt) (s e : parse_args_state)
    (h : parse_args_loop pre s = Except.error e) :
    parse_args_loop (pre ++ post) s = Except.error e := by
  rw [parse_args_loop_append, h]

/-- The loop returns at the second occurrence of an option, if not before. -/
theorem parse_args_loop_repeated (pre post : List Opt) (o : Opt) (k : Nat)
    (s : parse_args_state) (hk : o.opt = some k) (hpre : ∃ o1 ∈ pre, o1.opt = some k) :
    ∃ e, parse_args_loop (pre ++ o :: post) s = Except.error e := by
  rw [parse_args_loop_append]
  cases hl : parse_args_loop pre s with
  | error e => exact ⟨e, rfl⟩
  | ok s1 =>
    have hb : s1.flags.testBit k = true := (parse_args_loop_ok_flags pre s s1 hl k).mpr (Or.inr hpre)
    simp only [parse_args_loop, parse_args_case_of_testBit s1 o k hk hb]
    exact ⟨_, rfl⟩

/-- After a loop over options that hold an action, a different action makes
the next round return with `RSA_ERR_ARGCONFLICT`. -/
theorem parse_args_case_after_action (key : List Nat) (pre : List Opt) (o2 : Opt)
    (k1 k2 : Nat) (s : parse_args_state)
    (hl : parse_args_loop pre (parse_args_init key) = Except.ok s)
    (hpre : ∃ o1 ∈ pre, o1.opt = some k1) (h1 : k1 < 4)
    (ho2 : o2.opt = some k2) (h2 : k2 < 4) (hne : k1 ≠ k2) :
    parse_args_case s o2 =
      Except.error { s with flags := s.flags ||| OPT_FLAG k2,
                            out := s.out ++ [Msg.RSA_ERR_ARGCONFLICT] } := by
  have hinv := parse_args_loop_ok_action pre (parse_args_init key) s
    (fun k _ hb => absurd hb (by rw [parse_args_init_flags]; simp)) hl
  have hb1 : s.flags.testBit k1 = true :=
    (parse_args_loop_ok_flags pre _ s hl k1).mpr (Or.inr hpre)
  have ha : s.action = OPT_FLAG k1 := hinv k1 h1 hb1
  have hb2 : s.flags.testBit k2 = false := by
    by_contra hb
    simp only [Bool.not_eq_false] at hb
    have := hinv k2 h2 hb
    rw [ha] at this
    exact hne (OPT_FLAG_injective k1 k2 this)
  exact parse_args_case_of_second_action s o2 k2 ho2 h2 hb2
    (by rw [ha]; exact OPT_FLAG_ne_zero k1)

/-! ## The time limit that `parse_args` computes -/

theorem OPT_ADD_ok (s s1 : parse_args_state) (opt : Nat) (h : OPT_ADD s opt = Except.ok s1) :
    s1 = { s with flags := s.flags ||| OPT_FLAG opt } := by
  unfold OPT_ADD at h
  split_ifs at h
  simp only [Except.ok.injEq] at h
  exact h.symm

theorem OPT_ADD_ACTION_ok (s s1 : parse_args_state) (opt : Nat)
    (h : OPT_ADD_ACTION s opt = Except.ok s1) :
    s1 = { s with flags := s.flags ||| OPT_FLAG opt, action := OPT_FLAG opt } := by
  unfold OPT_ADD_ACTION at h
  cases ha : OPT_ADD s opt with
  | error e => rw [ha] at h; simp at h
  | ok s2 =>
    rw [ha] at h
    have := OPT_ADD_ok s s2 opt ha
    subst this
    simp only at h
    split_ifs at h
    simp only [Except.ok.injEq] at h
    exact h.symm

/-- A round of the loop that does not return leaves `time_limit` alone and
sets `time_limit_unit` to nothing but the length of a day, week, month or
year. -/
theorem parse_args_case_ok_time (s s1 : parse_args_state) (o : Opt)
    (h : parse_args_case s o = Except.ok s1) :
    s1.time_limit = s.time_limit ∧
    (s1.time_limit_unit = s.time_limit_unit ∨ s1.time_limit_unit = 86400 ∨
      s1.time_limit_unit = 604800 ∨ s1.time_limit_unit = 2592000 ∨
      s1.time_limit_unit = 31536000) := by
  cases o with
  | unrecognised =>
    simp only [parse_args_case, Except.ok.injEq] at h
    subst h
    exact ⟨rfl, Or.inl rfl⟩
  | h =>
    have := OPT_ADD_ACTION_ok s s1 _ h
    subst this
    exact ⟨rfl, Or.inl rfl⟩
  | x =>
    have := OPT_ADD_ACTION_ok s s1 _ h
    subst this
    exact ⟨rfl, Or.inl rfl⟩
  | c optarg =>
    simp only [parse_args_case] at h
    cases ha : OPT_ADD_ACTION s RSA_OPT_LIC_CREATE with
    | error e => rw [ha] at h; simp at h
    | ok s2 =>
      rw [ha] at h
      have := OPT_ADD_ACTION_ok s s2 _ ha
      subst this
      simp only [Except.ok.injEq] at h
      subst h
      exact ⟨rfl, Or.inl rfl⟩
  | i optarg =>
    simp only [parse_args_case] at h
    cases ha : OPT_ADD_ACTION s RSA_OPT_LIC_INFO with
    | error e => rw [ha] at h; simp at h
    | ok s2 =>
      rw [ha] at h
      have := OPT_ADD_ACTION_ok s s2 _ ha
      subst this
      simp only [Except.ok.injEq] at h
      subst h
      exact ⟨rfl, Or.inl rfl⟩
  | k optarg =>
    simp only [parse_args_case] at h
    cases ha : OPT_ADD s RSA_OPT_LIC_KEY with
    | error e => rw [ha] at h; simp at h
    | ok s2 =>
      rw [ha] at h
      have := OPT_ADD_ok s s2 _ ha
      subst this
      simp only [Except.ok.injEq] at h
      subst h
      exact ⟨rfl, Or.inl rfl⟩
  | v optarg =>
    simp only [parse_args_case] at h
    cases ha : OPT_ADD s RSA_OPT_LIC_VENDOR with
    | error e => rw [ha] at h; simp at h
    | ok s2 =>
      rw [ha] at h
      have := OPT_ADD_ok s s2 _ ha
      subst this
      simp only [Except.ok.injEq] at h
      subst h
      exact ⟨rfl, Or.inl rfl⟩
  | u optarg =>
    simp only [parse_args_case] at h
    cases ha : OPT_ADD s RSA_OPT_LIC_TIME_UNIT with
    | error e => rw [ha] at h; simp at h
    | ok s2 =>
      rw [ha] at h
      have := OPT_ADD_ok s s2 _ ha
      subst this
      simp only at h
      split_ifs at h <;> simp only [Except.ok.injEq] at h <;> subst h
      · exact ⟨rfl, Or.inr (Or.inl (by rfl))⟩
      · exact ⟨rfl, Or.inr (Or.inr (Or.inl (by rfl)))⟩
      · exact ⟨rfl, Or.inr (Or.inr (Or.inr (Or.inl (by rfl))))⟩
      · exact ⟨rfl, Or.inr (Or.inr (Or.inr (Or.inr (by rfl))))⟩
  | t optarg =>
    simp only [parse_args_case] at h
    cases ha : OPT_ADD s RSA_OPT_LIC_TIME_LIMIT with
    | error e => rw [ha] at h; simp at h
    | ok s2 =>
      rw [ha] at h
      have := OPT_ADD_ok s s2 _ ha
      subst this
      simp only at h
      split_ifs at h
      simp only [Except.ok.injEq] at h
      subst h
      exact ⟨rfl, Or.inl rfl⟩

theorem parse_args_loop_ok_time (opts : List Opt) (s s1 : parse_args_state)
    (h : parse_args_loop opts s = Except.ok s1) :
    s1.time_limit = s.time_limit ∧
    (s1.time_limit_unit = s.time_limit_unit ∨ s1.time_limit_unit = 86400 ∨
      s1.time_limit_unit = 604800 ∨ s1.time_limit_unit = 2592000 ∨
      s1.time_limit_unit = 31536000) := by
  induction opts generalizing s with
  | nil =>
    simp only [parse_args_loop, Except.ok.injEq] at h
    subst h
    exact ⟨rfl, Or.inl rfl⟩
  | cons o opts ih =>
    simp only [parse_args_loop] at h
    cases hc : parse_args_case s o with
    | error e => rw [hc] at h; exact absurd h (by simp)
    | ok s2 =>
      rw [hc] at h
      have h1 := parse_args_case_ok_time s s2 o hc
      have h2 := ih s2 h
      refine ⟨h2.1.trans h1.1, ?_⟩
      rcases h2.2 with h3 | h3
      · rw [h3]; exact h1.2
      · exact Or.inr h3

/-- The time limit of an accepted command line: 0 when the multiple is 0, and
otherwise the current time, a day, and the product of the multiple and the
unit as a wrapped `int`; the unit is a day, a week, a month or a year. -/
theorem parse_args_time_limit (now : Int) (key : List Nat) (opts : List Opt)
    (s : parse_args_state) (h : parse_args now key opts = (0, s)) :
    s.time_limit =
      (if s.time_limit_multiple = 0 then 0
       else now + 86400 + int_cast (s.time_limit_multiple * s.time_limit_unit)) ∧
    (s.time_limit_unit = 86400 ∨ s.time_limit_unit = 604800 ∨
      s.time_limit_unit = 2592000 ∨ s.time_limit_unit = 31536000) := by
  rw [parse_args] at h
  cases hl : parse_args_loop opts (parse_args_init key) with
  | error e =>
    rw [hl] at h
    simp at h
  | ok s0 =>
    rw [hl] at h
    have ht := parse_args_loop_ok_time opts _ s0 hl
    have ht0 : s0.time_limit = 0 := ht.1
    have hu : s0.time_limit_unit = 86400 ∨ s0.time_limit_unit = 604800 ∨
        s0.time_limit_unit = 2592000 ∨ s0.time_limit_unit = 31536000 := by
      rcases ht.2 with h1 | h1
      · right; right; left
        rw [h1]
        rfl
      · exact h1
    have hd : SECONDS_IN_DAY = 86400 := by decide
    simp only [parse_args_finish, hd] at h
    split_ifs at h <;> simp only [Prod.mk.injEq] at h <;>
      first
      | exact absurd h.1 (by decide)
      | (obtain ⟨_, rfl⟩ := h
         simp_all)

theorem int_cast_of_int_range (x : Int) (hlo : -2 ^ 31 ≤ x) (hhi : x < 2 ^ 31) :
    int_cast x = x := by
  unfold int_cast
  omega

/-- Where the expiry formula is exact: for an accepted command line whose
multiple is not 0 and whose product with the unit fits an `int`. -/
theorem parse_args_time_limit_of_int_range (now : Int) (key : List Nat) (opts : List Opt)
    (s : parse_args_state) (h : parse_args now key opts = (0, s))
    (hm : s.time_limit_multiple ≠ 0)
    (hlo : -2 ^ 31 ≤ s.time_limit_multiple * s.time_limit_unit)
    (hhi : s.time_limit_multiple * s.time_limit_unit < 2 ^ 31) :
    s.time_limit = now + 86400 + s.time_limit_multiple * s.time_limit_unit := by
  rw [(parse_args_time_limit now key opts s h).1, if_neg hm, int_cast_of_int_range _ hlo hhi]

/-! ## The messages of the option loop -/

/-- A round of the loop that does not return prints nothing, or the usage
summary for an unrecognised option. -/
theorem parse_args_case_ok_out (s s1 : parse_args_state) (o : Opt)
    (h : parse_args_case s o = Except.ok s1) :
    s1.out = s.out ∨ s1.out = s.out ++ [Msg.usage] := by
  cases o with
  | unrecognised =>
    simp only [parse_args_case, Except.ok.injEq] at h
    subst h
    exact Or.inr rfl
  | h =>
    have := OPT_ADD_ACTION_ok s s1 _ h
    subst this
    exact Or.inl rfl
  | x =>
    have := OPT_ADD_ACTION_ok s s1 _ h
    subst this
    exact Or.inl rfl
  | c optarg =>
    simp only [parse_args_case] at h
    cases ha : OPT_ADD_ACTION s RSA_OPT_LIC_CREATE with
    | error e => rw [ha] at h; simp at h
    | ok s2 =>
      rw [ha] at h
      have := OPT_ADD_ACTION_ok s s2 _ ha
      subst this
      simp only [Except.ok.injEq] at h
      subst h
      exact Or.inl rfl
  | i optarg =>
    simp only [parse_args_case] at h
    cases ha : OPT_ADD_ACTION s RSA_OPT_LIC_INFO with
    | error e => rw [ha] at h; simp at h
    | ok s2 =>
      rw [ha] at h
      have := OPT_ADD_ACTION_ok s s2 _ ha
      subst this
      simp only [Except.ok.injEq] at h
      subst h
      exact Or.inl rfl
  | k optarg =>
    simp only [parse_args_case] at h
    cases ha : OPT_ADD s RSA_OPT_LIC_KEY with
    | error e => rw [ha] at h; simp at h
    | ok s2 =>
      rw [ha] at h
      have := OPT_ADD_ok s s2 _ ha
      subst this
      simp only [Except.ok.injEq] at h
      subst h
      exact Or.inl rfl
  | v optarg =>
    simp only [parse_args_case] at h
    cases ha : OPT_ADD s RSA_OPT_LIC_VENDOR with
    | error e => rw [ha] at h; simp at h
    | ok s2 =>
      rw [ha] at h
      have := OPT_ADD_ok s s2 _ ha
      subst this
      simp only [Except.ok.injEq] at h
      subst h
      exact Or.inl rfl
  | u optarg =>
    simp only [parse_args_case] at h
    cases ha : OPT_ADD s RSA_OPT_LIC_TIME_UNIT with
    | error e => rw [ha] at h; simp at h
    | ok s2 =>
      rw [ha] at h
      have := OPT_ADD_ok s s2 _ ha
      subst this
      simp only at h
      split_ifs at h <;> simp only [Except.ok.injEq] at h <;> subst h <;> exact Or.inl rfl
  | t optarg =>
    simp only [parse_args_case] at h
    cases ha : OPT_ADD s RSA_OPT_LIC_TIME_LIMIT with
    | error e => rw [ha] at h; simp at h
    | ok s2 =>
      rw [ha] at h
      have := OPT_ADD_ok s s2 _ ha
      subst this
      simp only at h
      split_ifs at h
      simp only [Except.ok.injEq] at h
      subst h
      exact Or.inl rfl

/-- A round on an option that is met for the first time and whose own argument
passes can only return with `RSA_ERR_ARGCONFLICT`. -/
theorem parse_args_case_error_of_optarg_ok (s e : parse_args_state) (o : Opt)
    (hok : o.optarg_ok = true) (hb : ∀ k, o.opt = some k → s.flags.testBit k = false)
    (h : parse_args_case s o = Except.error e) :
    e.out = s.out ++ [Msg.RSA_ERR_ARGCONFLICT] := by
  cases o with
  | unrecognised => simp [parse_args_case] at h
  | h =>
    have hb0 := hb _ rfl
    simp only [parse_args_case] at h
    by_cases ha : s.action = 0
    · rw [OPT_ADD_ACTION_of_action_eq_zero _ _ hb0 ha] at h
      simp at h
    · rw [OPT_ADD_ACTION_of_action_ne_zero _ _ hb0 ha] at h
      simp only [Except.error.injEq] at h
      subst h
      rfl
  | x =>
    have hb0 := hb _ rfl
    simp only [parse_args_case] at h
    by_cases ha : s.action = 0
    · rw [OPT_ADD_ACTION_of_action_eq_zero _ _ hb0 ha] at h
      simp at h
    · rw [OPT_ADD_ACTION_of_action_ne_zero _ _ hb0 ha] at h
      simp only [Except.error.injEq] at h
      subst h
      rfl
  | c optarg =>
    have hb0 := hb _ rfl
    simp only [parse_args_case] at h
    by_cases ha : s.action = 0
    · rw [OPT_ADD_ACTION_of_action_eq_zero _ _ hb0 ha] at h
      simp at h
    · rw [OPT_ADD_ACTION_of_action_ne_zero _ _ hb0 ha] at h
      simp only [Except.error.injEq] at h
      subst h
      rfl
  | i optarg =>
    have hb0 := hb _ rfl
    simp only [parse_args_case] at h
    by_cases ha : s.action = 0
    · rw [OPT_ADD_ACTION_of_action_eq_zero _ _ hb0 ha] at h
      simp at h
    · rw [OPT_ADD_ACTION_of_action_ne_zero _ _ hb0 ha] at h
      simp only [Except.error.injEq] at h
      subst h
      rfl
  | k optarg =>
    have hb0 := hb _ rfl
    simp only [parse_args_case, OPT_ADD_of_not_testBit _ _ hb0] at h
    simp at h
  | v optarg =>
    have hb0 := hb _ rfl
    simp only [parse_args_case, OPT_ADD_of_not_testBit _ _ hb0] at h
    simp at h
  | u optarg =>
    have hb0 := hb _ rfl
    simp only [parse_args_case, OPT_ADD_of_not_testBit _ _ hb0] at h
    simp only [Opt.optarg_ok, Bool.or_eq_true] at hok
    split_ifs at h
    tauto
  | t optarg =>
    have hb0 := hb _ rfl
    simp only [parse_args_case, OPT_ADD_of_not_testBit _ _ hb0] at h
    simp only [Opt.optarg_ok, decide_eq_true_eq] at hok
    split_ifs at h with hne
    exact absurd hok hne

/-- A loop over options that are all different and whose own arguments pass
can only return with `RSA_ERR_ARGCONFLICT`; before that, and when it does not
return, it has printed nothing but usage summaries. -/
theorem parse_args_loop_of_optarg_ok (opts : List Opt) (s : parse_args_state)
    (hok : ∀ o ∈ opts, o.optarg_ok = true) (hnd : (opts.filterMap Opt.opt).Nodup)
    (hb : ∀ o ∈ opts, ∀ k, o.opt = some k → s.flags.testBit k = false)
    (hout : ∀ m ∈ s.out, m = Msg.usage) :
    (∀ e, parse_args_loop opts s = Except.error e →
      ∃ us, (∀ m ∈ us, m = Msg.usage) ∧ e.out = us ++ [Msg.RSA_ERR_ARGCONFLICT]) ∧
    (∀ s1, parse_args_loop opts s = Except.ok s1 → ∀ m ∈ s1.out, m = Msg.usage) := by
  induction opts generalizing s with
  | nil =>
    constructor
    · intro e h
      simp [parse_args_loop] at h
    · intro s1 h
      simp only [parse_args_loop, Except.ok.injEq] at h
      subst h
      exact hout
  | cons o opts ih =>
    cases hc : parse_args_case s o with
    | error e1 =>
      constructor
      · intro e h
        simp only [parse_args_loop, hc, Except.error.injEq] at h
        subst h
        exact ⟨s.out, hout, parse_args_case_error_of_optarg_ok s e1 o
          (hok o (List.mem_cons_self _ _)) (hb o (List.mem_cons_self _ _)) hc⟩
      · intro s1 h
        simp [parse_args_loop, hc] at h
    | ok s2 =>
      have hstep := parse_args_case_ok s s2 o hc
      have hout2 : ∀ m ∈ s2.out, m = Msg.usage := by
        intro m hm
        rcases parse_args_case_ok_out s s2 o hc with h1 | h1
        · rw [h1] at hm
          exact hout m hm
        · rw [h1, List.mem_append] at hm
          rcases hm with hm | hm
          · exact hout m hm
          · simpa using hm
      have hnd2 : (opts.filterMap Opt.opt).Nodup := by
        cases ho : o.opt with
        | none => rw [List.filterMap_cons_none ho] at hnd; exact hnd
        | some k => rw [List.filterMap_cons_some ho] at hnd; exact (List.nodup_cons.mp hnd).2
      have hb2 : ∀ o1 ∈ opts, ∀ k, o1.opt = some k → s2.flags.testBit k = false := by
        intro o1 ho1 k1 hk1
        have hold := hb o1 (List.mem_cons_of_mem _ ho1) k1 hk1
        cases ho : o.opt with
        | none =>
          rw [(hstep.2 ho).1]
          exact hold
        | some k =>
          rw [(hstep.1 k ho).2.1, testBit_or_OPT_FLAG, hold]
          rw [List.filterMap_cons_some ho] at hnd
          have hnotin := (List.nodup_cons.mp hnd).1
          have hin : k1 ∈ opts.filterMap Opt.opt := List.mem_filterMap.mpr ⟨o1, ho1, hk1⟩
          have hne : k ≠ k1 := fun heq => hnotin (heq ▸ hin)
          simp [hne]
      have ih2 := ih s2 (fun o1 ho1 => hok o1 (List.mem_cons_of_mem _ ho1)) hnd2 hb2 hout2
      constructor
      · intro e h
        simp only [parse_args_loop, hc] at h
        exact ih2.1 e h
      · intro s1 h
        simp only [parse_args_loop, hc] at h
        exact ih2.2 s1 h

theorem and_ne_zero_of_testBit (a m k : Nat) (ha : a.testBit k = true)
    (hm : m.testBit k = true) : a &&& m ≠ 0 := by
  intro h0
  have h1 : (a &&& m).testBit k = true := by rw [Nat.testBit_and, ha, hm]; rfl
  rw [h0] at h1
  simp at h1

theorem Opt.opt_lt (o : Opt) (k : Nat) (h : o.opt = some k) : k < 8 := by
  cases o <;> simp [Opt.opt] at h <;> subst h <;> decide

theorem testBit_unsigned_int_not_help (k : Nat) (h0 : 0 < k) (h8 : k < 8) :
    (unsigned_int_not (OPT_FLAG RSA_OPT_LIC_HELP)).testBit k = true := by
  interval_cases k <;> decide

theorem testBit_lic_data_mask (d : Nat) (h : d = 4 ∨ d = 5 ∨ d = 6) :
    (OPT_FLAG RSA_OPT_LIC_VENDOR ||| OPT_FLAG RSA_OPT_LIC_TIME_LIMIT |||
      OPT_FLAG RSA_OPT_LIC_TIME_UNIT).testBit d = true := by
  rcases h with rfl | rfl | rfl <;> decide

/-- After the loop, `parse_args` reports a conflict when an action is set and
either the help flag stands with another flag, or a flag of vendor, unit or
time limit stands while the action is not Create. -/
theorem parse_args_finish_conflict (now : Int) (s : parse_args_state) (ha : s.action ≠ 0)
    (h : (s.flags.testBit 0 = true ∧ ∃ k, 0 < k ∧ k < 8 ∧ s.flags.testBit k = true) ∨
      ((∃ d, (d = 4 ∨ d = 5 ∨ d = 6) ∧ s.flags.testBit d = true) ∧
        s.action &&& OPT_FLAG RSA_OPT_LIC_CREATE = 0)) :
    parse_args_finish now s =
      (-1, { s with out := s.out ++ [Msg.RSA_ERR_ARGCONFLICT, Msg.usage] }) := by
  unfold parse_args_finish
  rw [if_neg ha]
  by_cases hhelp : s.flags &&& OPT_FLAG RSA_OPT_LIC_HELP ≠ 0 ∧
      s.flags &&& unsigned_int_not (OPT_FLAG RSA_OPT_LIC_HELP) ≠ 0
  · rw [if_pos hhelp]
  · rw [if_neg hhelp]
    have hdata : OPT_FLAG_LIC_DATA s.flags ≠ 0 ∧ s.action &&& OPT_FLAG RSA_OPT_LIC_CREATE = 0 := by
      rcases h with ⟨hb0, k, hk0, hk8, hbk⟩ | ⟨⟨d, hd, hbd⟩, hcreate⟩
      · exfalso
        apply hhelp
        exact ⟨(and_OPT_FLAG_ne_zero_iff _ _).mpr hb0,
          and_ne_zero_of_testBit _ _ k hbk (testBit_unsigned_int_not_help k hk0 hk8)⟩
      · exact ⟨and_ne_zero_of_testBit _ _ d hbd (testBit_lic_data_mask d hd), hcreate⟩
    rw [if_pos hdata]

/-- A loop over options none of which is an action leaves `action` alone. -/
theorem parse_args_loop_ok_no_action (opts : List Opt) (s s1 : parse_args_state)
    (hno : ∀ o ∈ opts, ∀ k, o.opt = some k → 4 ≤ k)
    (h : parse_args_loop opts s = Except.ok s1) : s1.action = s.action := by
  induction opts generalizing s with
  | nil =>
    simp only [parse_args_loop, Except.ok.injEq] at h
    subst h
    rfl
  | cons o opts ih =>
    simp only [parse_args_loop] at h
    cases hc : parse_args_case s o with
    | error e => rw [hc] at h; exact absurd h (by simp)
    | ok s2 =>
      rw [hc] at h
      rw [ih s2 (fun o1 ho1 => hno o1 (List.mem_cons_of_mem _ ho1)) h]
      have hstep := parse_args_case_ok s s2 o hc
      cases ho : o.opt with
      | none => exact (hstep.2 ho).2
      | some k => exact (hstep.1 k ho).2.2.2 (hno o (List.mem_cons_self _ _) k ho)

/-- The state after a loop that did not return, in terms of the options met:
the action is that of the action option, and the flags are those of the
options. -/
theorem parse_args_loop_ok_init (key : List Nat) (opts : List Opt) (s : parse_args_state)
    (h : parse_args_loop opts (parse_args_init key) = Except.ok s) :
    (∀ k, s.flags.testBit k = true ↔ ∃ o ∈ opts, o.opt = some k) ∧
    (∀ k, k < 4 → (∃ o ∈ opts, o.opt = some k) → s.action = OPT_FLAG k) := by
  have hf := parse_args_loop_ok_flags opts _ s h
  have hinv := parse_args_loop_ok_action opts (parse_args_init key) s
    (fun k _ hb => absurd hb (by rw [parse_args_init_flags]; simp)) h
  constructor
  · intro k
    rw [hf k, parse_args_init_flags]
    simp
  · intro k hk hex
    exact hinv k hk ((hf k).mpr (Or.inr hex))

/-- When every run of the loop that does not return ends in a conflict,
`parse_args` returns `-1`, and on options that are all different and whose own
arguments pass it reports `RSA_ERR_ARGCONFLICT` and no other error. -/
theorem parse_args_conflict (now : Int) (key : List Nat) (opts : List Opt)
    (hfin : ∀ s, parse_args_loop opts (parse_args_init key) = Except.ok s →
      parse_args_finish now s =
        (-1, { s with out := s.out ++ [Msg.RSA_ERR_ARGCONFLICT, Msg.usage] })) :
    (parse_args now key opts).1 = -1 ∧
    ((∀ o ∈ opts, o.optarg_ok = true) → (opts.filterMap Opt.opt).Nodup →
      Msg.RSA_ERR_ARGCONFLICT ∈ (parse_args now key opts).2.out ∧
      ∀ m ∈ (parse_args now key opts).2.out, m = Msg.RSA_ERR_ARGCONFLICT ∨ m = Msg.usage) := by
  cases hl : parse_args_loop opts (parse_args_init key) with
  | error e =>
    rw [parse_args_of_loop_error now key opts e hl]
    refine ⟨rfl, ?_⟩
    intro hok hnd
    obtain ⟨us, hus, he⟩ := (parse_args_loop_of_optarg_ok opts (parse_args_init key) hok hnd
      (fun _ _ k _ => parse_args_init_flags key k) (by simp [parse_args_init])).1 e hl
    simp only [he]
    refine ⟨by simp, ?_⟩
    intro m hm
    rw [List.mem_append] at hm
    rcases hm with hm | hm
    · exact Or.inr (hus m hm)
    · left; simpa using hm
  | ok s =>
    rw [parse_args_of_loop_ok now key opts s hl, hfin s hl]
    refine ⟨rfl, ?_⟩
    intro hok hnd
    have hus := (parse_args_loop_of_optarg_ok opts (parse_args_init key) hok hnd
      (fun _ _ k _ => parse_args_init_flags key k) (by simp [parse_args_init])).2 s hl
    refine ⟨by simp, ?_⟩
    intro m hm
    simp only [List.mem_append, List.mem_cons, List.mem_singleton, List.not_mem_nil,
      or_false] at hm
    rcases hm with hm | hm | hm
    · exact Or.inr (hus m hm)
    · exact Or.inl hm
    · exact Or.inr hm

/-- After a loop that did not return over help and another recognised option,
`parse_args` reports a conflict. -/
theorem parse_args_finish_help (now : Int) (key : List Nat) (opts : List Opt)
    (s : parse_args_state) (hh : Opt.h ∈ opts)
    (ho : ∃ o ∈ opts, ∃ k, o.opt = some k ∧ k ≠ RSA_OPT_LIC_HELP)
    (hl : parse_args_loop opts (parse_args_init key) = Except.ok s) :
    parse_args_finish now s =
      (-1, { s with out := s.out ++ [Msg.RSA_ERR_ARGCONFLICT, Msg.usage] }) := by
  obtain ⟨hf, hact⟩ := parse_args_loop_ok_init key opts s hl
  have ha : s.action = OPT_FLAG 0 := hact 0 (by decide) ⟨Opt.h, hh, rfl⟩
  obtain ⟨o, hmem, k, hk, hne⟩ := ho
  apply parse_args_finish_conflict now s (by rw [ha]; exact OPT_FLAG_ne_zero 0)
  left
  refine ⟨(hf 0).mpr ⟨Opt.h, hh, rfl⟩, k, ?_, Opt.opt_lt o k hk, (hf k).mpr ⟨o, hmem, hk⟩⟩
  exact Nat.pos_of_ne_zero hne

/-- After a loop that did not return over an action other than Create and an
option of vendor, unit or time limit, `parse_args` reports a conflict. -/
theorem parse_args_finish_data (now : Int) (key : List Nat) (opts : List Opt)
    (s : parse_args_state)
    (hact : ∃ o ∈ opts, ∃ a, o.opt = some a ∧
      (a = RSA_OPT_LIC_HELP ∨ a = RSA_OPT_LIC_INFO ∨ a = RSA_OPT_LIC_TEST))
    (hdata : ∃ o ∈ opts, ∃ d, o.opt = some d ∧
      (d = RSA_OPT_LIC_VENDOR ∨ d = RSA_OPT_LIC_TIME_UNIT ∨ d = RSA_OPT_LIC_TIME_LIMIT))
    (hl : parse_args_loop opts (parse_args_init key) = Except.ok s) :
    parse_args_finish now s =
      (-1, { s with out := s.out ++ [Msg.RSA_ERR_ARGCONFLICT, Msg.usage] }) := by
  obtain ⟨hf, hinv⟩ := parse_args_loop_ok_init key opts s hl
  obtain ⟨oa, hoa, a, hka, ha⟩ := hact
  obtain ⟨od, hod, d, hkd, hd⟩ := hdata
  have ha4 : a < 4 := by
    rcases ha with rfl | rfl | rfl <;> decide
  have hs : s.action = OPT_FLAG a := hinv a ha4 ⟨oa, hoa, hka⟩
  have hbd : s.flags.testBit d = true := (hf d).mpr ⟨od, hod, hkd⟩
  have hd456 : d = 4 ∨ d = 5 ∨ d = 6 := by
    rcases hd with rfl | rfl | rfl
    · exact Or.inl rfl
    · exact Or.inr (Or.inl rfl)
    · exact Or.inr (Or.inr rfl)
  apply parse_args_finish_conflict now s (by rw [hs]; exact OPT_FLAG_ne_zero a)
  right
  refine ⟨⟨d, hd456, hbd⟩, ?_⟩
  rw [hs]
  rcases ha with rfl | rfl | rfl <;> decide

/-- A loop that did not return has printed nothing but the usage summaries of
unrecognised options. -/
theorem parse_args_loop_ok_out (opts : List Opt) (s s1 : parse_args_state)
    (hout : ∀ m ∈ s.out, m = Msg.usage)
    (h : parse_args_loop opts s = Except.ok s1) : ∀ m ∈ s1.out, m = Msg.usage := by
  induction opts generalizing s with
  | nil =>
    simp only [parse_args_loop, Except.ok.injEq] at h
    subst h
    exact hout
  | cons o opts ih =>
    simp only [parse_args_loop] at h
    cases hc : parse_args_case s o with
    | error e => rw [hc] at h; exact absurd h (by simp)
    | ok s2 =>
      rw [hc] at h
      apply ih s2 _ h
      intro m hm
      rcases parse_args_case_ok_out s s2 o hc with h1 | h1
      · rw [h1] at hm
        exact hout m hm
      · rw [h1, List.mem_append] at hm
        rcases hm with hm | hm
        · exact hout m hm
        · simpa using hm

/-! ## The claims on the normalizer -/

/-- C11, the code at the failing inputs.  On a host whose local time is UTC
the timestamp `86400` (00:00:00 on 2 January 1970) is normalized to `86399`,
the last second of the day before: the result is less than `t`.  The same
happens at every local midnight, as at `79200` on a host two hours east of
UTC.  Before the epoch the truncating division of `ROUND_UP` moves the result
out of the day of `t`: `-172801` is normalized to `-86401`, which is
`t + 86400`. -/
theorem round_up_end_of_day_localtime_not_own_day :
    round_up_end_of_day_localtime (mktime_gmtime_fixed 0) 86400 = 86399 ∧
    ¬ (86400 ≤ round_up_end_of_day_localtime (mktime_gmtime_fixed 0) 86400) ∧
    round_up_end_of_day_localtime (mktime_gmtime_fixed 7200) 79200 = 79199 ∧
    ¬ (79200 ≤ round_up_end_of_day_localtime (mktime_gmtime_fixed 7200) 79200) ∧
    round_up_end_of_day_localtime (mktime_gmtime_fixed 0) (-172801) = -86401 ∧
    ¬ (round_up_end_of_day_localtime (mktime_gmtime_fixed 0) (-172801) < -172801 + 86400) := by
  refine ⟨by decide, by decide, by decide, by decide, by decide, by decide⟩

/-- C12. Decoded expiry invariant: for every plaintext buffer that
`rsa_license_extract_rivermax` decodes with status 0, the expiry it returns is
0 or an end of local day boundary: with `gmt_offset` the offset the normalizer
computed for the stored time, `expiry + gmt_offset + 1` is a multiple of 86400;
on a host with the fixed offset `off`, `expiry + off + 1` is a multiple of
86400. -/
theorem decoded_expiry_is_end_of_day (buf : List Nat) (data : rsa_license_data) :
    (∀ mktime_gmtime : Int → Int,
      (rsa_license_extract_rivermax mktime_gmtime buf data).1 = 0 →
      (rsa_license_extract_rivermax mktime_gmtime buf data).2.time_limit = 0 ∨
      ((rsa_license_extract_rivermax mktime_gmtime buf data).2.time_limit +
        (time_t_value ((buf.drop 72).take 8) -
          mktime_gmtime (time_t_value ((buf.drop 72).take 8))) + 1) % 86400 = 0) ∧
    (∀ off : Int,
      (rsa_license_extract_rivermax (mktime_gmtime_fixed off) buf data).1 = 0 →
      (rsa_license_extract_rivermax (mktime_gmtime_fixed off) buf data).2.time_limit = 0 ∨
      ((rsa_license_extract_rivermax (mktime_gmtime_fixed off) buf data).2.time_limit +
        off + 1) % 86400 = 0) := by
  refine ⟨fun mk h => rsa_license_extract_rivermax_time_limit mk buf data h, ?_⟩
  intro off h
  rcases rsa_license_extract_rivermax_time_limit (mktime_gmtime_fixed off) buf data h with h0 | h1
  · exact Or.inl h0
  · right
    simp only [mktime_gmtime_fixed] at h1 ⊢
    omega

/-- The decoded expiry invariant at the plaintext of version 1, vendor `A` and
stored time `1800000000`, on a host two hours east of UTC. -/
theorem decoded_expiry_is_end_of_day_witness :
    (rsa_license_extract_rivermax (mktime_gmtime_fixed 7200)
        (u64_bytes 1 ++ [65] ++ List.replicate 63 0 ++ time_t_bytes 1800000000)
        { version := 0, vendor_name := [], time_limit := 0 }).2.time_limit = 0 ∨
    ((rsa_license_extract_rivermax (mktime_gmtime_fixed 7200)
        (u64_bytes 1 ++ [65] ++ List.replicate 63 0 ++ time_t_bytes 1800000000)
        { version := 0, vendor_name := [], time_limit := 0 }).2.time_limit +
      7200 + 1) % 86400 = 0 :=
  (decoded_expiry_is_end_of_day
    (u64_bytes 1 ++ [65] ++ List.replicate 63 0 ++ time_t_bytes 1800000000)
    { version := 0, vendor_name := [], time_limit := 0 }).2 7200 (by decide)

/-- C13, the code at the failing inputs, on a host whose local time is UTC.
The conversion of `4294967295` (7 February 2106) succeeds with the value
`4294967295`, which the test `(int)gmt_ts == -1` takes for the failure value:
the normalizer returns the error value.  The conversion of `-2` succeeds and
the normalizer returns `-1`, the end of that day, which is its error value.
The timestamp `2899102924790` is normalized to `2899102924799`, which is not
the error value, and `rsa_decrypt_time_limit` rejects it. -/
theorem round_up_end_of_day_localtime_false_overflow :
    mktime_gmtime_fixed 0 4294967295 = 4294967295 ∧
    round_up_end_of_day_localtime (mktime_gmtime_fixed 0) 4294967295 = -1 ∧
    mktime_gmtime_fixed 0 (-2) = -2 ∧
    round_up_end_of_day_localtime (mktime_gmtime_fixed 0) (-2) = -1 ∧
    mktime_gmtime_fixed 0 2899102924790 = 2899102924790 ∧
    round_up_end_of_day_localtime (mktime_gmtime_fixed 0) 2899102924790 = 2899102924799 ∧
    rsa_decrypt_time_limit (mktime_gmtime_fixed 0) (time_t_bytes 2899102924790) = none := by
  refine ⟨by decide, by decide, by decide, by decide, by decide, by decide, by decide⟩

/-- C15, the code at the failing input `--create=x --time-limit=69 --unit=year`,
for every current time `now`.  The command line is accepted with action Create,
multiple 69 and the unit of 31536000 seconds; the product 2175984000 does not
fit an `int` and wraps to -2118983296, so `time_limit` is
`now + 86400 - 2118983296` and not `now + 86400 + 69 * 31536000`.  The command
line `--create=x --vendor=Acme --time-limit=1 --unit=day` gives
`now + 172800`. -/
theorem time_limit_product_overflows (now : Int) :
    (parse_args now [] [Opt.c [120], Opt.t [54, 57], Opt.u [121, 101, 97, 114]]).1 = 0 ∧
    (parse_args now [] [Opt.c [120], Opt.t [54, 57], Opt.u [121, 101, 97, 114]]).2.action =
      OPT_FLAG RSA_OPT_LIC_CREATE ∧
    (parse_args now [] [Opt.c [120], Opt.t [54, 57],
      Opt.u [121, 101, 97, 114]]).2.time_limit_multiple = 69 ∧
    (parse_args now [] [Opt.c [120], Opt.t [54, 57],
      Opt.u [121, 101, 97, 114]]).2.time_limit_unit = 31536000 ∧
    (parse_args now [] [Opt.c [120], Opt.t [54, 57], Opt.u [121, 101, 97, 114]]).2.time_limit =
      now + 86400 - 2118983296 ∧
    (parse_args now [] [Opt.c [120], Opt.t [54, 57], Opt.u [121, 101, 97, 114]]).2.time_limit ≠
      now + 86400 + 69 * 31536000 ∧
    (parse_args now [] [Opt.c [120], Opt.v [65, 99, 109, 101], Opt.t [49],
      Opt.u [100, 97, 121]]).2.time_limit = now + 172800 := by
  have h1 : (parse_args now [] [Opt.c [120], Opt.t [54, 57],
      Opt.u [121, 101, 97, 114]]).2.time_limit = now + 86400 + (-2118983296) := rfl
  have h2 : (parse_args now [] [Opt.c [120], Opt.v [65, 99, 109, 101], Opt.t [49],
      Opt.u [100, 97, 121]]).2.time_limit = now + 86400 + 86400 := rfl
  refine ⟨rfl, rfl, rfl, rfl, ?_, ?_, ?_⟩
  · rw [h1]; omega
  · rw [h1]; omega
  · rw [h2]; omega

/-- C16. Duplicate options: for every option sequence in which some option
(help, create, info, test, key, vendor, unit or time-limit) occurs twice,
`parse_args` returns `-1`; and when the loop reaches the second occurrence
without having returned before, `parse_args` returns there with
`RSA_ERR_ARGREP` (DuplicateOption) as the one message added, whatever
follows; what was printed before is no error, only the usage summaries of
unrecognised options. -/
theorem duplicate_option_fails (now : Int) (key : List Nat) :
    (∀ (a b c : List Opt) (o1 o2 : Opt) (k : Nat), o1.opt = some k → o2.opt = some k →
      (parse_args now key (a ++ o1 :: b ++ o2 :: c)).1 = -1) ∧
    (∀ (pre post : List Opt) (o : Opt) (k : Nat) (s : parse_args_state),
      parse_args_loop pre (parse_args_init key) = Except.ok s →
      o.opt = some k → (∃ o1 ∈ pre, o1.opt = some k) →
      parse_args now key (pre ++ o :: post) =
        (-1, { s with out := s.out ++ [Msg.RSA_ERR_ARGREP] }) ∧
      ∀ m ∈ s.out, m = Msg.usage) := by
  constructor
  · intro a b c o1 o2 k h1 h2
    obtain ⟨e, he⟩ := parse_args_loop_repeated (a ++ o1 :: b) c o2 k (parse_args_init key) h2
      ⟨o1, by simp, h1⟩
    rw [parse_args_of_loop_error now key _ e he]
  · intro pre post o k s hl ho hpre
    refine ⟨?_, parse_args_loop_ok_out pre _ s (by simp [parse_args_init]) hl⟩
    apply parse_args_of_loop_error
    rw [parse_args_loop_append, hl]
    have hb : s.flags.testBit k = true :=
      (parse_args_loop_ok_flags pre _ s hl k).mpr (Or.inr hpre)
    simp only [parse_args_loop, parse_args_case_of_testBit s o k ho hb]

/-- The options `--create=x --create=z`: the second one is reported as a
duplicate. -/
theorem duplicate_option_fails_witness :
    (parse_args 1800000000 [] ([] ++ Opt.c [120] :: [] ++ Opt.c [122] :: [])).1 = -1 ∧
    parse_args 1800000000 [] ([Opt.c [120]] ++ Opt.c [122] :: []) =
      (-1, { flags := 2, action := 2, key := [], license := [120, 46, 108, 105, 99],
             vendor_name := [], time_limit := 0, time_limit_unit := 2592000,
             time_limit_multiple := 0, out := [] ++ [Msg.RSA_ERR_ARGREP] }) ∧
      ∀ m ∈ ([] : List Msg), m = Msg.usage :=
  ⟨(duplicate_option_fails 1800000000 []).1 [] [] [] (Opt.c [120]) (Opt.c [122]) 1 rfl rfl,
   (duplicate_option_fails 1800000000 []).2 [Opt.c [120]] [] (Opt.c [122]) 1
     { flags := 2, action := 2, key := [], license := [120, 46, 108, 105, 99],
       vendor_name := [], time_limit := 0, time_limit_unit := 2592000,
       time_limit_multiple := 0, out := [] }
     rfl rfl ⟨Opt.c [120], by decide, rfl⟩⟩

/-- C17. Mutually exclusive actions: for every option sequence that contains
two different action options among help, create, info and test, `parse_args`
returns `-1`; and when the loop reaches the second action without having
returned before, `parse_args` returns there with `RSA_ERR_ARGCONFLICT`
(ConflictingOptions) as the one message added, whatever follows; what was
printed before is no error, only the usage summaries of unrecognised
options. -/
theorem second_action_fails (now : Int) (key : List Nat) :
    (∀ (a b c : List Opt) (o1 o2 : Opt) (k1 k2 : Nat), o1.opt = some k1 → o2.opt = some k2 →
      k1 < 4 → k2 < 4 → k1 ≠ k2 →
      (parse_args now key (a ++ o1 :: b ++ o2 :: c)).1 = -1) ∧
    (∀ (pre post : List Opt) (o2 : Opt) (k1 k2 : Nat) (s : parse_args_state),
      parse_args_loop pre (parse_args_init key) = Except.ok s →
      (∃ o1 ∈ pre, o1.opt = some k1) → k1 < 4 → o2.opt = some k2 → k2 < 4 → k1 ≠ k2 →
      parse_args now key (pre ++ o2 :: post) =
        (-1, { s with flags := s.flags ||| OPT_FLAG k2,
                      out := s.out ++ [Msg.RSA_ERR_ARGCONFLICT] }) ∧
      ∀ m ∈ s.out, m = Msg.usage) := by
  constructor
  · intro a b c o1 o2 k1 k2 ho1 ho2 h1 h2 hne
    cases hl : parse_args_loop (a ++ o1 :: b) (parse_args_init key) with
    | error e =>
      rw [parse_args_of_loop_error now key _ e (parse_args_loop_error_append _ _ _ e hl)]
    | ok s =>
      have hc := parse_args_case_after_action key (a ++ o1 :: b) o2 k1 k2 s hl
        ⟨o1, by simp, ho1⟩ h1 ho2 h2 hne
      have : parse_args_loop ((a ++ o1 :: b) ++ o2 :: c) (parse_args_init key) =
          Except.error { s with flags := s.flags ||| OPT_FLAG k2,
                                out := s.out ++ [Msg.RSA_ERR_ARGCONFLICT] } := by
        rw [parse_args_loop_append, hl]
        simp only [parse_args_loop, hc]
      rw [parse_args_of_loop_error now key _ _ this]
  · intro pre post o2 k1 k2 s hl hpre h1 ho2 h2 hne
    refine ⟨?_, parse_args_loop_ok_out pre _ s (by simp [parse_args_init]) hl⟩
    apply parse_args_of_loop_error
    rw [parse_args_loop_append, hl]
    simp only [parse_args_loop,
      parse_args_case_after_action key pre o2 k1 k2 s hl hpre h1 ho2 h2 hne]

/-- The options `--create=x --info=y`: the second action is reported as a
conflict. -/
theorem second_action_fails_witness :
    (parse_args 1800000000 [] ([] ++ Opt.c [120] :: [] ++ Opt.i [121] :: [])).1 = -1 ∧
    parse_args 1800000000 [] ([Opt.c [120]] ++ Opt.i [121] :: []) =
      (-1, { flags := 2 ||| OPT_FLAG 2, action := 2, key := [],
             license := [120, 46, 108, 105, 99],
             vendor_name := [], time_limit := 0, time_limit_unit := 2592000,
             time_limit_multiple := 0, out := [] ++ [Msg.RSA_ERR_ARGCONFLICT] }) ∧
      ∀ m ∈ ([] : List Msg), m = Msg.usage :=
  ⟨(second_action_fails 1800000000 []).1 [] [] [] (Opt.c [120]) (Opt.i [121]) 1 2 rfl rfl
     (by decide) (by decide) (by decide),
   (second_action_fails 1800000000 []).2 [Opt.c [120]] [] (Opt.i [121]) 1 2
     { flags := 2, action := 2, key := [], license := [120, 46, 108, 105, 99],
       vendor_name := [], time_limit := 0, time_limit_unit := 2592000,
       time_limit_multiple := 0, out := [] }
     rfl ⟨Opt.c [120], by decide, rfl⟩ (by decide) rfl (by decide) (by decide)⟩

/-- C18, counterexample: on `--help --time-limit=abc`, help together with a
recognised data option, `parse_args` returns `-1` with `RSA_ERR_ARGNAN`
(NotANumber) as its only message; it reports no `RSA_ERR_ARGCONFLICT`. -/
theorem help_with_bad_time_limit_not_conflict :
    (parse_args 1800000000 [] [Opt.h, Opt.t [97, 98, 99]]).1 = -1 ∧
    (parse_args 1800000000 [] [Opt.h, Opt.t [97, 98, 99]]).2.out =
      [Msg.RSA_ERR_ARGNAN [97, 98, 99]] ∧
    Msg.RSA_ERR_ARGCONFLICT ∉ (parse_args 1800000000 [] [Opt.h, Opt.t [97, 98, 99]]).2.out := by
  refine ⟨by decide, by decide, by decide⟩

/-- C18, amended.  For every option sequence that contains the help option
together with another recognised option, before or after it, `parse_args`
returns `-1`; when no option occurs twice, every unit argument is a valid unit
and every time-limit argument is numeric, it reports `RSA_ERR_ARGCONFLICT`
(ConflictingOptions) and no other error.  Help alone returns 0 with action
Help and prints nothing. -/
theorem help_is_exclusive (now : Int) (key : List Nat) :
    (∀ opts : List Opt, Opt.h ∈ opts →
      (∃ o ∈ opts, ∃ k, o.opt = some k ∧ k ≠ RSA_OPT_LIC_HELP) →
      (parse_args now key opts).1 = -1 ∧
      ((∀ o ∈ opts, o.optarg_ok = true) → (opts.filterMap Opt.opt).Nodup →
        Msg.RSA_ERR_ARGCONFLICT ∈ (parse_args now key opts).2.out ∧
        ∀ m ∈ (parse_args now key opts).2.out,
          m = Msg.RSA_ERR_ARGCONFLICT ∨ m = Msg.usage)) ∧
    ((parse_args now key [Opt.h]).1 = 0 ∧
      (parse_args now key [Opt.h]).2.action = OPT_FLAG RSA_OPT_LIC_HELP ∧
      (parse_args now key [Opt.h]).2.out = []) := by
  constructor
  · intro opts hh ho
    exact parse_args_conflict now key opts
      (fun s hl => parse_args_finish_help now key opts s hh ho hl)
  · simp +decide [parse_args, parse_args_loop, parse_args_case, OPT_ADD_ACTION, OPT_ADD,
      parse_args_init, parse_args_finish, OPT_FLAG, RSA_OPT_LIC_HELP, unsigned_int_not,
      OPT_FLAG_LIC_DATA, RSA_OPT_LIC_CREATE, RSA_OPT_LIC_VENDOR, RSA_OPT_LIC_TIME_LIMIT,
      RSA_OPT_LIC_TIME_UNIT, RSA_OPT_LIC_INFO, RSA_OPT_LIC_KEY, RSA_OPT_LIC_TEST]

/-- The options `--vendor=Acme --help`: help after a data option is reported
as a conflict. -/
theorem help_is_exclusive_witness :
    (parse_args 1800000000 [] [Opt.v [65, 99, 109, 101], Opt.h]).1 = -1 ∧
    ((∀ o ∈ [Opt.v [65, 99, 109, 101], Opt.h], o.optarg_ok = true) →
      ([Opt.v [65, 99, 109, 101], Opt.h].filterMap Opt.opt).Nodup →
      Msg.RSA_ERR_ARGCONFLICT ∈
        (parse_args 1800000000 [] [Opt.v [65, 99, 109, 101], Opt.h]).2.out ∧
      ∀ m ∈ (parse_args 1800000000 [] [Opt.v [65, 99, 109, 101], Opt.h]).2.out,
        m = Msg.RSA_ERR_ARGCONFLICT ∨ m = Msg.usage) :=
  (help_is_exclusive 1800000000 []).1 [Opt.v [65, 99, 109, 101], Opt.h] (by decide)
    ⟨Opt.v [65, 99, 109, 101], by decide, 4, rfl, by decide⟩

/-- C19, counterexample: on `--info=lic --key=pub`, action Inspect with the
data option key, `parse_args` returns 0 with action Inspect and the key path,
and prints nothing; so it does on `--test --key=pub` with action SelfTest. -/
theorem key_with_inspect_accepted :
    (parse_args 1800000000 [] [Opt.i [108, 105, 99], Opt.k [112, 117, 98]]).1 = 0 ∧
    (parse_args 1800000000 [] [Opt.i [108, 105, 99], Opt.k [112, 117, 98]]).2.action =
      OPT_FLAG RSA_OPT_LIC_INFO ∧
    (parse_args 1800000000 [] [Opt.i [108, 105, 99], Opt.k [112, 117, 98]]).2.key =
      [112, 117, 98] ∧
    (parse_args 1800000000 [] [Opt.i [108, 105, 99], Opt.k [112, 117, 98]]).2.out = [] ∧
    (parse_args 1800000000 [] [Opt.x, Opt.k [112, 117, 98]]).1 = 0 ∧
    (parse_args 1800000000 [] [Opt.x, Opt.k [112, 117, 98]]).2.action =
      OPT_FLAG RSA_OPT_LIC_TEST := by
  refine ⟨by decide, by decide, by decide, by decide, by decide, by decide⟩

/-- C19, amended.  For every option sequence that contains the action Inspect,
SelfTest or Help and a data option among vendor, time-unit and time-limit,
`parse_args` returns `-1`; when no option occurs twice, every unit argument is
a valid unit and every time-limit argument is numeric, it reports
`RSA_ERR_ARGCONFLICT` (ConflictingOptions) and no other error.  The key option
is not among the flags of `OPT_FLAG_LIC_DATA`: with Inspect, and with SelfTest,
it is accepted. -/
theorem data_flags_require_create (now : Int) (key : List Nat) :
    (∀ opts : List Opt,
      (∃ o ∈ opts, ∃ a, o.opt = some a ∧
        (a = RSA_OPT_LIC_HELP ∨ a = RSA_OPT_LIC_INFO ∨ a = RSA_OPT_LIC_TEST)) →
      (∃ o ∈ opts, ∃ d, o.opt = some d ∧
        (d = RSA_OPT_LIC_VENDOR ∨ d = RSA_OPT_LIC_TIME_UNIT ∨ d = RSA_OPT_LIC_TIME_LIMIT)) →
      (parse_args now key opts).1 = -1 ∧
      ((∀ o ∈ opts, o.optarg_ok = true) → (opts.filterMap Opt.opt).Nodup →
        Msg.RSA_ERR_ARGCONFLICT ∈ (parse_args now key opts).2.out ∧
        ∀ m ∈ (parse_args now key opts).2.out,
          m = Msg.RSA_ERR_ARGCONFLICT ∨ m = Msg.usage)) ∧
    (∀ license path : List Nat,
      (parse_args now key [Opt.i license, Opt.k path]).1 = 0 ∧
      (parse_args now key [Opt.i license, Opt.k path]).2.action = OPT_FLAG RSA_OPT_LIC_INFO ∧
      (parse_args now key [Opt.i license, Opt.k path]).2.key =
        snprintf_s FILE_NAME_MAX_LENGTH path) ∧
    (∀ path : List Nat,
      (parse_args now key [Opt.x, Opt.k path]).1 = 0 ∧
      (parse_args now key [Opt.x, Opt.k path]).2.action = OPT_FLAG RSA_OPT_LIC_TEST) := by
  refine ⟨?_, ?_, ?_⟩
  · intro opts hact hdata
    exact parse_args_conflict now key opts
      (fun s hl => parse_args_finish_data now key opts s hact hdata hl)
  · intro license path
    simp +decide [parse_args, parse_args_loop, parse_args_case, OPT_ADD_ACTION, OPT_ADD,
      parse_args_init, parse_args_finish, OPT_FLAG, RSA_OPT_LIC_HELP, unsigned_int_not,
      OPT_FLAG_LIC_DATA, RSA_OPT_LIC_CREATE, RSA_OPT_LIC_VENDOR, RSA_OPT_LIC_TIME_LIMIT,
      RSA_OPT_LIC_TIME_UNIT, RSA_OPT_LIC_INFO, RSA_OPT_LIC_KEY, RSA_OPT_LIC_TEST]
  · intro path
    simp +decide [parse_args, parse_args_loop, parse_args_case, OPT_ADD_ACTION, OPT_ADD,
      parse_args_init, parse_args_finish, OPT_FLAG, RSA_OPT_LIC_HELP, unsigned_int_not,
      OPT_FLAG_LIC_DATA, RSA_OPT_LIC_CREATE, RSA_OPT_LIC_VENDOR, RSA_OPT_LIC_TIME_LIMIT,
      RSA_OPT_LIC_TIME_UNIT, RSA_OPT_LIC_INFO, RSA_OPT_LIC_KEY, RSA_OPT_LIC_TEST]

/-- The options `--time-limit=5 --info=y`: a time limit with action Inspect is
reported as a conflict. -/
theorem data_flags_require_create_witness :
    (parse_args 1800000000 [] [Opt.t [53], Opt.i [121]]).1 = -1 ∧
    ((∀ o ∈ [Opt.t [53], Opt.i [121]], o.optarg_ok = true) →
      ([Opt.t [53], Opt.i [121]].filterMap Opt.opt).Nodup →
      Msg.RSA_ERR_ARGCONFLICT ∈ (parse_args 1800000000 [] [Opt.t [53], Opt.i [121]]).2.out ∧
      ∀ m ∈ (parse_args 1800000000 [] [Opt.t [53], Opt.i [121]]).2.out,
        m = Msg.RSA_ERR_ARGCONFLICT ∨ m = Msg.usage) :=
  (data_flags_require_create 1800000000 []).1 [Opt.t [53], Opt.i [121]]
    ⟨Opt.i [121], by decide, 2, rfl, by decide⟩
    ⟨Opt.t [53], by decide, 6, rfl, by decide⟩

/-- C20, counterexample: on `--time-limit=abc --info=y`, a non-numeric time
limit with action Inspect, `parse_args` reports `RSA_ERR_ARGNAN` (NotANumber)
and no `RSA_ERR_ARGCONFLICT`; on the lone data option `--vendor=abc` it prints
the usage summary and reports no `RSA_ERR_ARGCONFLICT`. -/
theorem precedence_not_as_listed :
    (parse_args 1800000000 [] [Opt.t [97, 98, 99], Opt.i [121]]).1 = -1 ∧
    (parse_args 1800000000 [] [Opt.t [97, 98, 99], Opt.i [121]]).2.out =
      [Msg.RSA_ERR_ARGNAN [97, 98, 99]] ∧
    Msg.RSA_ERR_ARGCONFLICT ∉
      (parse_args 1800000000 [] [Opt.t [97, 98, 99], Opt.i [121]]).2.out ∧
    (parse_args 1800000000 [] [Opt.v [97, 98, 99]]).1 = -1 ∧
    (parse_args 1800000000 [] [Opt.v [97, 98, 99]]).2.out = [Msg.usage] ∧
    Msg.RSA_ERR_ARGCONFLICT ∉ (parse_args 1800000000 [] [Opt.v [97, 98, 99]]).2.out := by
  refine ⟨by decide, by decide, by decide, by decide, by decide, by decide⟩

/-- C20, amended.  `parse_args` reports the first violation that the loop
over the options meets, whatever follows in the sequence: when the loop over a
sequence returns, so it does, in the same state, over every extension of the
sequence.  In one round a repeated option is reported as
`RSA_ERR_ARGREP` before its action or its argument is looked at.  Only when
the loop ends without returning are the remaining rules tested, and the first
of them is the missing action: without an action option `parse_args` prints the
usage summary and reports no conflict, whatever data options stand.  After
that come help with another option, and vendor, unit or time limit without
Create, both reported as `RSA_ERR_ARGCONFLICT`. -/
theorem rule_precedence (now : Int) (key : List Nat) :
    (∀ (pre post : List Opt) (e : parse_args_state),
      parse_args_loop pre (parse_args_init key) = Except.error e →
      parse_args now key (pre ++ post) = (-1, e)) ∧
    (∀ (pre post : List Opt) (o : Opt) (k : Nat) (s : parse_args_state),
      parse_args_loop pre (parse_args_init key) = Except.ok s →
      o.opt = some k → (∃ o1 ∈ pre, o1.opt = some k) →
      parse_args now key (pre ++ o :: post) =
        (-1, { s with out := s.out ++ [Msg.RSA_ERR_ARGREP] })) ∧
    (∀ (opts : List Opt) (s : parse_args_state),
      parse_args_loop opts (parse_args_init key) = Except.ok s →
      (∀ o ∈ opts, ∀ k, o.opt = some k → 4 ≤ k) →
      parse_args now key opts = (-1, { s with out := s.out ++ [Msg.usage] })) ∧
    (∀ (opts : List Opt) (s : parse_args_state),
      parse_args_loop opts (parse_args_init key) = Except.ok s →
      (Opt.h ∈ opts ∧ (∃ o ∈ opts, ∃ k, o.opt = some k ∧ k ≠ RSA_OPT_LIC_HELP) ∨
        (∃ o ∈ opts, ∃ a, o.opt = some a ∧
          (a = RSA_OPT_LIC_HELP ∨ a = RSA_OPT_LIC_INFO ∨ a = RSA_OPT_LIC_TEST)) ∧
        (∃ o ∈ opts, ∃ d, o.opt = some d ∧
          (d = RSA_OPT_LIC_VENDOR ∨ d = RSA_OPT_LIC_TIME_UNIT ∨
            d = RSA_OPT_LIC_TIME_LIMIT))) →
      parse_args now key opts =
        (-1, { s with out := s.out ++ [Msg.RSA_ERR_ARGCONFLICT, Msg.usage] })) := by
  refine ⟨?_, ?_, ?_, ?_⟩
  · intro pre post e h
    exact parse_args_of_loop_error now key _ e (parse_args_loop_error_append pre post _ e h)
  · intro pre post o k s hl ho hpre
    apply parse_args_of_loop_error
    rw [parse_args_loop_append, hl]
    have hb : s.flags.testBit k = true :=
      (parse_args_loop_ok_flags pre _ s hl k).mpr (Or.inr hpre)
    simp only [parse_args_loop, parse_args_case_of_testBit s o k ho hb]
  · intro opts s hl hno
    rw [parse_args_of_loop_ok now key opts s hl]
    have ha : s.action = 0 := parse_args_loop_ok_no_action opts _ s hno hl
    rw [parse_args_finish, if_pos ha]
  · intro opts s hl h
    rw [parse_args_of_loop_ok now key opts s hl]
    rcases h with ⟨hh, ho⟩ | ⟨hact, hdata⟩
    · exact parse_args_finish_help now key opts s hh ho hl
    · exact parse_args_finish_data now key opts s hact hdata hl

/-- The four rules of precedence at `--time-limit=abc` followed by
`--info=y`, at `--vendor=a --vendor=b`, at the lone `--vendor=abc`, and at
`--time-limit=5 --info=y`. -/
theorem rule_precedence_witness :
    parse_args 1800000000 [] ([Opt.t [97, 98, 99]] ++ [Opt.i [121]]) =
      (-1, { flags := 64, action := 0, key := [], license := [], vendor_name := [],
             time_limit := 0, time_limit_unit := 2592000, time_limit_multiple := 0,
             out := [Msg.RSA_ERR_ARGNAN [97, 98, 99]] }) ∧
    parse_args 1800000000 [] ([Opt.v [97]] ++ Opt.v [98] :: []) =
      (-1, { flags := 16, action := 0, key := [], license := [], vendor_name := [97],
             time_limit := 0, time_limit_unit := 2592000, time_limit_multiple := 0,
             out := [] ++ [Msg.RSA_ERR_ARGREP] }) ∧
    parse_args 1800000000 [] [Opt.v [97, 98, 99]] =
      (-1, { flags := 16, action := 0, key := [], license := [], vendor_name := [97, 98, 99],
             time_limit := 0, time_limit_unit := 2592000, time_limit_multiple := 0,
             out := [] ++ [Msg.usage] }) ∧
    parse_args 1800000000 [] [Opt.t [53], Opt.i [121]] =
      (-1, { flags := 68, action := 4, key := [], license := [121], vendor_name := [],
             time_limit := 0, time_limit_unit := 2592000, time_limit_multiple := 5,
             out := [] ++ [Msg.RSA_ERR_ARGCONFLICT, Msg.usage] }) :=
  ⟨(rule_precedence 1800000000 []).1 [Opt.t [97, 98, 99]] [Opt.i [121]] _ rfl,
   (rule_precedence 1800000000 []).2.1 [Opt.v [97]] [] (Opt.v [98]) 4
     { flags := 16, action := 0, key := [], license := [], vendor_name := [97],
       time_limit := 0, time_limit_unit := 2592000, time_limit_multiple := 0, out := [] }
     rfl rfl ⟨Opt.v [97], by decide, rfl⟩,
   (rule_precedence 1800000000 []).2.2.1 [Opt.v [97, 98, 99]]
     { flags := 16, action := 0, key := [], license := [], vendor_name := [97, 98, 99],
       time_limit := 0, time_limit_unit := 2592000, time_limit_multiple := 0, out := [] }
     rfl (by decide),
   (rule_precedence 1800000000 []).2.2.2 [Opt.t [53], Opt.i [121]]
     { flags := 68, action := 4, key := [], license := [121], vendor_name := [],
       time_limit := 0, time_limit_unit := 2592000, time_limit_multiple := 5, out := [] }
     rfl (Or.inr ⟨⟨Opt.i [121], by decide, 2, rfl, by decide⟩,
       ⟨Opt.t [53], by decide, 6, rfl, by decide⟩⟩)⟩


/-! ## String prefixes -/

/-- The call `strncmp(s1, s2, strlen(s1))` returns 0 exactly when the C string
at `s1` is a prefix of the C string at `s2`. -/
theorem strncmp_strlen_eq_zero_iff (s1 s2 : List Nat) :
    strncmp s1 s2 (strlen s1) = 0 ↔ c_string s1 <+: c_string s2 := by
  induction s1 generalizing s2 with
  | nil => simp [strlen, strncmp, c_string]
  | cons a s1 ih =>
    by_cases ha : a = 0
    · subst ha
      simp [strlen, strncmp, c_string]
    · cases s2 with
      | nil =>
        simp only [strlen, ha, if_false, strncmp, List.headD_cons, List.headD_nil, ne_eq,
          not_false_eq_true, if_true, c_string, List.prefix_nil]
        constructor
        · intro h
          exfalso
          apply ha
          simpa using h
        · intro h
          simp at h
      | cons b s2 =>
        by_cases hab : a = b
        · subst hab
          simp only [strlen, ha, if_false, strncmp, List.headD_cons, ne_eq, not_true_eq_false,
            List.tail_cons, c_string]
          rw [ih s2]
          constructor
          · intro h
            exact (List.cons_prefix_cons).mpr ⟨rfl, h⟩
          · intro h
            exact ((List.cons_prefix_cons).mp h).2
        · simp only [strlen, ha, if_false, strncmp, List.headD_cons, ne_eq, hab,
            not_false_eq_true, if_true, c_string]
          constructor
          · intro h
            exfalso
            apply hab
            have : (a : Int) = (b : Int) := by omega
            exact_mod_cast this
          · intro h
            exfalso
            by_cases hb : b = 0
            · simp [hb] at h
            · simp only [hb, if_false] at h
              exact hab ((List.cons_prefix_cons).mp h).1

theorem is_str_prefix_iff (s1 s2 : List Nat) :
    is_str_prefix s1 s2 = true ↔ c_string s1 <+: c_string s2 := by
  rw [ is_str_prefix, decide_eq_true_iff, strncmp_strlen_eq_zero_iff]

theorem is_str_prefix_eq_decide (s1 s2 : List Nat) (h : ∀ b ∈ s2, b ≠ 0) :
    is_str_prefix s1 s2 = decide (c_string s1 <+: s2) := by
  rw [Bool.eq_iff_iff, is_str_prefix_iff, c_string_of_nul_free s2 h, decide_eq_true_iff]

/-! ## The round of the unit option -/

/-- The round of the option `-u` when no `-u` came before: the unit is that of
the first of `day`, `week`, `month`, `year` of which the argument is a prefix,
and without such a unit the round fails with `RSA_ERR_TIMUNIT`. -/
theorem parse_args_case_u (s : parse_args_state) (tok : List Nat)
    (hb : s.flags.testBit RSA_OPT_LIC_TIME_UNIT = false) :
    parse_args_case s (Opt.u tok) =
      if c_string tok <+: TU_VAL_DAY then
        Except.ok { s with flags := s.flags ||| OPT_FLAG RSA_OPT_LIC_TIME_UNIT,
                           time_limit_unit := SECONDS_IN_DAY }
      else if c_string tok <+: TU_VAL_WEEK then
        Except.ok { s with flags := s.flags ||| OPT_FLAG RSA_OPT_LIC_TIME_UNIT,
                           time_limit_unit := SECONDS_IN_WEEK }
      else if c_string tok <+: TU_VAL_MONTH then
        Except.ok { s with flags := s.flags ||| OPT_FLAG RSA_OPT_LIC_TIME_UNIT,
                           time_limit_unit := SECONDS_IN_MONTH }
      else if c_string tok <+: TU_VAL_YEAR then
        Except.ok { s with flags := s.flags ||| OPT_FLAG RSA_OPT_LIC_TIME_UNIT,
                           time_limit_unit := SECONDS_IN_YEAR }
      else
        Except.error { s with flags := s.flags ||| OPT_FLAG RSA_OPT_LIC_TIME_UNIT,
                              out := s.out ++ [Msg.RSA_ERR_TIMUNIT tok] } := by
  simp only [parse_args_case, OPT_ADD_of_not_testBit s _ hb]
  rw [is_str_prefix_eq_decide tok TU_VAL_DAY (by decide),
    is_str_prefix_eq_decide tok TU_VAL_WEEK (by decide),
    is_str_prefix_eq_decide tok TU_VAL_MONTH (by decide),
    is_str_prefix_eq_decide tok TU_VAL_YEAR (by decide)]
  simp only [decide_eq_true_eq]

theorem parse_args_loop_singleton (s : parse_args_state) (o : Opt) :
    parse_args_loop [o] s = parse_args_case s o := by
  simp only [parse_args_loop]
  cases parse_args_case s o <;> rfl

theorem parse_args_loop_cons_of_error (s e : parse_args_state) (o : Opt) (post : List Opt)
    (h : parse_args_case s o = Except.error e) :
    parse_args_loop (o :: post) s = Except.error e := by
  simp only [parse_args_loop, h]

/-! ## The function `strtol` -/

theorem strtol_skip_space_append (ws x : List Nat) (hws : ∀ c ∈ ws, isspace c = true)
    (hx : isspace (x.headD 0) = false) : strtol_skip_space (ws ++ x) = x := by
  induction ws with
  | nil =>
    cases x with
    | nil => rfl
    | cons c x =>
      simp only [List.headD_cons] at hx
      simp [strtol_skip_space, hx]
  | cons c ws ih =>
    have hc : isspace c = true := hws c (by simp)
    simp only [List.cons_append, strtol_skip_space, hc, if_true]
    exact ih (fun d hd => hws d (by simp [hd]))

theorem strtol_skip_space_spec (tok : List Nat) :
    ∃ ws, (∀ c ∈ ws, isspace c = true) ∧ tok = ws ++ strtol_skip_space tok ∧
      isspace ((strtol_skip_space tok).headD 0) = false := by
  induction tok with
  | nil => exact ⟨[], by simp, rfl, by decide⟩
  | cons c tok ih =>
    by_cases hc : isspace c = true
    · obtain ⟨ws, h1, h2, h3⟩ := ih
      refine ⟨c :: ws, ?_, ?_, ?_⟩
      · intro d hd
        rcases List.mem_cons.mp hd with rfl | hd
        · exact hc
        · exact h1 d hd
      · simp only [strtol_skip_space, hc, if_true, List.cons_append]
        rw [← h2]
      · simp only [strtol_skip_space, hc, if_true]
        exact h3
    · refine ⟨[], by simp, ?_, ?_⟩
      · simp [strtol_skip_space, hc]
      · simp only [strtol_skip_space, hc, if_false, List.headD_cons]
        simpa using hc

theorem strtol_digits_append (ds rest : List Nat) (acc : Nat)
    (hds : ∀ c ∈ ds, isdigit c = true) (hrest : isdigit (rest.headD 0) = false) :
    strtol_digits (ds ++ rest) acc =
      (ds.foldl (fun a c => a * 10 + (c - 48)) acc, rest) := by
  induction ds generalizing acc with
  | nil =>
    cases rest with
    | nil => rfl
    | cons c rest =>
      simp only [List.headD_cons] at hrest
      simp [strtol_digits, hrest]
  | cons c ds ih =>
    have hc : isdigit c = true := hds c (by simp)
    simp only [List.cons_append, strtol_digits, hc, if_true, List.foldl_cons]
    exact ih _ (fun d hd => hds d (by simp [hd]))

theorem strtol_digits_spec (d : List Nat) (acc : Nat) :
    ∃ ds, (∀ c ∈ ds, isdigit c = true) ∧ d = ds ++ (strtol_digits d acc).2 ∧
      isdigit ((strtol_digits d acc).2.headD 0) = false := by
  induction d generalizing acc with
  | nil => exact ⟨[], by simp, rfl, by simp [strtol_digits, isdigit]⟩
  | cons c d ih =>
    by_cases hc : isdigit c = true
    · obtain ⟨ds, h1, h2, h3⟩ := ih (acc * 10 + (c - 48))
      refine ⟨c :: ds, ?_, ?_, ?_⟩
      · intro x hx
        rcases List.mem_cons.mp hx with rfl | hx
        · exact hc
        · exact h1 x hx
      · simp only [strtol_digits, hc, if_true, List.cons_append]
        rw [← h2]
      · simp only [strtol_digits, hc, if_true]
        exact h3
    · refine ⟨[], by simp, ?_, ?_⟩
      · simp [strtol_digits, hc]
      · simp only [strtol_digits, hc, if_false, List.headD_cons]
        simpa using hc

theorem isspace_of_isdigit (c : Nat) (h : isdigit c = true) :
    isspace c = false ∧ c ≠ 45 ∧ c ≠ 43 ∧ c ≠ 0 := by
  simp only [isdigit, decide_eq_true_eq] at h
  simp only [isspace, decide_eq_false_iff_not]
  omega

theorem ne_zero_of_isspace (c : Nat) (h : isspace c = true) : c ≠ 0 := by
  simp only [isspace, decide_eq_true_eq] at h
  omega

/-- The function `strtol` on optional white space, an optional sign, one or
more digits and a rest that does not start with a digit: the value is that of
the digits with the sign, brought into the range of `long`, and `endptr` is at
the rest. -/
theorem strtol_of_form (ws sign ds rest : List Nat) (hws : ∀ c ∈ ws, isspace c = true)
    (hsign : sign = [] ∨ sign = [43] ∨ sign = [45]) (hne : ds ≠ [])
    (hds : ∀ c ∈ ds, isdigit c = true) (hrest : isdigit (rest.headD 0) = false) :
    strtol (ws ++ (sign ++ (ds ++ rest))) =
      (max (-2 ^ 63) (min (2 ^ 63 - 1)
        (if sign = [45] then -((ds.foldl (fun a c => a * 10 + (c - 48)) 0 : Nat) : Int)
         else ((ds.foldl (fun a c => a * 10 + (c - 48)) 0 : Nat) : Int))), rest) := by
  obtain ⟨c, ds1, rfl⟩ := List.exists_cons_of_ne_nil hne
  have hc := isspace_of_isdigit c (hds c (by simp))
  have hcd : isdigit c = true := hds c (by simp)
  have hd := strtol_digits_append (c :: ds1) rest 0 hds hrest
  rcases hsign with rfl | rfl | rfl
  · have hs : strtol_skip_space (ws ++ ([] ++ (c :: ds1 ++ rest))) = c :: ds1 ++ rest :=
      strtol_skip_space_append ws _ hws (by simpa using hc.1)
    simp only [strtol, hs]
    simp only [List.cons_append, List.headD_cons, hc.2.1, hc.2.2.1, or_self, if_false, hcd,
      if_true]
    rw [← List.cons_append, hd]
    simp
  · have hs : strtol_skip_space (ws ++ ([43] ++ (c :: ds1 ++ rest))) =
        [43] ++ (c :: ds1 ++ rest) :=
      strtol_skip_space_append ws _ hws (by simp [isspace])
    simp only [strtol, hs]
    simp only [List.cons_append, List.singleton_append, List.nil_append, List.headD_cons,
      List.tail_cons,
      or_true, if_true, hcd]
    rw [← List.cons_append, hd]
    simp
  · have hs : strtol_skip_space (ws ++ ([45] ++ (c :: ds1 ++ rest))) =
        [45] ++ (c :: ds1 ++ rest) :=
      strtol_skip_space_append ws _ hws (by simp [isspace])
    simp only [strtol, hs]
    simp only [List.cons_append, List.singleton_append, List.nil_append, List.headD_cons,
      List.tail_cons,
      true_or, if_true, hcd]
    rw [← List.cons_append, hd]

theorem c_string_append_of_headD (p rest : List Nat) (hp : ∀ b ∈ p, b ≠ 0)
    (hr : rest.headD 0 = 0) : c_string (p ++ rest) = p := by
  cases rest with
  | nil => rw [List.append_nil, c_string_of_nul_free p hp]
  | cons b rest =>
    simp only [List.headD_cons] at hr
    subst hr
    exact c_string_append_nul p rest hp

theorem exists_rest_of_c_string (tok : List Nat) :
    ∃ rest, tok = c_string tok ++ rest ∧ rest.headD 0 = 0 := by
  induction tok with
  | nil => exact ⟨[], rfl, rfl⟩
  | cons b tok ih =>
    by_cases hb : b = 0
    · subst hb
      exact ⟨0 :: tok, by simp [c_string], rfl⟩
    · obtain ⟨rest, h1, h2⟩ := ih
      refine ⟨rest, ?_, h2⟩
      simp only [c_string, hb, if_false, List.cons_append]
      rw [← h1]

theorem strtol_of_headD_eq_zero (tok : List Nat) (h : tok.headD 0 = 0) :
    strtol tok = (0, tok) := by
  cases tok with
  | nil => rfl
  | cons b tok =>
    simp only [List.headD_cons] at h
    subst h
    rfl

theorem strtol_sign_split (s : List Nat) :
    ∃ sign, (sign = [] ∨ sign = [43] ∨ sign = [45]) ∧
      s = sign ++ (if s.headD 0 = 45 ∨ s.headD 0 = 43 then s.tail else s) ∧
      (s.headD 0 = 45 ↔ sign = [45]) := by
  cases s with
  | nil => exact ⟨[], Or.inl rfl, by simp, by simp⟩
  | cons b s =>
    by_cases h45 : b = 45
    · subst h45
      exact ⟨[45], Or.inr (Or.inr rfl), by simp, by simp⟩
    · by_cases h43 : b = 43
      · subst h43
        exact ⟨[43], Or.inr (Or.inl rfl), by simp, by simp⟩
      · exact ⟨[], Or.inl rfl, by simp [h45, h43], by simp [h45]⟩

/-- When `strtol` leaves `endptr` at the terminator: the argument is empty, or
it is optional white space, an optional sign and one or more digits. -/
theorem strtol_endptr_iff (tok : List Nat) :
    (strtol tok).2.headD 0 = 0 ↔
      (tok.headD 0 = 0 ∨
        ∃ ws sign ds, (∀ c ∈ ws, isspace c = true) ∧
          (sign = [] ∨ sign = [43] ∨ sign = [45]) ∧ ds ≠ [] ∧
          (∀ c ∈ ds, isdigit c = true) ∧ c_string tok = ws ++ (sign ++ ds)) := by
  constructor
  · intro h
    obtain ⟨ws, hws, htok, -⟩ := strtol_skip_space_spec tok
    obtain ⟨sign, hsign, hs, -⟩ := strtol_sign_split (strtol_skip_space tok)
    obtain ⟨digits, hdd⟩ : ∃ digits, digits =
        if (strtol_skip_space tok).headD 0 = 45 ∨ (strtol_skip_space tok).headD 0 = 43 then
          (strtol_skip_space tok).tail
        else strtol_skip_space tok := ⟨_, rfl⟩
    have hst : (strtol tok).2 =
        if isdigit (digits.headD 0) = true then (strtol_digits digits 0).2 else tok := by
      rw [hdd]
      simp only [strtol]
      split_ifs <;> rfl
    rw [hst] at h
    rw [← hdd] at hs
    by_cases hdig : isdigit (digits.headD 0) = true
    · right
      rw [if_pos hdig] at h
      obtain ⟨ds, hds, hd, hnd⟩ := strtol_digits_spec digits 0
      have hne : ds ≠ [] := by
        rintro rfl
        rw [List.nil_append] at hd
        rw [← hd, hdig] at hnd
        exact absurd hnd (by decide)
      refine ⟨ws, sign, ds, hws, hsign, hne, hds, ?_⟩
      have e : tok = (ws ++ (sign ++ ds)) ++ (strtol_digits digits 0).2 := by
        rw [List.append_assoc, List.append_assoc, ← hd, ← hs, ← htok]
      have hnul : ∀ b ∈ ws ++ (sign ++ ds), b ≠ 0 := by
        intro b hb
        rcases List.mem_append.mp hb with hb | hb
        · exact ne_zero_of_isspace b (hws b hb)
        · rcases List.mem_append.mp hb with hb | hb
          · rcases hsign with rfl | rfl | rfl
            · simp at hb
            · simp only [List.mem_singleton] at hb
              omega
            · simp only [List.mem_singleton] at hb
              omega
          · exact (isspace_of_isdigit b (hds b hb)).2.2.2
      conv_lhs => rw [e]
      exact c_string_append_of_headD _ _ hnul h
    · left
      rw [if_neg hdig] at h
      exact h
  · rintro (h | ⟨ws, sign, ds, hws, hsign, hne, hds, hc⟩)
    · rw [strtol_of_headD_eq_zero tok h]
      exact h
    · obtain ⟨rest, h1, h2⟩ := exists_rest_of_c_string tok
      rw [hc, List.append_assoc, List.append_assoc] at h1
      rw [h1, strtol_of_form ws sign ds rest hws hsign hne hds (by rw [h2]; rfl)]
      exact h2

/-! ## The round of the time limit option -/

/-- The round of the option `-t` when no `-t` came before: the multiple is the
value of `strtol` as an `int`, and the round fails with `RSA_ERR_ARGNAN` when
`endptr` is not at the terminator. -/
theorem parse_args_case_t (s : parse_args_state) (tok : List Nat)
    (hb : s.flags.testBit RSA_OPT_LIC_TIME_LIMIT = false) :
    parse_args_case s (Opt.t tok) =
      if (strtol tok).2.headD 0 ≠ 0 then
        Except.error { s with flags := s.flags ||| OPT_FLAG RSA_OPT_LIC_TIME_LIMIT,
                              time_limit_multiple := int_cast (strtol tok).1,
                              out := s.out ++ [Msg.RSA_ERR_ARGNAN tok] }
      else
        Except.ok { s with flags := s.flags ||| OPT_FLAG RSA_OPT_LIC_TIME_LIMIT,
                           time_limit_multiple := int_cast (strtol tok).1 } := by
  simp only [parse_args_case, OPT_ADD_of_not_testBit s _ hb]

theorem parse_args_append_cons_of_case_error (now : Int) (key : List Nat)
    (pre post : List Opt) (o : Opt) (s e : parse_args_state)
    (hl : parse_args_loop pre (parse_args_init key) = Except.ok s)
    (hc : parse_args_case s o = Except.error e) :
    parse_args now key (pre ++ o :: post) = (-1, e) := by
  apply parse_args_of_loop_error
  rw [parse_args_loop_append, hl]
  simp only
  exact parse_args_loop_cons_of_error _ _ _ _ hc

theorem parse_args_loop_append_singleton (key : List Nat) (pre : List Opt) (o : Opt)
    (s : parse_args_state) (hl : parse_args_loop pre (parse_args_init key) = Except.ok s) :
    parse_args_loop (pre ++ [o]) (parse_args_init key) = parse_args_case s o := by
  rw [parse_args_loop_append, hl]
  simp only
  rw [parse_args_loop_singleton]

theorem testBit_eq_false_of_not_mem (key : List Nat) (pre : List Opt) (s : parse_args_state)
    (k : Nat) (hl : parse_args_loop pre (parse_args_init key) = Except.ok s)
    (hpre : ∀ o ∈ pre, o.opt ≠ some k) : s.flags.testBit k = false := by
  rw [Bool.eq_false_iff]
  intro h
  obtain ⟨o, ho, hk⟩ := ((parse_args_loop_ok_init key pre s hl).1 _).mp h
  exact hpre o ho hk

theorem int_cast_clamp_of_int_range (v : Int) (hlo : -2 ^ 31 ≤ v) (hhi : v < 2 ^ 31) :
    int_cast (max (-2 ^ 63) (min (2 ^ 63 - 1) v)) = v := by
  have h1 : min (2 ^ 63 - 1) v = v := min_eq_right (by omega)
  have h2 : max (-2 ^ 63) v = v := max_eq_right (by omega)
  rw [h1, h2, int_cast_of_int_range v hlo hhi]

/-! ## Loops that do not return -/

/-- A round on an option that is met for the first time, whose own argument
passes and which is not a second action, does not return. -/
theorem parse_args_case_ok_of (s : parse_args_state) (o : Opt)
    (hok : o.optarg_ok = true) (hb : ∀ k, o.opt = some k → s.flags.testBit k = false)
    (ha : ∀ k, o.opt = some k → k < 4 → s.action = 0) :
    ∃ s1, parse_args_case s o = Except.ok s1 := by
  cases o with
  | unrecognised => exact ⟨_, rfl⟩
  | h =>
    have hb0 := hb _ rfl
    have ha0 := ha _ rfl (by decide)
    simp only [parse_args_case, OPT_ADD_ACTION_of_action_eq_zero _ _ hb0 ha0]
    exact ⟨_, rfl⟩
  | x =>
    have hb0 := hb _ rfl
    have ha0 := ha _ rfl (by decide)
    simp only [parse_args_case, OPT_ADD_ACTION_of_action_eq_zero _ _ hb0 ha0]
    exact ⟨_, rfl⟩
  | c optarg =>
    have hb0 := hb _ rfl
    have ha0 := ha _ rfl (by decide)
    simp only [parse_args_case, OPT_ADD_ACTION_of_action_eq_zero _ _ hb0 ha0]
    exact ⟨_, rfl⟩
  | i optarg =>
    have hb0 := hb _ rfl
    have ha0 := ha _ rfl (by decide)
    simp only [parse_args_case, OPT_ADD_ACTION_of_action_eq_zero _ _ hb0 ha0]
    exact ⟨_, rfl⟩
  | k optarg =>
    have hb0 := hb _ rfl
    simp only [parse_args_case, OPT_ADD_of_not_testBit _ _ hb0]
    exact ⟨_, rfl⟩
  | v optarg =>
    have hb0 := hb _ rfl
    simp only [parse_args_case, OPT_ADD_of_not_testBit _ _ hb0]
    exact ⟨_, rfl⟩
  | u optarg =>
    cases hc : parse_args_case s (Opt.u optarg) with
    | ok s1 => exact ⟨s1, rfl⟩
    | error e =>
      have := parse_args_case_error_of_optarg_ok s e _ hok hb hc
      have hb0 := hb _ rfl
      simp only [parse_args_case, OPT_ADD_of_not_testBit _ _ hb0] at hc
      split_ifs at hc
      simp only [Except.error.injEq] at hc
      subst hc
      simp at this
  | t optarg =>
    have hb0 := hb _ rfl
    simp only [Opt.optarg_ok, decide_eq_true_eq] at hok
    rw [parse_args_case_t s optarg hb0, if_neg (not_not.mpr hok)]
    exact ⟨_, rfl⟩

/-- A loop over options that are all different, whose own arguments pass and
of which at most one is an action, does not return. -/
theorem parse_args_loop_ok_of (opts : List Opt) (s : parse_args_state)
    (hok : ∀ o ∈ opts, o.optarg_ok = true) (hnd : (opts.filterMap Opt.opt).Nodup)
    (hb : ∀ o ∈ opts, ∀ k, o.opt = some k → s.flags.testBit k = false)
    (hact : s.action = 0 ∨ ∀ o ∈ opts, ∀ k, o.opt = some k → 4 ≤ k)
    (hone : ∀ o1 ∈ opts, ∀ o2 ∈ opts, ∀ k1 k2, o1.opt = some k1 → o2.opt = some k2 →
      k1 < 4 → k2 < 4 → k1 = k2) :
    ∃ s1, parse_args_loop opts s = Except.ok s1 := by
  induction opts generalizing s with
  | nil => exact ⟨s, rfl⟩
  | cons o opts ih =>
    have ha : ∀ k, o.opt = some k → k < 4 → s.action = 0 := by
      intro k hk h4
      rcases hact with h0 | hno
      · exact h0
      · have := hno o (List.mem_cons_self _ _) k hk
        omega
    obtain ⟨s2, hc⟩ := parse_args_case_ok_of s o (hok o (List.mem_cons_self _ _))
      (hb o (List.mem_cons_self _ _)) ha
    have hstep := parse_args_case_ok s s2 o hc
    have hnd2 : (opts.filterMap Opt.opt).Nodup := by
      cases ho : o.opt with
      | none => rw [List.filterMap_cons_none ho] at hnd; exact hnd
      | some k => rw [List.filterMap_cons_some ho] at hnd; exact (List.nodup_cons.mp hnd).2
    have hb2 : ∀ o1 ∈ opts, ∀ k, o1.opt = some k → s2.flags.testBit k = false := by
      intro o1 ho1 k1 hk1
      have hold := hb o1 (List.mem_cons_of_mem _ ho1) k1 hk1
      cases ho : o.opt with
      | none =>
        rw [(hstep.2 ho).1]
        exact hold
      | some k =>
        rw [(hstep.1 k ho).2.1, testBit_or_OPT_FLAG, hold]
        rw [List.filterMap_cons_some ho] at hnd
        have hnotin := (List.nodup_cons.mp hnd).1
        have hin : k1 ∈ opts.filterMap Opt.opt := List.mem_filterMap.mpr ⟨o1, ho1, hk1⟩
        have hne : k ≠ k1 := fun heq => hnotin (heq ▸ hin)
        simp [hne]
    have hact2 : s2.action = 0 ∨ ∀ o1 ∈ opts, ∀ k, o1.opt = some k → 4 ≤ k := by
      cases ho : o.opt with
      | none =>
        rcases hact with h0 | hno
        · left
          rw [(hstep.2 ho).2]
          exact h0
        · right
          exact fun o1 ho1 => hno o1 (List.mem_cons_of_mem _ ho1)
      | some k =>
        by_cases h4 : k < 4
        · right
          intro o1 ho1 k1 hk1
          by_contra hlt
          have heq := hone o (List.mem_cons_self _ _) o1 (List.mem_cons_of_mem _ ho1) k k1 ho
            hk1 h4 (by omega)
          rw [List.filterMap_cons_some ho] at hnd
          have hnotin := (List.nodup_cons.mp hnd).1
          have hin : k1 ∈ opts.filterMap Opt.opt := List.mem_filterMap.mpr ⟨o1, ho1, hk1⟩
          exact hnotin (heq ▸ hin)
        · rcases hact with h0 | hno
          · left
            rw [((hstep.1 k ho).2.2.2 (by omega))]
            exact h0
          · right
            exact fun o1 ho1 => hno o1 (List.mem_cons_of_mem _ ho1)
    obtain ⟨s1, h1⟩ := ih s2 (fun o1 ho1 => hok o1 (List.mem_cons_of_mem _ ho1)) hnd2 hb2 hact2
      (fun o1 ho1 o2 ho2 => hone o1 (List.mem_cons_of_mem _ ho1) o2 (List.mem_cons_of_mem _ ho2))
    exact ⟨s1, by simp only [parse_args_loop, hc]; exact h1⟩

/-! ## The vendor name and the multiple in the option loop -/

/-- A round that does not return writes the vendor name only for the option
`-v`, where it is what `snprintf` copies from the argument, and the multiple
only for the option `-t`. -/
theorem parse_args_case_ok_data (s s1 : parse_args_state) (o : Opt)
    (h : parse_args_case s o = Except.ok s1) :
    (o.opt ≠ some RSA_OPT_LIC_VENDOR → s1.vendor_name = s.vendor_name) ∧
    (∀ a, o = Opt.v a → s1.vendor_name = snprintf_s VENDOR_NAME_MAX_LENGTH a) ∧
    (o.opt ≠ some RSA_OPT_LIC_TIME_LIMIT → s1.time_limit_multiple = s.time_limit_multiple) := by
  cases o with
  | unrecognised =>
    simp only [parse_args_case, Except.ok.injEq] at h
    subst h
    exact ⟨fun _ => rfl, fun a ha => by simp at ha, fun _ => rfl⟩
  | h =>
    have := OPT_ADD_ACTION_ok s s1 _ h
    subst this
    exact ⟨fun _ => rfl, fun a ha => by simp at ha, fun _ => rfl⟩
  | x =>
    have := OPT_ADD_ACTION_ok s s1 _ h
    subst this
    exact ⟨fun _ => rfl, fun a ha => by simp at ha, fun _ => rfl⟩
  | c optarg =>
    simp only [parse_args_case] at h
    cases ha : OPT_ADD_ACTION s RSA_OPT_LIC_CREATE with
    | error e => rw [ha] at h; simp at h
    | ok s2 =>
      rw [ha] at h
      have := OPT_ADD_ACTION_ok s s2 _ ha
      subst this
      simp only [Except.ok.injEq] at h
      subst h
      exact ⟨fun _ => rfl, fun a ha => by simp at ha, fun _ => rfl⟩
  | i optarg =>
    simp only [parse_args_case] at h
    cases ha : OPT_ADD_ACTION s RSA_OPT_LIC_INFO with
    | error e => rw [ha] at h; simp at h
    | ok s2 =>
      rw [ha] at h
      have := OPT_ADD_ACTION_ok s s2 _ ha
      subst this
      simp only [Except.ok.injEq] at h
      subst h
      exact ⟨fun _ => rfl, fun a ha => by simp at ha, fun _ => rfl⟩
  | k optarg =>
    simp only [parse_args_case] at h
    cases ha : OPT_ADD s RSA_OPT_LIC_KEY with
    | error e => rw [ha] at h; simp at h
    | ok s2 =>
      rw [ha] at h
      have := OPT_ADD_ok s s2 _ ha
      subst this
      simp only [Except.ok.injEq] at h
      subst h
      exact ⟨fun _ => rfl, fun a ha => by simp at ha, fun _ => rfl⟩
  | v optarg =>
    simp only [parse_args_case] at h
    cases ha : OPT_ADD s RSA_OPT_LIC_VENDOR with
    | error e => rw [ha] at h; simp at h
    | ok s2 =>
      rw [ha] at h
      have := OPT_ADD_ok s s2 _ ha
      subst this
      simp only [Except.ok.injEq] at h
      subst h
      refine ⟨fun hne => absurd rfl hne, fun a ha => ?_, fun _ => rfl⟩
      simp only [Opt.v.injEq] at ha
      subst ha
      rfl
  | u optarg =>
    simp only [parse_args_case] at h
    cases ha : OPT_ADD s RSA_OPT_LIC_TIME_UNIT with
    | error e => rw [ha] at h; simp at h
    | ok s2 =>
      rw [ha] at h
      have := OPT_ADD_ok s s2 _ ha
      subst this
      simp only at h
      split_ifs at h <;> simp only [Except.ok.injEq] at h <;> subst h <;>
        exact ⟨fun _ => rfl, fun a ha => by simp at ha, fun _ => rfl⟩
  | t optarg =>
    simp only [parse_args_case] at h
    cases ha : OPT_ADD s RSA_OPT_LIC_TIME_LIMIT with
    | error e => rw [ha] at h; simp at h
    | ok s2 =>
      rw [ha] at h
      have := OPT_ADD_ok s s2 _ ha
      subst this
      simp only at h
      split_ifs at h
      simp only [Except.ok.injEq] at h
      subst h
      exact ⟨fun _ => rfl, fun a ha => by simp at ha, fun hne => absurd rfl hne⟩

/-- A loop that does not return from a state with the flag of an option set has
not met that option. -/
theorem parse_args_loop_ok_not_mem (opts : List Opt) (s s1 : parse_args_state) (k : Nat)
    (h : parse_args_loop opts s = Except.ok s1) (hb : s.flags.testBit k = true) :
    ∀ o ∈ opts, o.opt ≠ some k := by
  induction opts generalizing s with
  | nil => simp
  | cons o opts ih =>
    simp only [parse_args_loop] at h
    cases hc : parse_args_case s o with
    | error e => rw [hc] at h; exact absurd h (by simp)
    | ok s2 =>
      rw [hc] at h
      have hstep := parse_args_case_ok s s2 o hc
      have hb2 : s2.flags.testBit k = true := by
        cases ho : o.opt with
        | none => rw [(hstep.2 ho).1]; exact hb
        | some j => rw [(hstep.1 j ho).2.1, testBit_or_OPT_FLAG, hb]; rfl
      intro o1 ho1
      rcases List.mem_cons.mp ho1 with rfl | ho1
      · intro hk
        rw [parse_args_case_of_testBit s o1 k hk hb] at hc
        simp at hc
      · exact ih s2 h hb2 o1 ho1

/-- The vendor name and the multiple after a loop that did not return. -/
theorem parse_args_loop_ok_data (opts : List Opt) (s s1 : parse_args_state)
    (h : parse_args_loop opts s = Except.ok s1) :
    ((∀ o ∈ opts, o.opt ≠ some RSA_OPT_LIC_VENDOR) → s1.vendor_name = s.vendor_name) ∧
    (∀ a, Opt.v a ∈ opts → s1.vendor_name = snprintf_s VENDOR_NAME_MAX_LENGTH a) ∧
    ((∀ o ∈ opts, o.opt ≠ some RSA_OPT_LIC_TIME_LIMIT) →
      s1.time_limit_multiple = s.time_limit_multiple) := by
  induction opts generalizing s with
  | nil =>
    simp only [parse_args_loop, Except.ok.injEq] at h
    subst h
    exact ⟨fun _ => rfl, fun a ha => by simp at ha, fun _ => rfl⟩
  | cons o opts ih =>
    simp only [parse_args_loop] at h
    cases hc : parse_args_case s o with
    | error e => rw [hc] at h; exact absurd h (by simp)
    | ok s2 =>
      rw [hc] at h
      have h1 := parse_args_case_ok_data s s2 o hc
      have h2 := ih s2 h
      refine ⟨?_, ?_, ?_⟩
      · intro hno
        rw [h2.1 (fun o1 ho1 => hno o1 (List.mem_cons_of_mem _ ho1)),
          h1.1 (hno o (List.mem_cons_self _ _))]
      · intro a ha
        rcases List.mem_cons.mp ha with rfl | ha
        · have hstep := parse_args_case_ok s s2 (Opt.v a) hc
          have hb2 : s2.flags.testBit RSA_OPT_LIC_VENDOR = true := by
            rw [(hstep.1 _ rfl).2.1, testBit_or_OPT_FLAG]
            simp
          rw [h2.1 (parse_args_loop_ok_not_mem opts s2 s1 _ h hb2), h1.2.1 a rfl]
        · exact h2.2.1 a ha
      · intro hno
        rw [h2.2.2 (fun o1 ho1 => hno o1 (List.mem_cons_of_mem _ ho1)),
          h1.2.2 (hno o (List.mem_cons_self _ _))]

/-! ## The variables of an accepted command line -/

/-- The end of `parse_args` on a create action with a unit and without a time
limit: the warning is printed and the status is 0. -/
theorem parse_args_finish_unit_ignored (now : Int) (s : parse_args_state)
    (ha : s.action = OPT_FLAG RSA_OPT_LIC_CREATE)
    (h0 : s.flags.testBit RSA_OPT_LIC_HELP = false)
    (h5 : s.flags.testBit RSA_OPT_LIC_TIME_UNIT = true)
    (h6 : s.flags.testBit RSA_OPT_LIC_TIME_LIMIT = false)
    (hm : s.time_limit_multiple = 0) :
    parse_args_finish now s = (0, { s with out := s.out ++ [Msg.warning_unit_ignored] }) := by
  have c1 : ¬ s.action = 0 := by
    rw [ha]
    exact OPT_FLAG_ne_zero _
  have c2 : ¬ (s.flags &&& OPT_FLAG RSA_OPT_LIC_HELP ≠ 0 ∧
      s.flags &&& unsigned_int_not (OPT_FLAG RSA_OPT_LIC_HELP) ≠ 0) := by
    rintro ⟨h, -⟩
    rw [and_OPT_FLAG_ne_zero_iff, h0] at h
    simp at h
  have c3 : ¬ (OPT_FLAG_LIC_DATA s.flags ≠ 0 ∧ s.action &&& OPT_FLAG RSA_OPT_LIC_CREATE = 0) := by
    rintro ⟨-, h⟩
    rw [ha] at h
    exact absurd h (by decide)
  have c4 : s.flags &&& OPT_FLAG RSA_OPT_LIC_TIME_UNIT ≠ 0 ∧
      s.flags &&& OPT_FLAG RSA_OPT_LIC_TIME_LIMIT = 0 := by
    refine ⟨(and_OPT_FLAG_ne_zero_iff _ _).mpr h5, ?_⟩
    by_contra h
    rw [← ne_eq, and_OPT_FLAG_ne_zero_iff, h6] at h
    simp at h
  simp only [parse_args_finish, if_neg c1, if_neg c2, if_neg c3, if_pos c4, hm, ne_eq,
    not_true_eq_false, if_false]

/-- The end of `parse_args` when the status is 0: an action is set, the test of
the data flags has passed, and the action, the flags, the vendor name and the
multiple are those of the loop. -/
theorem parse_args_finish_ok (now : Int) (s0 s : parse_args_state)
    (h : parse_args_finish now s0 = (0, s)) :
    s0.action ≠ 0 ∧
    ¬ (OPT_FLAG_LIC_DATA s0.flags ≠ 0 ∧ s0.action &&& OPT_FLAG RSA_OPT_LIC_CREATE = 0) ∧
    s.action = s0.action ∧ s.flags = s0.flags ∧ s.vendor_name = s0.vendor_name ∧
    s.time_limit_multiple = s0.time_limit_multiple ∧
    (s0.time_limit_multiple = 0 → s.time_limit = s0.time_limit) := by
  simp only [parse_args_finish] at h
  split_ifs at h with c1 c2 c3 c4 c5 c5 <;> simp only [Prod.mk.injEq] at h <;>
    first
    | exact absurd h.1 (by decide)
    | (obtain ⟨_, rfl⟩ := h
       refine ⟨c1, c3, rfl, rfl, rfl, rfl, fun hm => ?_⟩
       first
       | rfl
       | exact absurd hm c5)

/-- The action after a loop that did not return is 0 or the flag of one of the
four actions. -/
theorem parse_args_loop_ok_action_cases (opts : List Opt) (s s1 : parse_args_state)
    (hinv : s.action = 0 ∨ ∃ k, k < 4 ∧ s.action = OPT_FLAG k)
    (h : parse_args_loop opts s = Except.ok s1) :
    s1.action = 0 ∨ ∃ k, k < 4 ∧ s1.action = OPT_FLAG k := by
  induction opts generalizing s with
  | nil =>
    simp only [parse_args_loop, Except.ok.injEq] at h
    subst h
    exact hinv
  | cons o opts ih =>
    simp only [parse_args_loop] at h
    cases hc : parse_args_case s o with
    | error e => rw [hc] at h; exact absurd h (by simp)
    | ok s2 =>
      rw [hc] at h
      have hstep := parse_args_case_ok s s2 o hc
      refine ih s2 ?_ h
      cases ho : o.opt with
      | none =>
        rw [(hstep.2 ho).2]
        exact hinv
      | some k =>
        by_cases h4 : k < 4
        · exact Or.inr ⟨k, h4, ((hstep.1 k ho).2.2.1 h4).2⟩
        · rw [(hstep.1 k ho).2.2.2 (by omega)]
          exact hinv

/-- The string that `snprintf` leaves in a buffer of `size` bytes has at most
`size - 1` bytes. -/
theorem strlen_snprintf_s_le (size : Nat) (s : List Nat) :
    strlen (snprintf_s size s) ≤ size - 1 := by
  rw [strlen_eq_length_c_string, snprintf_s,
    c_string_of_nul_free _ (fun b hb => c_string_nul_free s b (List.mem_of_mem_take hb)),
    List.length_take]
  exact Nat.min_le_left _ _

/-! ## The claims on the arguments of the options -/

/-- Claim C21.  Let the options `pre` be read without error and hold no unit
option, and let a unit option with the token `tok` follow.  The token is
accepted exactly when it is a prefix, byte by byte and so case-sensitive, of
`day`, `week`, `month` or `year`: the unit selected is that of the first of
the four, in this order, of which the token is a prefix, and a token that is a
prefix of none makes `parse_args` fail with the message of `RSA_ERR_TIMUNIT`,
whatever follows.  So `d`, `mon` and `year` are accepted, and `Day`, `days`
and `hour` are not. -/
theorem unit_token_matching (key : List Nat) (pre : List Opt) (s : parse_args_state)
    (tok : List Nat)
    (hl : parse_args_loop pre (parse_args_init key) = Except.ok s)
    (hpre : ∀ o ∈ pre, o.opt ≠ some RSA_OPT_LIC_TIME_UNIT) :
    parse_args_loop (pre ++ [Opt.u tok]) (parse_args_init key) =
      (if c_string tok <+: TU_VAL_DAY then
        Except.ok { s with flags := s.flags ||| OPT_FLAG RSA_OPT_LIC_TIME_UNIT,
                           time_limit_unit := SECONDS_IN_DAY }
      else if c_string tok <+: TU_VAL_WEEK then
        Except.ok { s with flags := s.flags ||| OPT_FLAG RSA_OPT_LIC_TIME_UNIT,
                           time_limit_unit := SECONDS_IN_WEEK }
      else if c_string tok <+: TU_VAL_MONTH then
        Except.ok { s with flags := s.flags ||| OPT_FLAG RSA_OPT_LIC_TIME_UNIT,
                           time_limit_unit := SECONDS_IN_MONTH }
      else if c_string tok <+: TU_VAL_YEAR then
        Except.ok { s with flags := s.flags ||| OPT_FLAG RSA_OPT_LIC_TIME_UNIT,
                           time_limit_unit := SECONDS_IN_YEAR }
      else
        Except.error { s with flags := s.flags ||| OPT_FLAG RSA_OPT_LIC_TIME_UNIT,
                              out := s.out ++ [Msg.RSA_ERR_TIMUNIT tok] }) ∧
    (¬ c_string tok <+: TU_VAL_DAY → ¬ c_string tok <+: TU_VAL_WEEK →
      ¬ c_string tok <+: TU_VAL_MONTH → ¬ c_string tok <+: TU_VAL_YEAR →
      ∀ (now : Int) (post : List Opt),
        parse_args now key (pre ++ Opt.u tok :: post) =
          (-1, { s with flags := s.flags ||| OPT_FLAG RSA_OPT_LIC_TIME_UNIT,
                        out := s.out ++ [Msg.RSA_ERR_TIMUNIT tok] })) ∧
    (c_string [100] <+: TU_VAL_DAY ∧ c_string [109, 111, 110] <+: TU_VAL_MONTH ∧
      c_string [121, 101, 97, 114] <+: TU_VAL_YEAR) ∧
    (∀ unit ∈ [TU_VAL_DAY, TU_VAL_WEEK, TU_VAL_MONTH, TU_VAL_YEAR],
      ¬ c_string [68, 97, 121] <+: unit ∧ ¬ c_string [100, 97, 121, 115] <+: unit ∧
      ¬ c_string [104, 111, 117, 114] <+: unit) := by
  have hb : s.flags.testBit RSA_OPT_LIC_TIME_UNIT = false := by
    rw [Bool.eq_false_iff]
    intro h
    obtain ⟨o, ho, hk⟩ := ((parse_args_loop_ok_init key pre s hl).1 _).mp h
    exact hpre o ho hk
  have hc := parse_args_case_u s tok hb
  refine ⟨?_, ?_, by decide, by decide⟩
  · rw [parse_args_loop_append, hl]
    simp only
    rw [parse_args_loop_singleton, hc]
  · intro h1 h2 h3 h4 now post
    rw [if_neg h1, if_neg h2, if_neg h3, if_neg h4] at hc
    apply parse_args_of_loop_error
    rw [parse_args_loop_append, hl]
    simp only
    exact parse_args_loop_cons_of_error _ _ _ _ hc

/-- Claim C21 at the token `mon` after a create option: the unit is a month; and
at the token `days`: the round fails. -/
theorem unit_token_matching_witness :
    parse_args_loop [Opt.c [120]] (parse_args_init []) =
      Except.ok { flags := 2, action := 2, key := [], license := [120, 46, 108, 105, 99],
                  vendor_name := [], time_limit := 0, time_limit_unit := SECONDS_IN_MONTH,
                  time_limit_multiple := 0, out := [] } ∧
    (∀ o ∈ [Opt.c [120]], o.opt ≠ some RSA_OPT_LIC_TIME_UNIT) ∧
    parse_args_loop ([Opt.c [120]] ++ [Opt.u [109, 111, 110]]) (parse_args_init []) =
      Except.ok { flags := 34, action := 2, key := [], license := [120, 46, 108, 105, 99],
                  vendor_name := [], time_limit := 0, time_limit_unit := 2592000,
                  time_limit_multiple := 0, out := [] } ∧
    parse_args 0 [] ([Opt.c [120]] ++ Opt.u [100, 97, 121, 115] :: [Opt.t [49]]) =
      (-1, { flags := 34, action := 2, key := [], license := [120, 46, 108, 105, 99],
             vendor_name := [], time_limit := 0, time_limit_unit := 2592000,
             time_limit_multiple := 0, out := [Msg.RSA_ERR_TIMUNIT [100, 97, 121, 115]] }) :=
  ⟨rfl, by decide,
    (unit_token_matching [] [Opt.c [120]] _ [109, 111, 110] rfl (by decide)).1.trans rfl,
    ((unit_token_matching [] [Opt.c [120]] _ [100, 97, 121, 115] rfl (by decide)).2.1
      (by decide) (by decide) (by decide) (by decide) 0 [Opt.t [49]]).trans rfl⟩

/-- Claim C22, as stated, fails.  The argument of `--time-limit` may start with
white space: after a create option the argument made of a space and `5`, which
as a whole is not a decimal integer, is accepted with the multiple 5.  The
empty argument is accepted too, with the multiple 0, and the argument
`4294967297` is accepted with the multiple 1, which is not its value. -/
theorem time_limit_argument_not_whole_decimal :
    parse_args 0 [] [Opt.c [120], Opt.t [32, 53]] =
      (0, { flags := 66, action := 2, key := [], license := [120, 46, 108, 105, 99],
            vendor_name := [], time_limit := 13046400, time_limit_unit := 2592000,
            time_limit_multiple := 5, out := [] }) ∧
    parse_args 0 [] [Opt.c [120], Opt.t []] =
      (0, { flags := 66, action := 2, key := [], license := [120, 46, 108, 105, 99],
            vendor_name := [], time_limit := 0, time_limit_unit := 2592000,
            time_limit_multiple := 0, out := [] }) ∧
    parse_args 0 [] [Opt.c [120], Opt.t [52, 50, 57, 52, 57, 54, 55, 50, 57, 55]] =
      (0, { flags := 66, action := 2, key := [], license := [120, 46, 108, 105, 99],
            vendor_name := [], time_limit := 2678400, time_limit_unit := 2592000,
            time_limit_multiple := 1, out := [] }) :=
  ⟨rfl, rfl, rfl⟩

/-- Claim C22, amended.  Let the options `pre` be read without error and hold
no time limit option, and let a time limit option with a non-empty argument
`tok` follow.  The argument is accepted exactly when it consists of optional
white space, an optional sign `+` or `-` and one or more decimal digits; when
the integer so written fits an `int`, its value is the multiple; and every
other non-empty argument, such as one that goes on after the digits, makes
`parse_args` fail with the message of `RSA_ERR_ARGNAN`, whatever follows. -/
theorem time_limit_argument (key : List Nat) (pre : List Opt) (s : parse_args_state)
    (tok : List Nat)
    (hl : parse_args_loop pre (parse_args_init key) = Except.ok s)
    (hpre : ∀ o ∈ pre, o.opt ≠ some RSA_OPT_LIC_TIME_LIMIT)
    (hne : tok.headD 0 ≠ 0) :
    ((∃ s1, parse_args_loop (pre ++ [Opt.t tok]) (parse_args_init key) = Except.ok s1) ↔
      ∃ ws sign ds, (∀ c ∈ ws, isspace c = true) ∧
        (sign = [] ∨ sign = [43] ∨ sign = [45]) ∧ ds ≠ [] ∧
        (∀ c ∈ ds, isdigit c = true) ∧ c_string tok = ws ++ (sign ++ ds)) ∧
    (∀ ws sign ds, (∀ c ∈ ws, isspace c = true) →
      (sign = [] ∨ sign = [43] ∨ sign = [45]) → ds ≠ [] →
      (∀ c ∈ ds, isdigit c = true) → c_string tok = ws ++ (sign ++ ds) →
      ∀ v : Int,
        v = (if sign = [45] then -((ds.foldl (fun a c => a * 10 + (c - 48)) 0 : Nat) : Int)
             else ((ds.foldl (fun a c => a * 10 + (c - 48)) 0 : Nat) : Int)) →
        -2 ^ 31 ≤ v → v < 2 ^ 31 →
        parse_args_loop (pre ++ [Opt.t tok]) (parse_args_init key) =
          Except.ok { s with flags := s.flags ||| OPT_FLAG RSA_OPT_LIC_TIME_LIMIT,
                             time_limit_multiple := v }) ∧
    ((¬ ∃ ws sign ds, (∀ c ∈ ws, isspace c = true) ∧
        (sign = [] ∨ sign = [43] ∨ sign = [45]) ∧ ds ≠ [] ∧
        (∀ c ∈ ds, isdigit c = true) ∧ c_string tok = ws ++ (sign ++ ds)) →
      ∀ (now : Int) (post : List Opt),
        (parse_args now key (pre ++ Opt.t tok :: post)).1 = -1 ∧
        (parse_args now key (pre ++ Opt.t tok :: post)).2.out =
          s.out ++ [Msg.RSA_ERR_ARGNAN tok]) := by
  have hb := testBit_eq_false_of_not_mem key pre s _ hl hpre
  have hc := parse_args_case_t s tok hb
  have hiff := strtol_endptr_iff tok
  refine ⟨?_, ?_, ?_⟩
  · rw [parse_args_loop_append_singleton key pre _ s hl, hc]
    constructor
    · rintro ⟨s1, h1⟩
      by_cases he : (strtol tok).2.headD 0 = 0
      · rcases hiff.mp he with h0 | hex
        · exact absurd h0 hne
        · exact hex
      · rw [if_pos he] at h1
        simp at h1
    · intro hex
      have he : ¬ (strtol tok).2.headD 0 ≠ 0 := not_not.mpr (hiff.mpr (Or.inr hex))
      rw [if_neg he]
      exact ⟨_, rfl⟩
  · intro ws sign ds hws hsign hds0 hds hcs v hv hlo hhi
    obtain ⟨rest, h1, h2⟩ := exists_rest_of_c_string tok
    rw [hcs, List.append_assoc, List.append_assoc] at h1
    have hst := strtol_of_form ws sign ds rest hws hsign hds0 hds (by rw [h2]; rfl)
    rw [← h1, ← hv] at hst
    rw [parse_args_loop_append_singleton key pre _ s hl, hc, hst]
    simp only
    rw [if_neg (not_not.mpr h2), int_cast_clamp_of_int_range v hlo hhi]
  · intro hnex now post
    have he : (strtol tok).2.headD 0 ≠ 0 := by
      intro he
      rcases hiff.mp he with h0 | hex
      · exact hne h0
      · exact hnex hex
    rw [if_pos he] at hc
    rw [parse_args_append_cons_of_case_error now key pre post _ s _ hl hc]
    exact ⟨rfl, rfl⟩

/-- Claim C22, amended, after a create option: the argument `-12` is accepted
with the multiple -12, and the argument `5x` makes `parse_args` fail with the
message of `RSA_ERR_ARGNAN`. -/
theorem time_limit_argument_witness :
    parse_args_loop [Opt.c [120]] (parse_args_init []) =
      Except.ok { flags := 2, action := 2, key := [], license := [120, 46, 108, 105, 99],
                  vendor_name := [], time_limit := 0, time_limit_unit := SECONDS_IN_MONTH,
                  time_limit_multiple := 0, out := [] } ∧
    (∀ o ∈ [Opt.c [120]], o.opt ≠ some RSA_OPT_LIC_TIME_LIMIT) ∧
    ([45, 49, 50] : List Nat).headD 0 ≠ 0 ∧ ([53, 120] : List Nat).headD 0 ≠ 0 ∧
    parse_args_loop ([Opt.c [120]] ++ [Opt.t [45, 49, 50]]) (parse_args_init []) =
      Except.ok { flags := 66, action := 2, key := [], license := [120, 46, 108, 105, 99],
                  vendor_name := [], time_limit := 0, time_limit_unit := SECONDS_IN_MONTH,
                  time_limit_multiple := -12, out := [] } ∧
    (parse_args 0 [] ([Opt.c [120]] ++ Opt.t [53, 120] :: [Opt.u [100]])).1 = -1 ∧
    (parse_args 0 [] ([Opt.c [120]] ++ Opt.t [53, 120] :: [Opt.u [100]])).2.out =
      [Msg.RSA_ERR_ARGNAN [53, 120]] :=
  ⟨rfl, by decide, by decide, by decide,
    ((time_limit_argument [] [Opt.c [120]] _ [45, 49, 50] rfl (by decide) (by decide)).2.1
      [] [45] [49, 50] (by simp) (by simp) (by simp) (by decide) rfl (-12) rfl
      (by decide) (by decide)).trans rfl,
    (time_limit_argument [] [Opt.c [120]] _ [53, 120] rfl (by decide) (by decide)).2.2
      (fun hex => absurd ((strtol_endptr_iff [53, 120]).mpr (Or.inr hex)) (by decide))
      0 [Opt.u [100]]⟩

/-! ## The claims on accepted command lines -/

/-- Claim C23 fails on the code.  The command line `--create=x --time-limit=-5`
is accepted with the multiple -5, and the time limit is the current time less
12873600 seconds: it is in the past, so it is neither 0 (unless the current
time is 12873600) nor at least a day after the current time. -/
theorem negative_multiple_accepted (now : Int) :
    (parse_args now [] [Opt.c [120], Opt.t [45, 53]]).1 = 0 ∧
    (parse_args now [] [Opt.c [120], Opt.t [45, 53]]).2.action = OPT_FLAG RSA_OPT_LIC_CREATE ∧
    (parse_args now [] [Opt.c [120], Opt.t [45, 53]]).2.time_limit_multiple = -5 ∧
    (parse_args now [] [Opt.c [120], Opt.t [45, 53]]).2.time_limit = now - 12873600 ∧
    (parse_args now [] [Opt.c [120], Opt.t [45, 53]]).2.time_limit < now ∧
    (parse_args 1000 [] [Opt.c [120], Opt.t [45, 53]]).2.time_limit = -12872600 := by
  have h : parse_args now [] [Opt.c [120], Opt.t [45, 53]] =
      (0, { flags := 66, action := 2, key := [], license := [120, 46, 108, 105, 99],
            vendor_name := [], time_limit := now + 86400 + -12960000,
            time_limit_unit := 2592000, time_limit_multiple := -5, out := [] }) := rfl
  rw [h]
  refine ⟨rfl, rfl, rfl, ?_, ?_, rfl⟩
  · show now + 86400 + -12960000 = now - 12873600
    omega
  · show now + 86400 + -12960000 < now
    omega

/-- Claim C24.  An option sequence made of a create option, a unit option with
a valid token, and possibly a vendor and a key option, each at most once and in
any order, is accepted: the action is create, the warning that the unit is
ignored is printed, and the time limit is 0 whatever the unit. -/
theorem unit_without_limit_is_accepted (now : Int) (key : List Nat) (opts : List Opt)
    (hkinds : ∀ o ∈ opts, (∃ a, o = Opt.c a) ∨ (∃ a, o = Opt.u a) ∨ (∃ a, o = Opt.v a) ∨
      (∃ a, o = Opt.k a))
    (hnd : (opts.filterMap Opt.opt).Nodup)
    (hc : ∃ a, Opt.c a ∈ opts) (hu : ∃ tok, Opt.u tok ∈ opts)
    (hvalid : ∀ tok, Opt.u tok ∈ opts →
      c_string tok <+: TU_VAL_DAY ∨ c_string tok <+: TU_VAL_WEEK ∨
      c_string tok <+: TU_VAL_MONTH ∨ c_string tok <+: TU_VAL_YEAR) :
    (parse_args now key opts).1 = 0 ∧
    (parse_args now key opts).2.action = OPT_FLAG RSA_OPT_LIC_CREATE ∧
    Msg.warning_unit_ignored ∈ (parse_args now key opts).2.out ∧
    (parse_args now key opts).2.time_limit = 0 := by
  have hok : ∀ o ∈ opts, o.optarg_ok = true := by
    intro o ho
    rcases hkinds o ho with ⟨a, rfl⟩ | ⟨a, rfl⟩ | ⟨a, rfl⟩ | ⟨a, rfl⟩
    · rfl
    · simp only [Opt.optarg_ok, Bool.or_eq_true, is_str_prefix_iff]
      rw [c_string_of_nul_free TU_VAL_DAY (by decide),
        c_string_of_nul_free TU_VAL_WEEK (by decide),
        c_string_of_nul_free TU_VAL_MONTH (by decide),
        c_string_of_nul_free TU_VAL_YEAR (by decide)]
      have := hvalid a ho
      tauto
    · rfl
    · rfl
  have hkind_of : ∀ o ∈ opts, ∀ k, o.opt = some k → k = 1 ∨ k = 5 ∨ k = 4 ∨ k = 7 := by
    intro o ho k hk
    rcases hkinds o ho with ⟨a, rfl⟩ | ⟨a, rfl⟩ | ⟨a, rfl⟩ | ⟨a, rfl⟩ <;>
      simp only [Opt.opt, Option.some.injEq, RSA_OPT_LIC_CREATE, RSA_OPT_LIC_TIME_UNIT,
        RSA_OPT_LIC_VENDOR, RSA_OPT_LIC_KEY] at hk <;> omega
  have hone : ∀ o1 ∈ opts, ∀ o2 ∈ opts, ∀ k1 k2, o1.opt = some k1 → o2.opt = some k2 →
      k1 < 4 → k2 < 4 → k1 = k2 := by
    intro o1 ho1 o2 ho2 k1 k2 hk1 hk2 h1 h2
    have a1 := hkind_of o1 ho1 k1 hk1
    have a2 := hkind_of o2 ho2 k2 hk2
    omega
  obtain ⟨s, hl⟩ := parse_args_loop_ok_of opts (parse_args_init key) hok hnd
    (fun o _ k _ => parse_args_init_flags key k) (Or.inl rfl) hone
  have hinit := parse_args_loop_ok_init key opts s hl
  obtain ⟨a, hca⟩ := hc
  obtain ⟨tok, hut⟩ := hu
  have ha : s.action = OPT_FLAG RSA_OPT_LIC_CREATE :=
    hinit.2 RSA_OPT_LIC_CREATE (by decide) ⟨_, hca, rfl⟩
  have h0 : s.flags.testBit RSA_OPT_LIC_HELP = false := by
    rw [Bool.eq_false_iff]
    intro h
    obtain ⟨o, ho, hk⟩ := (hinit.1 _).mp h
    have := hkind_of o ho _ hk
    simp only [RSA_OPT_LIC_HELP] at this
    omega
  have h5 : s.flags.testBit RSA_OPT_LIC_TIME_UNIT = true := (hinit.1 _).mpr ⟨_, hut, rfl⟩
  have hnot : ∀ o ∈ opts, o.opt ≠ some RSA_OPT_LIC_TIME_LIMIT := by
    intro o ho hk
    have := hkind_of o ho _ hk
    simp only [RSA_OPT_LIC_TIME_LIMIT] at this
    omega
  have h6 : s.flags.testBit RSA_OPT_LIC_TIME_LIMIT = false :=
    testBit_eq_false_of_not_mem key opts s _ hl hnot
  have hm : s.time_limit_multiple = 0 := (parse_args_loop_ok_data opts _ s hl).2.2 hnot
  have ht : s.time_limit = 0 := (parse_args_loop_ok_time opts _ s hl).1
  rw [parse_args_of_loop_ok now key opts s hl,
    parse_args_finish_unit_ignored now s ha h0 h5 h6 hm]
  exact ⟨rfl, ha, by simp, ht⟩

/-- Claim C24 at the command line `--create=x --time-unit=week`. -/
theorem unit_without_limit_is_accepted_witness :
    (parse_args 0 [] [Opt.c [120], Opt.u [119, 101, 101, 107]]).1 = 0 ∧
    (parse_args 0 [] [Opt.c [120], Opt.u [119, 101, 101, 107]]).2.action =
      OPT_FLAG RSA_OPT_LIC_CREATE ∧
    Msg.warning_unit_ignored ∈ (parse_args 0 [] [Opt.c [120], Opt.u [119, 101, 101, 107]]).2.out ∧
    (parse_args 0 [] [Opt.c [120], Opt.u [119, 101, 101, 107]]).2.time_limit = 0 :=
  unit_without_limit_is_accepted 0 [] [Opt.c [120], Opt.u [119, 101, 101, 107]]
    (by simp) (by decide) ⟨[120], by simp⟩ ⟨[119, 101, 101, 107], by simp⟩
    (by
      intro tok h
      simp only [List.mem_cons, Opt.u.injEq, List.mem_singleton, false_or, reduceCtorEq,
        List.not_mem_nil, or_false] at h
      subst h
      exact Or.inr (Or.inl (by decide)))

/-- Claim C25, as stated, fails.  The command line `--time-limit=abc` holds no
action and `parse_args` fails on it, but from within the loop: the message of
`RSA_ERR_ARGNAN` is printed and the usage summary is not. -/
theorem no_action_without_usage :
    (parse_args 0 [] [Opt.t [97, 98, 99]]).1 = -1 ∧
    (parse_args 0 [] [Opt.t [97, 98, 99]]).2.out = [Msg.RSA_ERR_ARGNAN [97, 98, 99]] ∧
    Msg.usage ∉ (parse_args 0 [] [Opt.t [97, 98, 99]]).2.out := by
  have h : parse_args 0 [] [Opt.t [97, 98, 99]] =
      (-1, { flags := 64, action := 0, key := [], license := [], vendor_name := [],
             time_limit := 0, time_limit_unit := 2592000, time_limit_multiple := 0,
             out := [Msg.RSA_ERR_ARGNAN [97, 98, 99]] }) := rfl
  rw [h]
  exact ⟨rfl, rfl, by simp⟩

/-- Claim C25, amended.  On every option sequence that holds none of the four
action options, the empty one and those of data options only among them,
`parse_args` fails; and when no option is repeated, every unit is valid and
every time limit is numeric, so that the loop does not return, the usage
summary is printed and nothing else. -/
theorem no_action_fails (now : Int) (key : List Nat) (opts : List Opt)
    (hno : ∀ o ∈ opts, o.opt ≠ some RSA_OPT_LIC_HELP ∧ o.opt ≠ some RSA_OPT_LIC_CREATE ∧
      o.opt ≠ some RSA_OPT_LIC_INFO ∧ o.opt ≠ some RSA_OPT_LIC_TEST) :
    (parse_args now key opts).1 = -1 ∧
    ((∀ o ∈ opts, o.optarg_ok = true) → (opts.filterMap Opt.opt).Nodup →
      Msg.usage ∈ (parse_args now key opts).2.out ∧
      ∀ m ∈ (parse_args now key opts).2.out, m = Msg.usage) := by
  have hno4 : ∀ o ∈ opts, ∀ k, o.opt = some k → 4 ≤ k := by
    intro o ho k hk
    obtain ⟨h0, h1, h2, h3⟩ := hno o ho
    rw [hk] at h0 h1 h2 h3
    simp only [RSA_OPT_LIC_HELP, RSA_OPT_LIC_CREATE, RSA_OPT_LIC_INFO, RSA_OPT_LIC_TEST, ne_eq,
      Option.some.injEq] at h0 h1 h2 h3
    omega
  have hfin : ∀ s, parse_args_loop opts (parse_args_init key) = Except.ok s →
      parse_args now key opts = (-1, { s with out := s.out ++ [Msg.usage] }) := by
    intro s hl
    have ha : s.action = 0 := parse_args_loop_ok_no_action opts _ s hno4 hl
    rw [parse_args_of_loop_ok now key opts s hl, parse_args_finish, if_pos ha]
  constructor
  · cases hl : parse_args_loop opts (parse_args_init key) with
    | error e => rw [parse_args_of_loop_error now key opts e hl]
    | ok s => rw [hfin s hl]
  · intro hok hnd
    obtain ⟨s, hl⟩ := parse_args_loop_ok_of opts (parse_args_init key) hok hnd
      (fun o _ k _ => parse_args_init_flags key k) (Or.inl rfl)
      (fun o1 ho1 o2 _ k1 k2 hk1 _ h1 _ => absurd (hno4 o1 ho1 k1 hk1) (by omega))
    have hout := parse_args_loop_ok_out opts _ s (by simp [parse_args_init]) hl
    rw [hfin s hl]
    constructor
    · simp
    · intro m hm
      simp only [List.mem_append, List.mem_singleton] at hm
      rcases hm with hm | hm
      · exact hout m hm
      · exact hm

/-- Claim C25, amended, at the command line `--vendor=a --time-unit=d`. -/
theorem no_action_fails_witness :
    (parse_args 0 [] [Opt.v [97], Opt.u [100]]).1 = -1 ∧
    Msg.usage ∈ (parse_args 0 [] [Opt.v [97], Opt.u [100]]).2.out ∧
    ∀ m ∈ (parse_args 0 [] [Opt.v [97], Opt.u [100]]).2.out, m = Msg.usage :=
  ⟨(no_action_fails 0 [] [Opt.v [97], Opt.u [100]] (by decide)).1,
    (no_action_fails 0 [] [Opt.v [97], Opt.u [100]] (by decide)).2 (by decide) (by decide)⟩

/-! ## The claims on the failures of the decoder -/

/-- Claim C26 fails on the code.  On a buffer of 79 bytes, with the version 1,
a vendor field and only 7 bytes of time limit, `rsa_license_extract_rivermax`
fails at the time limit, and by then it has written the version and the vendor
field into the record of the caller: a record with the version 7 and the vendor
name `Z` comes back with the version 1 and the vendor field of the buffer. -/
theorem extract_not_atomic (mktime_gmtime : Int → Int) :
    rsa_license_extract_rivermax mktime_gmtime
        (u64_bytes 1 ++ (65 :: List.replicate 63 0) ++ List.replicate 7 0)
        { version := 7, vendor_name := [90], time_limit := 5 } =
      (-1, { version := 1, vendor_name := 65 :: List.replicate 63 0, time_limit := 5 }) ∧
    ({ version := 1, vendor_name := 65 :: List.replicate 63 0, time_limit := 5 } :
        rsa_license_data) ≠ { version := 7, vendor_name := [90], time_limit := 5 } := by
  constructor
  · rfl
  · decide

/-- Claim C27 fails on the code.  On a buffer whose version field is 0,
`rsa_license_info_rivermax` prints two of the three version diagnostics, `No
such license version` and then `unknown license version error`: the second
test is not the `else` of the first. -/
theorem version_zero_two_diagnostics (mktime_gmtime : Int → Int) (rest : List Nat) :
    rsa_license_info_rivermax mktime_gmtime (u64_bytes 0 ++ rest) =
      (-1, [Line.license_format_version 0, Line.no_such_license_version,
            Line.unknown_license_version_error]) := by
  have ht : (u64_bytes 0 ++ rest).take 8 = u64_bytes 0 :=
    take_append_of_length _ _ 8 (length_u64_bytes 0)
  have hv : le_value ((u64_bytes 0 ++ rest).take 8) = 0 := by
    rw [ht]
    rfl
  rw [rsa_license_info_rivermax_of_version_ne_one mktime_gmtime _
    (by rw [List.length_append, length_u64_bytes]; omega) (by rw [hv]; decide), hv]
  rfl

/-! ## The claims on the resolved request -/

/-- Claim C28.  Whenever `parse_args` succeeds, the action is the flag of one
of the four actions help, create, info and test, which are the single bits 1,
2, 4 and 8; and when the action is not create, the time limit is 0 and the
vendor name is empty. -/
theorem resolved_request_invariant (now : Int) (key : List Nat) (opts : List Opt)
    (s : parse_args_state) (h : parse_args now key opts = (0, s)) :
    (s.action = OPT_FLAG RSA_OPT_LIC_HELP ∨ s.action = OPT_FLAG RSA_OPT_LIC_CREATE ∨
      s.action = OPT_FLAG RSA_OPT_LIC_INFO ∨ s.action = OPT_FLAG RSA_OPT_LIC_TEST) ∧
    (OPT_FLAG RSA_OPT_LIC_HELP = 1 ∧ OPT_FLAG RSA_OPT_LIC_CREATE = 2 ∧
      OPT_FLAG RSA_OPT_LIC_INFO = 4 ∧ OPT_FLAG RSA_OPT_LIC_TEST = 8) ∧
    (s.action ≠ OPT_FLAG RSA_OPT_LIC_CREATE → s.time_limit = 0 ∧ s.vendor_name = []) := by
  cases hl : parse_args_loop opts (parse_args_init key) with
  | error e =>
    rw [parse_args_of_loop_error now key opts e hl] at h
    simp at h
  | ok s0 =>
    rw [parse_args_of_loop_ok now key opts s0 hl] at h
    obtain ⟨ha0, hdata, hact, -, hvend, -, htime⟩ := parse_args_finish_ok now s0 s h
    have hcases := parse_args_loop_ok_action_cases opts _ s0 (Or.inl rfl) hl
    have hk : ∃ k, k < 4 ∧ s0.action = OPT_FLAG k := by
      rcases hcases with h0 | hk
      · exact absurd h0 ha0
      · exact hk
    obtain ⟨k, h4, hk⟩ := hk
    refine ⟨?_, by decide, ?_⟩
    · rw [hact, hk]
      interval_cases k
      · exact Or.inl rfl
      · exact Or.inr (Or.inl rfl)
      · exact Or.inr (Or.inr (Or.inl rfl))
      · exact Or.inr (Or.inr (Or.inr rfl))
    · intro hne
      rw [hact, hk] at hne
      have hand : s0.action &&& OPT_FLAG RSA_OPT_LIC_CREATE = 0 := by
        rw [hk]
        interval_cases k
        · decide
        · exact absurd rfl hne
        · decide
        · decide
      have hd0 : OPT_FLAG_LIC_DATA s0.flags = 0 := by
        by_contra hd
        exact hdata ⟨hd, hand⟩
      have hbit : ∀ d, d = 4 ∨ d = 5 ∨ d = 6 → s0.flags.testBit d = false := by
        intro d hd
        rw [Bool.eq_false_iff]
        intro hb
        exact and_ne_zero_of_testBit _ _ d hb (testBit_lic_data_mask d hd) hd0
      have hinit := parse_args_loop_ok_init key opts s0 hl
      have hnov : ∀ o ∈ opts, o.opt ≠ some RSA_OPT_LIC_VENDOR := by
        intro o ho hko
        have := (hinit.1 RSA_OPT_LIC_VENDOR).mpr ⟨o, ho, hko⟩
        rw [hbit RSA_OPT_LIC_VENDOR (Or.inl rfl)] at this
        simp at this
      have hnot : ∀ o ∈ opts, o.opt ≠ some RSA_OPT_LIC_TIME_LIMIT := by
        intro o ho hko
        have := (hinit.1 RSA_OPT_LIC_TIME_LIMIT).mpr ⟨o, ho, hko⟩
        rw [hbit RSA_OPT_LIC_TIME_LIMIT (Or.inr (Or.inr rfl))] at this
        simp at this
      have hdat := parse_args_loop_ok_data opts _ s0 hl
      have hm : s0.time_limit_multiple = 0 := hdat.2.2 hnot
      have ht : s0.time_limit = 0 := (parse_args_loop_ok_time opts _ s0 hl).1
      exact ⟨(htime hm).trans ht, hvend.trans (hdat.1 hnov)⟩

/-- Claim C28 at the command line `--info=x --key=k`: the action is info, the
time limit is 0 and the vendor name is empty. -/
theorem resolved_request_invariant_witness :
    parse_args 0 [] [Opt.i [120], Opt.k [107]] =
      (0, (parse_args 0 [] [Opt.i [120], Opt.k [107]]).2) ∧
    (parse_args 0 [] [Opt.i [120], Opt.k [107]]).2.action = OPT_FLAG RSA_OPT_LIC_INFO ∧
    ((parse_args 0 [] [Opt.i [120], Opt.k [107]]).2.action ≠ OPT_FLAG RSA_OPT_LIC_CREATE →
      (parse_args 0 [] [Opt.i [120], Opt.k [107]]).2.time_limit = 0 ∧
      (parse_args 0 [] [Opt.i [120], Opt.k [107]]).2.vendor_name = []) :=
  ⟨rfl, rfl, (resolved_request_invariant 0 [] [Opt.i [120], Opt.k [107]] _ rfl).2.2⟩

/-- Claim C29.  On every command line that `parse_args` accepts, the vendor
name stored is made of the first bytes of the argument of the vendor option, as
many as the argument has and at most 63, and it is empty without a vendor
option.  The record that `license_create` builds from it holds that name, or
`Ilan Smith` when the name is empty; its vendor name has at most 63 bytes, so
`rsa_encrypt_vendor_name` does not fail on it, and `rsa_license_create_rivermax`
returns a plaintext. -/
theorem vendor_name_always_encodes (now : Int) (key : List Nat) (opts : List Opt)
    (s : parse_args_state) (h : parse_args now key opts = (0, s)) :
    (∀ a, Opt.v a ∈ opts →
      s.vendor_name = (c_string a).take 63 ∧ s.vendor_name.length = min (strlen a) 63) ∧
    ((∀ a, Opt.v a ∉ opts) → s.vendor_name = []) ∧
    (license_create_license_data s.vendor_name s.time_limit).vendor_name =
      (if s.vendor_name = [] then VENDOR_NAME_DEFAULT else s.vendor_name) ∧
    strlen (license_create_license_data s.vendor_name s.time_limit).vendor_name ≤ 63 ∧
    (∀ buf, rsa_encrypt_vendor_name buf
      (license_create_license_data s.vendor_name s.time_limit).vendor_name ≠ none) ∧
    rsa_license_create_rivermax (license_create_license_data s.vendor_name s.time_limit) ≠
      none := by
  cases hl : parse_args_loop opts (parse_args_init key) with
  | error e =>
    rw [parse_args_of_loop_error now key opts e hl] at h
    simp at h
  | ok s0 =>
    rw [parse_args_of_loop_ok now key opts s0 hl] at h
    obtain ⟨-, -, -, -, hvend, -, -⟩ := parse_args_finish_ok now s0 s h
    have hdat := parse_args_loop_ok_data opts _ s0 hl
    have h1 : ∀ a, Opt.v a ∈ opts → s.vendor_name = (c_string a).take 63 := by
      intro a ha
      rw [hvend, hdat.2.1 a ha]
      rfl
    have h2 : (∀ a, Opt.v a ∉ opts) → s.vendor_name = [] := by
      intro hno
      rw [hvend, hdat.1]
      · rfl
      · intro o ho hk
        cases o <;> simp [Opt.opt, RSA_OPT_LIC_VENDOR, RSA_OPT_LIC_HELP, RSA_OPT_LIC_CREATE,
          RSA_OPT_LIC_INFO, RSA_OPT_LIC_TEST, RSA_OPT_LIC_KEY, RSA_OPT_LIC_TIME_UNIT,
          RSA_OPT_LIC_TIME_LIMIT] at hk
        exact hno _ ho
    have hnul : ∀ b ∈ s.vendor_name, b ≠ 0 := by
      by_cases hex : ∃ a, Opt.v a ∈ opts
      · obtain ⟨a, ha⟩ := hex
        rw [h1 a ha]
        exact fun b hb => c_string_nul_free a b (List.mem_of_mem_take hb)
      · rw [h2 (fun a ha => hex ⟨a, ha⟩)]
        simp
    have hlen : s.vendor_name.length ≤ 63 := by
      by_cases hex : ∃ a, Opt.v a ∈ opts
      · obtain ⟨a, ha⟩ := hex
        rw [h1 a ha, List.length_take]
        exact Nat.min_le_left _ _
      · rw [h2 (fun a ha => hex ⟨a, ha⟩)]
        simp
    have h3 : (license_create_license_data s.vendor_name s.time_limit).vendor_name =
        (if s.vendor_name = [] then VENDOR_NAME_DEFAULT else s.vendor_name) := by
      simp only [license_create_license_data]
      by_cases he : s.vendor_name = []
      · rw [he]
        rfl
      · obtain ⟨b, l, hbl⟩ := List.exists_cons_of_ne_nil he
        have hb : b ≠ 0 := hnul b (by rw [hbl]; simp)
        have hh : s.vendor_name.headD 0 ≠ 0 := by rw [hbl]; simpa using hb
        rw [if_pos hh, if_neg he, snprintf_s, c_string_of_nul_free _ hnul]
        exact List.take_of_length_le (by simp only [VENDOR_NAME_MAX_LENGTH]; omega)
    have h4 : strlen (license_create_license_data s.vendor_name s.time_limit).vendor_name ≤ 63 :=
      strlen_snprintf_s_le VENDOR_NAME_MAX_LENGTH _
    refine ⟨fun a ha => ⟨h1 a ha, ?_⟩, h2, h3, h4, ?_, ?_⟩
    · rw [h1 a ha, List.length_take, strlen_eq_length_c_string, Nat.min_comm]
    · intro buf hn
      rw [rsa_encrypt_vendor_name_eq_none_iff] at hn
      omega
    · rw [rsa_license_create_rivermax_eq _ (by omega)]
      simp

/-- Claim C29 at the command line `--create=x --vendor=ab`. -/
theorem vendor_name_always_encodes_witness :
    parse_args 0 [] [Opt.c [120], Opt.v [97, 98]] =
      (0, (parse_args 0 [] [Opt.c [120], Opt.v [97, 98]]).2) ∧
    (parse_args 0 [] [Opt.c [120], Opt.v [97, 98]]).2.vendor_name = [97, 98] ∧
    rsa_license_create_rivermax
      (license_create_license_data (parse_args 0 [] [Opt.c [120], Opt.v [97, 98]]).2.vendor_name
        (parse_args 0 [] [Opt.c [120], Opt.v [97, 98]]).2.time_limit) ≠ none :=
  ⟨rfl, rfl,
    (vendor_name_always_encodes 0 [] [Opt.c [120], Opt.v [97, 98]] _ rfl).2.2.2.2.2⟩

end RsaLicense
